import Mathlib

/-!
Rate-limiting keeper: flow accounting.

Shallow embedding of `modules/rate-limiting/keeper/flow.go`.

* `sdkmath.Int` amounts are modelled as `Int`, `uint64` sequences as `Nat`.
* `sdk.Context` is modelled as the record `Context`: the contents of the stores the
  keeper reads and writes, the bank supply, the block time and the emitted events.
  Every keeper method takes the context and returns its result together with the
  context after the call.
* `rateLimit.Flow` is a pointer in the source (`AddOutflow` mutates it and the caller
  persists the mutated record), so `UpdateFlow` returns the rate limit after the call
  next to the error.
* The `types` package (`RateLimit`, `Flow`, `Quota`, `AddOutflow`, `AddInflow`) and the
  keeper's store accessors are not part of `flow.go`; they are modelled from the
  specification and marked as such.
* `flow.go` hands `AddOutflow` and `AddInflow` the flow, the amount and the quota only, so
  the one callee of the check that can read the block time and the bank supply before the
  addition is the lookup `GetRateLimit`. The lookup is modelled twice: `GetRateLimit` is
  the plain read of the store, `GetRateLimitFresh` is the read with the lazy window
  rollover and the fresh channel value the specification describes. The statements about
  the rollover and about the channel value are over the second one.
-/

namespace RateLimiting

/-- Packet direction, `types.PacketDirection`: the two named values the source switches
on, and `other code` for any further value of the underlying enum integer. -/
inductive PacketDirection where
  | PACKET_SEND
  | PACKET_RECV
  | other (code : Int)
  deriving DecidableEq, Repr

/-- Errors returned by the flow functions. `ErrDenomIsBlacklisted denom` is
`Wrapf(types.ErrDenomIsBlacklisted, "denom %s is blacklisted", denom)`,
`ErrInvalidRequest direction` is
`Wrapf(sdkerrors.ErrInvalidRequest, "invalid packet direction (%s)", direction)`,
`RateLimitExceeded` is the quota error of `AddOutflow` and `AddInflow`. -/
inductive Error where
  | ErrDenomIsBlacklisted (denom : String)
  | RateLimitExceeded
  | ErrInvalidRequest (direction : PacketDirection)
  deriving DecidableEq, Repr

/-- Modelled from the spec: the fixed-point decimal type of the quota percentages is
not under src/. A value stands for `units / 10 ^ 18`. -/
structure Dec where
  units : Int
  deriving DecidableEq, Repr

/-- Scale of the fixed-point decimals. -/
def Dec.scale : Int := 10 ^ 18

/-- Modelled from the spec: `floor(channelValue × percentage)`, truncation and never
rounding up. -/
def Dec.MulFloor (percentage : Dec) (channelValue : Int) : Int :=
  Int.fdiv (channelValue * percentage.units) Dec.scale

/-- Modelled from the spec: the declaration of `types.Quota` is not under src/.
Quota {max-send percentage, max-receive percentage, window duration}. -/
structure Quota where
  MaxPercentSend : Dec
  MaxPercentRecv : Dec
  Duration : Int
  deriving DecidableEq, Repr

/-- Modelled from the spec: the declaration of `types.Flow` is not under src/.
Flow {inflow amount, outflow amount, window start time, window end time}. The source
calls `rateLimit.Flow.AddOutflow(amount, *rateLimit.Quota)`, so the flow, the amount and
the quota are all that the bound can be computed from: the channel value the bound
refers to is carried by the flow record, filled in by the lookup that built the record. -/
structure Flow where
  Inflow : Int
  Outflow : Int
  WindowStart : Int
  WindowEnd : Int
  ChannelValue : Int
  deriving DecidableEq, Repr

/-- Modelled from the spec: the (denom, channel id) pair a rate limit belongs to. The
source persists with `SetRateLimit(ctx, rateLimit)`, so the record names its own key. -/
structure Path where
  Denom : String
  ChannelId : String
  deriving DecidableEq, Repr

/-- Modelled from the spec: the declaration of `types.RateLimit` is not under src/.
One record per (denom, channel id) pair, with its quota and its flow. -/
structure RateLimit where
  Path : Path
  Quota : Quota
  Flow : Flow
  deriving DecidableEq, Repr

/-- The upper bound of the outflow: `floor(channelValue × maxSendPercentage)`. -/
def Quota.SendBound (quota : Quota) (channelValue : Int) : Int :=
  quota.MaxPercentSend.MulFloor channelValue

/-- The upper bound of the inflow: `floor(channelValue × maxReceivePercentage)`. -/
def Quota.RecvBound (quota : Quota) (channelValue : Int) : Int :=
  quota.MaxPercentRecv.MulFloor channelValue

/-- Modelled from the spec: `Flow.AddOutflow` is not under src/. Attempts to add the
amount to the outflow; if the post-add value would exceed
`floor(channelValue × maxSendPercentage)` the flow is left as it is and
`RateLimitExceeded` is returned. -/
def Flow.AddOutflow (flow : Flow) (amount : Int) (quota : Quota) : Flow × Option Error :=
  if flow.Outflow + amount > quota.SendBound flow.ChannelValue then
    (flow, some Error.RateLimitExceeded)
  else
    ({ flow with Outflow := flow.Outflow + amount }, none)

/-- Modelled from the spec: `Flow.AddInflow` is not under src/. Attempts to add the
amount to the inflow; if the post-add value would exceed
`floor(channelValue × maxReceivePercentage)` the flow is left as it is and
`RateLimitExceeded` is returned. -/
def Flow.AddInflow (flow : Flow) (amount : Int) (quota : Quota) : Flow × Option Error :=
  if flow.Inflow + amount > quota.RecvBound flow.ChannelValue then
    (flow, some Error.RateLimitExceeded)
  else
    ({ flow with Inflow := flow.Inflow + amount }, none)

/-- Modelled from the spec: the lazy window rollover of section 3 is not under src/. Once
the time `now` has reached the window end, inflow and outflow are reset to zero and the
window becomes `[now, now + duration)`; before the window end the flow is left as it is. -/
def Flow.Rollover (flow : Flow) (quota : Quota) (now : Int) : Flow :=
  if now ≥ flow.WindowEnd then
    { flow with Inflow := 0, Outflow := 0, WindowStart := now, WindowEnd := now + quota.Duration }
  else flow

/-- What the rate-limit store holds under a (denom, channel id) key: Quota + Flow. -/
structure StoredRateLimit where
  Quota : Quota
  Flow : Flow
  deriving DecidableEq, Repr

/-- Kind of a transfer-denied event. -/
inductive EventType where
  | EventBlacklistedDenom
  | EventRateLimitExceeded
  deriving DecidableEq, Repr

/-- Payload of a transfer-denied event: {denom, channelId, direction, amount, reason}. -/
structure Event where
  Kind : EventType
  Denom : String
  ChannelId : String
  Direction : PacketDirection
  Amount : Int
  Reason : Error
  deriving DecidableEq, Repr

/-- The part of `sdk.Context` the flow functions can observe: the denom blacklist, the
address-pair whitelist, the rate-limit store (a map from (denom, channel id) to
Quota + Flow), the pending-send-packet markers keyed by (channel id, sequence), the
bank's total supply per denom, the block time, and the events emitted so far. -/
structure Context where
  blacklist : String → Bool
  whitelist : String → String → Bool
  rateLimits : String → String → Option StoredRateLimit
  pendingSendPackets : String → Nat → Bool
  supply : String → Int
  blockTime : Int
  events : List Event

/-- The packet fields read by `CheckRateLimitAndUpdateFlow`. -/
structure RateLimitedPacketInfo where
  ChannelID : String
  Denom : String
  Amount : Int
  Sender : String
  Receiver : String
  deriving DecidableEq, Repr

namespace Keeper

/-- Modelled from the spec: `Keeper.IsDenomBlacklisted` is not under src/. Membership in
the denom blacklist. -/
def IsDenomBlacklisted (ctx : Context) (denom : String) : Bool :=
  ctx.blacklist denom

/-- Modelled from the spec: `Keeper.IsAddressPairWhitelisted` is not under src/.
Membership in the address-pair whitelist. -/
def IsAddressPairWhitelisted (ctx : Context) (sender receiver : String) : Bool :=
  ctx.whitelist sender receiver

/-- Modelled from the spec: `Keeper.GetRateLimit` is not under src/. Looks up the
rate limit for (denom, channelId); `none` is `found = false`. This is the plain read of
the store; `GetRateLimitFresh` is the lookup with the window rollover and the fresh
channel value. -/
def GetRateLimit (ctx : Context) (denom channelId : String) : Option RateLimit :=
  match ctx.rateLimits denom channelId with
  | some stored => some { Path := ⟨denom, channelId⟩, Quota := stored.Quota, Flow := stored.Flow }
  | none => none

/-- Modelled from the spec: `Keeper.SetRateLimit` is not under src/. Persists the rate
limit under the key of its own path. -/
def SetRateLimit (ctx : Context) (rateLimit : RateLimit) : Context :=
  { ctx with
    rateLimits := fun denom channelId =>
      if denom = rateLimit.Path.Denom ∧ channelId = rateLimit.Path.ChannelId then
        some { Quota := rateLimit.Quota, Flow := rateLimit.Flow }
      else ctx.rateLimits denom channelId }

/-- Modelled from the spec: `Keeper.CheckPacketSentDuringCurrentQuota` is not under
src/. Whether the pending marker for (channelId, sequence) is present. -/
def CheckPacketSentDuringCurrentQuota (ctx : Context) (channelId : String) (sequence : Nat) : Bool :=
  ctx.pendingSendPackets channelId sequence

/-- Modelled from the spec: `Keeper.RemovePendingSendPacket` is not under src/. Removes
the pending marker for (channelId, sequence). -/
def RemovePendingSendPacket (ctx : Context) (channelId : String) (sequence : Nat) : Context :=
  { ctx with
    pendingSendPackets := fun c n =>
      if c = channelId ∧ n = sequence then false else ctx.pendingSendPackets c n }

/-- Modelled from the spec: `EmitTransferDeniedEvent` is not under src/. Appends one
denial event with the given payload to the events of the context. -/
def EmitTransferDeniedEvent (ctx : Context) (eventType : EventType) (denom channelId : String)
    (direction : PacketDirection) (amount : Int) (err : Error) : Context :=
  { ctx with events := ctx.events ++ [⟨eventType, denom, channelId, direction, amount, err⟩] }

/-- Function `Keeper.GetChannelValue`: the total supply of the denom, from the bank keeper. -/
def GetChannelValue (ctx : Context) (denom : String) : Int :=
  ctx.supply denom

/-- Function `Keeper.UpdateFlow`: adds an amount to the flow in either the SEND or RECV
direction. Returns the rate limit as the caller sees it afterwards, and the error. -/
def UpdateFlow (rateLimit : RateLimit) (direction : PacketDirection) (amount : Int) :
    RateLimit × Option Error :=
  match direction with
  | PacketDirection.PACKET_SEND =>
    let r := rateLimit.Flow.AddOutflow amount rateLimit.Quota
    ({ rateLimit with Flow := r.1 }, r.2)
  | PacketDirection.PACKET_RECV =>
    let r := rateLimit.Flow.AddInflow amount rateLimit.Quota
    ({ rateLimit with Flow := r.1 }, r.2)
  | PacketDirection.other code =>
    (rateLimit, some (Error.ErrInvalidRequest (PacketDirection.other code)))

/-- Function `Keeper.CheckRateLimitAndUpdateFlow`: checks whether the packet exceeds the rate
limit. Returns `(updatedFlow, err)` and the context after the call. -/
def CheckRateLimitAndUpdateFlow (ctx : Context) (direction : PacketDirection)
    (packetInfo : RateLimitedPacketInfo) : (Bool × Option Error) × Context :=
  let denom := packetInfo.Denom
  let channelId := packetInfo.ChannelID
  let amount := packetInfo.Amount
  if IsDenomBlacklisted ctx denom then
    let err := Error.ErrDenomIsBlacklisted denom
    ((false, some err),
      EmitTransferDeniedEvent ctx EventType.EventBlacklistedDenom denom channelId direction amount err)
  else
    match GetRateLimit ctx denom channelId with
    | none => ((false, none), ctx)
    | some rateLimit =>
      if IsAddressPairWhitelisted ctx packetInfo.Sender packetInfo.Receiver then
        ((false, none), ctx)
      else
        match UpdateFlow rateLimit direction amount with
        | (_, some err) =>
          ((false, some err),
            EmitTransferDeniedEvent ctx EventType.EventRateLimitExceeded denom channelId direction
              amount err)
        | (rateLimit, none) => ((true, none), SetRateLimit ctx rateLimit)

/-- Function `Keeper.UndoSendPacket`: if a SendPacket fails or times out, undoes the outflow
increment that happened during the send. Returns the error and the context after. -/
def UndoSendPacket (ctx : Context) (channelId : String) (sequence : Nat) (denom : String)
    (amount : Int) : Option Error × Context :=
  match GetRateLimit ctx denom channelId with
  | none => (none, ctx)
  | some rateLimit =>
    if CheckPacketSentDuringCurrentQuota ctx channelId sequence then
      let rateLimit := { rateLimit with
        Flow := { rateLimit.Flow with Outflow := rateLimit.Flow.Outflow - amount } }
      let ctx := SetRateLimit ctx rateLimit
      let ctx := RemovePendingSendPacket ctx channelId sequence
      (none, ctx)
    else
      (none, ctx)

/-- Function `Keeper.CheckRateLimitAndUpdateFlow` once more, statement for statement, with a third
component: the rate limits handed to `SetRateLimit` during the call, in order. It makes
"a rate limit was written to the store" observable also when the value written equals
the value stored before. -/
def CheckRateLimitAndUpdateFlowWrites (ctx : Context) (direction : PacketDirection)
    (packetInfo : RateLimitedPacketInfo) : (Bool × Option Error) × Context × List RateLimit :=
  let denom := packetInfo.Denom
  let channelId := packetInfo.ChannelID
  let amount := packetInfo.Amount
  if IsDenomBlacklisted ctx denom then
    let err := Error.ErrDenomIsBlacklisted denom
    ((false, some err),
      EmitTransferDeniedEvent ctx EventType.EventBlacklistedDenom denom channelId direction amount err,
      [])
  else
    match GetRateLimit ctx denom channelId with
    | none => ((false, none), ctx, [])
    | some rateLimit =>
      if IsAddressPairWhitelisted ctx packetInfo.Sender packetInfo.Receiver then
        ((false, none), ctx, [])
      else
        match UpdateFlow rateLimit direction amount with
        | (_, some err) =>
          ((false, some err),
            EmitTransferDeniedEvent ctx EventType.EventRateLimitExceeded denom channelId direction
              amount err,
            [])
        | (rateLimit, none) => ((true, none), SetRateLimit ctx rateLimit, [rateLimit])

/-- Modelled from the spec: `Keeper.GetRateLimit` is not under src/. The lookup of the
check path as sections 3 and 4.3 of the spec describe it: the window of the stored record
is rolled over lazily at the block time, and the channel value is the total supply of the
denom, taken fresh from `GetChannelValue` at the time of the lookup and not from the
store. `none` is `found = false`. -/
def GetRateLimitFresh (ctx : Context) (denom channelId : String) : Option RateLimit :=
  match ctx.rateLimits denom channelId with
  | some stored =>
    some { Path := ⟨denom, channelId⟩, Quota := stored.Quota,
           Flow := { stored.Flow.Rollover stored.Quota ctx.blockTime with
                     ChannelValue := GetChannelValue ctx denom } }
  | none => none

/-- Function `Keeper.CheckRateLimitAndUpdateFlow` once more, statement for statement, with the
lookup `k.GetRateLimit`, which is not under src/, as the parameter `getRateLimit`. -/
def CheckRateLimitAndUpdateFlowWith
    (getRateLimit : Context → String → String → Option RateLimit) (ctx : Context)
    (direction : PacketDirection) (packetInfo : RateLimitedPacketInfo) :
    (Bool × Option Error) × Context :=
  let denom := packetInfo.Denom
  let channelId := packetInfo.ChannelID
  let amount := packetInfo.Amount
  if IsDenomBlacklisted ctx denom then
    let err := Error.ErrDenomIsBlacklisted denom
    ((false, some err),
      EmitTransferDeniedEvent ctx EventType.EventBlacklistedDenom denom channelId direction amount err)
  else
    match getRateLimit ctx denom channelId with
    | none => ((false, none), ctx)
    | some rateLimit =>
      if IsAddressPairWhitelisted ctx packetInfo.Sender packetInfo.Receiver then
        ((false, none), ctx)
      else
        match UpdateFlow rateLimit direction amount with
        | (_, some err) =>
          ((false, some err),
            EmitTransferDeniedEvent ctx EventType.EventRateLimitExceeded denom channelId direction
              amount err)
        | (rateLimit, none) => ((true, none), SetRateLimit ctx rateLimit)

end Keeper

/-- Every stored rate limit has `outflow ≤ floor(channelValue × maxSendPercentage)` and
`inflow ≤ floor(channelValue × maxReceivePercentage)`. -/
def QuotaInvariant (ctx : Context) : Prop :=
  ∀ denom channelId stored, ctx.rateLimits denom channelId = some stored →
    stored.Flow.Outflow ≤ stored.Quota.SendBound stored.Flow.ChannelValue ∧
    stored.Flow.Inflow ≤ stored.Quota.RecvBound stored.Flow.ChannelValue

/-- A context for the examples: one rate limit for `("uatom", "channel-0")` with a 10%
send quota and a 10% receive quota over a channel value of 1000, inflow 0, the given
outflow and the window `[0, 86400)`; the denom `ubad` is blacklisted, the pair
`alice`, `bob` is whitelisted, the send `(channel-0, 7)` is pending, and the block time
is `blockTime`. -/
def exampleContext (outflow blockTime : Int) : Context where
  blacklist := fun denom => denom = "ubad"
  whitelist := fun sender receiver => sender = "alice" ∧ receiver = "bob"
  rateLimits := fun denom channelId =>
    if denom = "uatom" ∧ channelId = "channel-0" then
      some { Quota := ⟨⟨10 ^ 17⟩, ⟨10 ^ 17⟩, 86400⟩, Flow := ⟨0, outflow, 0, 86400, 1000⟩ }
    else none
  pendingSendPackets := fun channelId sequence => channelId = "channel-0" ∧ sequence = 7
  supply := fun _ => 1000
  blockTime := blockTime
  events := []

/-- A packet of `amount` of `denom` over `channel-0` from `sender` to `carol`. -/
def examplePacket (denom sender : String) (amount : Int) : RateLimitedPacketInfo :=
  ⟨"channel-0", denom, amount, sender, "carol"⟩

end RateLimiting

/-!
Packet-forward-middleware router types: the generated wire codec.

Shallow embedding of `middleware/packet-forward-middleware/router/types/genesis.pb.go`.

* A byte is a `UInt8`, a `[]byte` and a Go `string` are lists of bytes (a Go string is
  an arbitrary byte sequence). A nil slice and an empty slice are the same list.
* `uint64` values are natural numbers, `int` (64 bit) and `int32` values are integers;
  conversions between them are the explicit wrap-around functions below.
* Functions that return `error` return `Except Error`. Besides the errors of the source
  there are two outcomes that are not Go errors: `indexOutOfRange`, the run-time panic
  of an access outside a slice, and `outOfFuel`, the iteration bound of a modelled loop
  (shown never to be reached where a claim needs a result).
* Buffer indices are natural numbers. Where the source decrements an index the model
  reports a decrement below zero as `indexOutOfRange`: in the source every such
  decrement is followed by an access at the new index, which panics.
* A method that writes into a buffer returns the buffer after the call.
* A Go map is a list of key/value pairs in the order in which `range` enumerates it.
-/

deriving instance DecidableEq for Except

namespace RouterTypes

/-- A byte slice or a Go string. -/
abbrev Bytes := List UInt8

/-- Errors of the codec. -/
inductive Error where
  /-- `ErrInvalidLengthGenesis`: negative length found during unmarshaling. -/
  | ErrInvalidLengthGenesis
  /-- `ErrIntOverflowGenesis`: integer overflow. -/
  | ErrIntOverflowGenesis
  /-- `ErrUnexpectedEndOfGroupGenesis`: unexpected end of group. -/
  | ErrUnexpectedEndOfGroupGenesis
  /-- `io.ErrUnexpectedEOF`. -/
  | ErrUnexpectedEOF
  /-- `fmt.Errorf("proto: %s: wiretype end group for non-group")` for the message. -/
  | wiretypeEndGroup (message : String)
  /-- `fmt.Errorf("proto: %s: illegal tag %d (wire type %d)", fieldNum, wire)`. -/
  | illegalTag (message : String) (fieldNum : Int) (wire : Nat)
  /-- `fmt.Errorf("proto: wrong wireType = %d for field %s", wireType)`. -/
  | wrongWireType (wireType : Nat) (field : String)
  /-- `fmt.Errorf("proto: illegal wireType %d", wireType)`. -/
  | illegalWireType (wireType : Nat)
  /-- An error returned by the decimal type of the fee percentage. -/
  | decError (code : Nat)
  /-- Run-time panic: index or slice bounds out of range. -/
  | indexOutOfRange
  /-- The iteration bound of a modelled loop was reached. -/
  | outOfFuel
  deriving DecidableEq, Repr

/-- Conversion `uint64(x)` of a signed integer. -/
def uint64OfInt (x : Int) : Nat := (x % 2 ^ 64).toNat

/-- Conversion `int(x)` of a `uint64`, and the value of an `int` whose bits are `x`. -/
def int64OfNat (x : Nat) : Int :=
  if x % 2 ^ 64 < 2 ^ 63 then ((x % 2 ^ 64 : Nat) : Int) else ((x % 2 ^ 64 : Nat) : Int) - 2 ^ 64

/-- Conversion `int32(x)` of a `uint64`, and the value of an `int32` whose bits are `x`. -/
def int32OfNat (x : Nat) : Int :=
  if x % 2 ^ 32 < 2 ^ 31 then ((x % 2 ^ 32 : Nat) : Int) else ((x % 2 ^ 32 : Nat) : Int) - 2 ^ 32

/-- The result of an `int` addition or of `int(x)`: wrap-around to 64 bits. -/
def int64 (x : Int) : Int := (x + 2 ^ 63) % 2 ^ 64 - 2 ^ 63

/-- The number of bits of `x` below the bound `fuel`. -/
def bitLen : Nat → Nat → Nat
  | 0, _ => 0
  | fuel + 1, x => if x = 0 then 0 else bitLen fuel (x / 2) + 1

/-- The library function `math/bits.Len64`: the minimum number of bits required to
represent a `uint64`; 0 for 0. -/
def Len64 (x : Nat) : Nat := bitLen 64 x

/-- Function `sovGenesis`: `(math_bits.Len64(x|1) + 6) / 7`. -/
def sovGenesis (x : Nat) : Nat := (Len64 (x ||| 1) + 6) / 7

/-- InFlightPacket contains information about the original packet for writing the
acknowledgement and refunding if necessary. -/
structure InFlightPacket where
  OriginalSenderAddress : Bytes
  RefundChannelId : Bytes
  RefundPortId : Bytes
  PacketSrcChannelId : Bytes
  PacketSrcPortId : Bytes
  PacketTimeoutTimestamp : Nat
  PacketTimeoutHeight : Bytes
  PacketData : Bytes
  RefundSequence : Nat
  RetriesRemaining : Int
  Timeout : Nat
  Nonrefundable : Bool
  deriving DecidableEq, Repr

/-- The zero value `InFlightPacket{}`. -/
def InFlightPacket.empty : InFlightPacket :=
  ⟨[], [], [], [], [], 0, [], [], 0, 0, 0, false⟩

/-! ### Writing into a buffer -/

/-- The assignment `dAtA[i] = b`. -/
def setByte (dAtA : Bytes) (i : Nat) (b : UInt8) : Except Error Bytes :=
  if i < dAtA.length then .ok (dAtA.set i b) else .error .indexOutOfRange

/-- The decrement `i -= k` of a buffer index. -/
def decr (i k : Nat) : Except Error Nat :=
  if k ≤ i then .ok (i - k) else .error .indexOutOfRange

/-- The call `copy(dAtA[i:], src)`: copies as many bytes as fit. -/
def copyAt (dAtA : Bytes) (i : Nat) (src : Bytes) : Except Error Bytes :=
  if i ≤ dAtA.length then
    .ok (dAtA.take i ++ src.take (dAtA.length - i) ++ dAtA.drop (i + src.length))
  else .error .indexOutOfRange

/-- The loop of `encodeVarintGenesis`: `for v >= 1<<7 {...}` and the last byte. -/
def encodeVarintGenesis.loop : Nat → Bytes → Nat → Nat → Except Error Bytes
  | 0, _, _, _ => .error .outOfFuel
  | fuel + 1, dAtA, offset, v =>
    if v ≥ 1 <<< 7 then
      match setByte dAtA offset (UInt8.ofNat (v &&& 0x7f ||| 0x80)) with
      | .error e => .error e
      | .ok dAtA => encodeVarintGenesis.loop fuel dAtA (offset + 1) (v >>> 7)
    else
      setByte dAtA offset (UInt8.ofNat v)

/-- Function `encodeVarintGenesis(dAtA, offset, v)`: returns the buffer and `base`. -/
def encodeVarintGenesis (dAtA : Bytes) (offset : Nat) (v : Nat) : Except Error (Bytes × Nat) :=
  match decr offset (sovGenesis v) with
  | .error e => .error e
  | .ok base =>
    match encodeVarintGenesis.loop 10 dAtA base v with
    | .error e => .error e
    | .ok dAtA => .ok (dAtA, base)

/-- The statements `i--; dAtA[i] = b` on the pair (buffer, index). -/
def putByte (st : Bytes × Nat) (b : UInt8) : Except Error (Bytes × Nat) :=
  match decr st.2 1 with
  | .error e => .error e
  | .ok i =>
    match setByte st.1 i b with
    | .error e => .error e
    | .ok dAtA => .ok (dAtA, i)

/-- The statement `i = encodeVarintGenesis(dAtA, i, v)` on the pair (buffer, index). -/
def putVarint (st : Bytes × Nat) (v : Nat) : Except Error (Bytes × Nat) :=
  encodeVarintGenesis st.1 st.2 v

/-- The statements `i -= len(s); copy(dAtA[i:], s)` on the pair (buffer, index). -/
def putBytes (st : Bytes × Nat) (s : Bytes) : Except Error (Bytes × Nat) :=
  match decr st.2 s.length with
  | .error e => .error e
  | .ok i =>
    match copyAt st.1 i s with
    | .error e => .error e
    | .ok dAtA => .ok (dAtA, i)

/-- The block the generated code repeats for a string or bytes field:
`if len(s) > 0 { i -= len(s); copy(dAtA[i:], s); i = encodeVarintGenesis(dAtA, i,
uint64(len(s))); i--; dAtA[i] = tag }`. -/
def putBytesField (st : Bytes × Nat) (tag : UInt8) (s : Bytes) : Except Error (Bytes × Nat) :=
  if s.length > 0 then
    putBytes st s >>= fun st =>
    putVarint st s.length >>= fun st =>
    putByte st tag
  else .ok st

/-- The block the generated code repeats for a varint field:
`if v != 0 { i = encodeVarintGenesis(dAtA, i, uint64(v)); i--; dAtA[i] = tag }`, where
`v64` is `uint64(v)`. -/
def putVarintField (st : Bytes × Nat) (tag : UInt8) (isZero : Bool) (v64 : Nat) :
    Except Error (Bytes × Nat) :=
  if isZero then .ok st
  else
    putVarint st v64 >>= fun st =>
    putByte st tag

/-- The block of the `bool` field: `if b { i--; if b { dAtA[i] = 1 } else { dAtA[i] = 0 };
i--; dAtA[i] = tag }`. -/
def putBoolField (st : Bytes × Nat) (tag : UInt8) (b : Bool) : Except Error (Bytes × Nat) :=
  if b then
    putByte st (if b then 1 else 0) >>= fun st =>
    putByte st tag
  else .ok st

/-- The field blocks of `InFlightPacket.MarshalToSizedBuffer` in the order of the source,
last field first, on the pair (buffer, index). -/
def InFlightPacket.MarshalToSizedBuffer.fields (m : InFlightPacket) (st : Bytes × Nat) :
    Except Error (Bytes × Nat) :=
  putBoolField st 0x60 m.Nonrefundable >>= fun st =>
  putVarintField st 0x58 (m.Timeout == 0) m.Timeout >>= fun st =>
  putVarintField st 0x50 (m.RetriesRemaining == 0) (uint64OfInt m.RetriesRemaining) >>= fun st =>
  putVarintField st 0x48 (m.RefundSequence == 0) m.RefundSequence >>= fun st =>
  putBytesField st 0x42 m.PacketData >>= fun st =>
  putBytesField st 0x3a m.PacketTimeoutHeight >>= fun st =>
  putVarintField st 0x30 (m.PacketTimeoutTimestamp == 0) m.PacketTimeoutTimestamp >>= fun st =>
  putBytesField st 0x2a m.PacketSrcPortId >>= fun st =>
  putBytesField st 0x22 m.PacketSrcChannelId >>= fun st =>
  putBytesField st 0x1a m.RefundPortId >>= fun st =>
  putBytesField st 0x12 m.RefundChannelId >>= fun st =>
  putBytesField st 0xa m.OriginalSenderAddress

/-- Function `InFlightPacket.MarshalToSizedBuffer`: `i := len(dAtA)`, the field blocks, and
`return len(dAtA) - i, nil`. Writes the packet into the end of `dAtA`; returns the
buffer and `len(dAtA) - i`. -/
def InFlightPacket.MarshalToSizedBuffer (m : InFlightPacket) (dAtA : Bytes) :
    Except Error (Bytes × Nat) :=
  match InFlightPacket.MarshalToSizedBuffer.fields m (dAtA, dAtA.length) with
  | .error e => .error e
  | .ok st => .ok (st.1, dAtA.length - st.2)

/-- The summand `1 + l + sovGenesis(uint64(l))` of a string or bytes field in `Size`. -/
def sizeBytesField (s : Bytes) : Nat :=
  if s.length > 0 then 1 + s.length + sovGenesis s.length else 0

/-- The summand `1 + sovGenesis(uint64(v))` of a varint field in `Size`. -/
def sizeVarintField (isZero : Bool) (v64 : Nat) : Nat :=
  if isZero then 0 else 1 + sovGenesis v64

/-- Function `InFlightPacket.Size`. -/
def InFlightPacket.Size (m : InFlightPacket) : Nat :=
  sizeBytesField m.OriginalSenderAddress
  + sizeBytesField m.RefundChannelId
  + sizeBytesField m.RefundPortId
  + sizeBytesField m.PacketSrcChannelId
  + sizeBytesField m.PacketSrcPortId
  + sizeVarintField (m.PacketTimeoutTimestamp == 0) m.PacketTimeoutTimestamp
  + sizeBytesField m.PacketTimeoutHeight
  + sizeBytesField m.PacketData
  + sizeVarintField (m.RefundSequence == 0) m.RefundSequence
  + sizeVarintField (m.RetriesRemaining == 0) (uint64OfInt m.RetriesRemaining)
  + sizeVarintField (m.Timeout == 0) m.Timeout
  + (if m.Nonrefundable then 2 else 0)

/-- Function `InFlightPacket.Marshal`: `size := m.Size(); dAtA = make([]byte, size);
n, err := m.MarshalToSizedBuffer(dAtA[:size]); return dAtA[:n], nil`. -/
def InFlightPacket.Marshal (m : InFlightPacket) : Except Error Bytes :=
  let size := m.Size
  let dAtA : Bytes := List.replicate size 0
  match m.MarshalToSizedBuffer (dAtA.take size) with
  | .error e => .error e
  | .ok (dAtA, n) => .ok (dAtA.take n)

/-! ### Reading from a buffer -/

/-- The varint loop of the decoders,
`for shift := uint(0); ; shift += 7 { if shift >= 64 {overflow}; if iNdEx >= l {EOF};
b := dAtA[iNdEx]; iNdEx++; x |= T(b&0x7F) << shift; if b < 0x80 {break} }`,
for an accumulator `x` of `bits` bits (64 for `uint64` and `int`, 32 for `int32`).
Returns the bits of the accumulator and the index after the last byte read. -/
def readVarint.loop (bits : Nat) (dAtA : Bytes) :
    Nat → Nat → Nat → Nat → Except Error (Nat × Nat)
  | 0, _, _, _ => .error .outOfFuel
  | fuel + 1, shift, iNdEx, x =>
    if shift ≥ 64 then .error .ErrIntOverflowGenesis
    else if iNdEx ≥ dAtA.length then .error .ErrUnexpectedEOF
    else
      match dAtA[iNdEx]? with
      | none => .error .indexOutOfRange
      | some b =>
        let x := x ||| (((b.toNat &&& 0x7F) <<< shift) % 2 ^ bits)
        if b.toNat < 0x80 then .ok (x, iNdEx + 1)
        else readVarint.loop bits dAtA fuel (shift + 7) (iNdEx + 1) x

/-- The varint loop started with `shift = 0` and a zero accumulator. -/
def readVarint (bits : Nat) (dAtA : Bytes) (iNdEx : Nat) : Except Error (Nat × Nat) :=
  readVarint.loop bits dAtA 11 0 iNdEx 0

/-- The slice expression `dAtA[lo:hi]`. -/
def slice (dAtA : Bytes) (lo hi : Nat) : Bytes := (dAtA.take hi).drop lo

/-- The block the generated decoders repeat for a length-delimited field: read the
length, `if length < 0 {ErrInvalidLength}; postIndex := iNdEx + length;
if postIndex < 0 {ErrInvalidLength}; if postIndex > l {EOF}`. Returns the index after
the length and `postIndex`. The length is read into a `uint64` and converted with
`int(...)`, or read into an `int`; both give the same `int`. -/
def readLength (dAtA : Bytes) (iNdEx : Nat) : Except Error (Nat × Nat) :=
  match readVarint 64 dAtA iNdEx with
  | .error e => .error e
  | .ok (stringLen, iNdEx) =>
    let intStringLen := int64OfNat stringLen
    if intStringLen < 0 then .error .ErrInvalidLengthGenesis
    else
      let postIndex := int64 (iNdEx + intStringLen)
      if postIndex < 0 then .error .ErrInvalidLengthGenesis
      else if postIndex > dAtA.length then .error .ErrUnexpectedEOF
      else .ok (iNdEx, postIndex.toNat)

/-- The length-delimited read followed by taking `dAtA[iNdEx:postIndex]`. Returns the
slice and `postIndex`, the index the decoder continues at. -/
def readLengthDelimited (dAtA : Bytes) (iNdEx : Nat) : Except Error (Bytes × Nat) :=
  match readLength dAtA iNdEx with
  | .error e => .error e
  | .ok (iNdEx, postIndex) => .ok (slice dAtA iNdEx postIndex, postIndex)

/-- The varint-skipping loop of `skipGenesis` (wire type 0). -/
def skipGenesis.varint (dAtA : Bytes) : Nat → Nat → Nat → Except Error Nat
  | 0, _, _ => .error .outOfFuel
  | fuel + 1, shift, iNdEx =>
    if shift ≥ 64 then .error .ErrIntOverflowGenesis
    else if iNdEx ≥ dAtA.length then .error .ErrUnexpectedEOF
    else
      match dAtA[iNdEx]? with
      | none => .error .indexOutOfRange
      | some b =>
        if b.toNat < 0x80 then .ok (iNdEx + 1)
        else skipGenesis.varint dAtA fuel (shift + 7) (iNdEx + 1)

/-- The loop `for iNdEx < l {...}` of `skipGenesis`, with the group depth. -/
def skipGenesis.loop (dAtA : Bytes) : Nat → Nat → Nat → Except Error Int
  | 0, _, _ => .error .outOfFuel
  | fuel + 1, iNdEx, depth =>
    if iNdEx < dAtA.length then
      match readVarint 64 dAtA iNdEx with
      | .error e => .error e
      | .ok (wire, iNdEx) =>
        let wireType := wire &&& 0x7
        let next : Except Error (Int × Nat) :=
          if wireType = 0 then
            match skipGenesis.varint dAtA 11 0 iNdEx with
            | .error e => .error e
            | .ok iNdEx => .ok ((iNdEx : Int), depth)
          else if wireType = 1 then .ok (int64 (iNdEx + 8), depth)
          else if wireType = 2 then
            match readVarint 64 dAtA iNdEx with
            | .error e => .error e
            | .ok (length, iNdEx) =>
              if int64OfNat length < 0 then .error .ErrInvalidLengthGenesis
              else .ok (int64 (iNdEx + int64OfNat length), depth)
          else if wireType = 3 then .ok ((iNdEx : Int), depth + 1)
          else if wireType = 4 then
            if depth = 0 then .error .ErrUnexpectedEndOfGroupGenesis
            else .ok ((iNdEx : Int), depth - 1)
          else if wireType = 5 then .ok (int64 (iNdEx + 4), depth)
          else .error (.illegalWireType wireType)
        match next with
        | .error e => .error e
        | .ok (iNdEx, depth) =>
          if iNdEx < 0 then .error .ErrInvalidLengthGenesis
          else if depth = 0 then .ok iNdEx
          else skipGenesis.loop dAtA fuel iNdEx.toNat depth
    else .error .ErrUnexpectedEOF

/-- Function `skipGenesis(dAtA)`: the number of bytes of the field at the start of `dAtA`. -/
def skipGenesis (dAtA : Bytes) : Except Error Int :=
  skipGenesis.loop dAtA (dAtA.length + 1) 0 0

/-- The `default` branch the generated decoders share: `iNdEx = preIndex;
skippy, err := skipGenesis(dAtA[iNdEx:]); if (skippy < 0) || (iNdEx+skippy) < 0
{ErrInvalidLength}; if (iNdEx + skippy) > limit {EOF}; iNdEx += skippy`. -/
def skipField (dAtA : Bytes) (preIndex limit : Nat) : Except Error Nat :=
  match skipGenesis (dAtA.drop preIndex) with
  | .error e => .error e
  | .ok skippy =>
    if skippy < 0 ∨ int64 (preIndex + skippy) < 0 then .error .ErrInvalidLengthGenesis
    else if int64 (preIndex + skippy) > limit then .error .ErrUnexpectedEOF
    else .ok (int64 (preIndex + skippy)).toNat

/-- The head of a string or bytes case: the wire type check followed by the
length-delimited read. -/
def readBytesField (dAtA : Bytes) (iNdEx wireType : Nat) (field : String) :
    Except Error (Bytes × Nat) :=
  if wireType ≠ 2 then .error (.wrongWireType wireType field)
  else readLengthDelimited dAtA iNdEx

/-- The head of a varint case: the wire type check followed by the varint loop into
an accumulator of `bits` bits. -/
def readVarintField (bits : Nat) (dAtA : Bytes) (iNdEx wireType : Nat) (field : String) :
    Except Error (Nat × Nat) :=
  if wireType ≠ 0 then .error (.wrongWireType wireType field)
  else readVarint bits dAtA iNdEx

/-- One iteration of the loop `for iNdEx < l {...}` of `InFlightPacket.Unmarshal`: reads
the tag and the field that follows. Returns the index after the field and the packet
with the field assigned. -/
def InFlightPacket.Unmarshal.step (dAtA : Bytes) (iNdEx : Nat) (m : InFlightPacket) :
    Except Error (Nat × InFlightPacket) :=
  let preIndex := iNdEx
  match readVarint 64 dAtA iNdEx with
  | .error e => .error e
  | .ok (wire, iNdEx) =>
    let fieldNum := int32OfNat (wire >>> 3)
    let wireType := wire &&& 0x7
    if wireType = 4 then .error (.wiretypeEndGroup "InFlightPacket")
    else if fieldNum ≤ 0 then .error (.illegalTag "InFlightPacket" fieldNum wire)
    else if fieldNum = 1 then
      match readBytesField dAtA iNdEx wireType "OriginalSenderAddress" with
      | .error e => .error e
      | .ok (s, iNdEx) => .ok (iNdEx, { m with OriginalSenderAddress := s })
    else if fieldNum = 2 then
      match readBytesField dAtA iNdEx wireType "RefundChannelId" with
      | .error e => .error e
      | .ok (s, iNdEx) => .ok (iNdEx, { m with RefundChannelId := s })
    else if fieldNum = 3 then
      match readBytesField dAtA iNdEx wireType "RefundPortId" with
      | .error e => .error e
      | .ok (s, iNdEx) => .ok (iNdEx, { m with RefundPortId := s })
    else if fieldNum = 4 then
      match readBytesField dAtA iNdEx wireType "PacketSrcChannelId" with
      | .error e => .error e
      | .ok (s, iNdEx) => .ok (iNdEx, { m with PacketSrcChannelId := s })
    else if fieldNum = 5 then
      match readBytesField dAtA iNdEx wireType "PacketSrcPortId" with
      | .error e => .error e
      | .ok (s, iNdEx) => .ok (iNdEx, { m with PacketSrcPortId := s })
    else if fieldNum = 6 then
      match readVarintField 64 dAtA iNdEx wireType "PacketTimeoutTimestamp" with
      | .error e => .error e
      | .ok (v, iNdEx) => .ok (iNdEx, { m with PacketTimeoutTimestamp := v })
    else if fieldNum = 7 then
      match readBytesField dAtA iNdEx wireType "PacketTimeoutHeight" with
      | .error e => .error e
      | .ok (s, iNdEx) => .ok (iNdEx, { m with PacketTimeoutHeight := s })
    else if fieldNum = 8 then
      match readBytesField dAtA iNdEx wireType "PacketData" with
      | .error e => .error e
      | .ok (s, iNdEx) => .ok (iNdEx, { m with PacketData := s })
    else if fieldNum = 9 then
      match readVarintField 64 dAtA iNdEx wireType "RefundSequence" with
      | .error e => .error e
      | .ok (v, iNdEx) => .ok (iNdEx, { m with RefundSequence := v })
    else if fieldNum = 10 then
      match readVarintField 32 dAtA iNdEx wireType "RetriesRemaining" with
      | .error e => .error e
      | .ok (v, iNdEx) => .ok (iNdEx, { m with RetriesRemaining := int32OfNat v })
    else if fieldNum = 11 then
      match readVarintField 64 dAtA iNdEx wireType "Timeout" with
      | .error e => .error e
      | .ok (v, iNdEx) => .ok (iNdEx, { m with Timeout := v })
    else if fieldNum = 12 then
      match readVarintField 64 dAtA iNdEx wireType "Nonrefundable" with
      | .error e => .error e
      | .ok (v, iNdEx) => .ok (iNdEx, { m with Nonrefundable := decide (int64OfNat v ≠ 0) })
    else
      match skipField dAtA preIndex dAtA.length with
      | .error e => .error e
      | .ok iNdEx => .ok (iNdEx, m)

/-- The loop `for iNdEx < l {...}` of `InFlightPacket.Unmarshal` and the statements after
it: `if iNdEx > l {EOF}; return nil`. -/
def InFlightPacket.Unmarshal.loop (dAtA : Bytes) :
    Nat → Nat → InFlightPacket → Except Error InFlightPacket
  | 0, _, _ => .error .outOfFuel
  | fuel + 1, iNdEx, m =>
    if iNdEx < dAtA.length then
      match InFlightPacket.Unmarshal.step dAtA iNdEx m with
      | .error e => .error e
      | .ok (iNdEx, m) => InFlightPacket.Unmarshal.loop dAtA fuel iNdEx m
    else if iNdEx > dAtA.length then .error .ErrUnexpectedEOF
    else .ok m

/-- Function `InFlightPacket.Unmarshal`: decodes `dAtA` into the receiver `m`. Returns the receiver
after the call, or the error. -/
def InFlightPacket.Unmarshal (m : InFlightPacket) (dAtA : Bytes) : Except Error InFlightPacket :=
  InFlightPacket.Unmarshal.loop dAtA (dAtA.length + 1) 0 m

/-! ### Params and GenesisState -/

/-- The decimal type of the fee percentage, `github.com/cosmos/cosmos-sdk/types.Dec`,
is a library type outside the repository; the codec takes its three methods as a
parameter. `MarshalTo d` is the byte string `d.MarshalTo(buf)` writes at the start of
`buf`, `Unmarshal d bz` is the receiver after `d.Unmarshal(bz)`. -/
structure DecCodec where
  Dec : Type
  Size : Dec → Nat
  MarshalTo : Dec → Except Error Bytes
  Unmarshal : Dec → Bytes → Except Error Dec

/-- Params defines the set of IBC router parameters. -/
structure Params (codec : DecCodec) where
  FeePercentage : codec.Dec

/-- GenesisState defines the router genesis state. `InFlightPackets` is the map from
keys to in-flight packets, listed in the order in which `range` enumerates it. -/
structure GenesisState (codec : DecCodec) where
  Params : Params codec
  InFlightPackets : List (Bytes × InFlightPacket)

/-- The map assignment `m[key] = value`. -/
def mapSet (m : List (Bytes × InFlightPacket)) (key : Bytes) (value : InFlightPacket) :
    List (Bytes × InFlightPacket) :=
  match m with
  | [] => [(key, value)]
  | (k, v) :: rest => if k = key then (key, value) :: rest else (k, v) :: mapSet rest key value

/-- The map lookup `m[key]`, `none` when the key is absent. -/
def mapGet (m : List (Bytes × InFlightPacket)) (key : Bytes) : Option InFlightPacket :=
  match m with
  | [] => none
  | (k, v) :: rest => if k = key then some v else mapGet rest key

/-- Function `Params.Size`. -/
def Params.Size {codec : DecCodec} (m : Params codec) : Nat :=
  let l := codec.Size m.FeePercentage
  1 + l + sovGenesis l

/-- The statements a generated marshaller repeats for a nested message:
`size, err := x.MarshalToSizedBuffer(dAtA[:i]); i -= size;
i = encodeVarintGenesis(dAtA, i, uint64(size))`, on the pair (buffer, index). The nested
call writes into the slice `dAtA[:i]` of the same buffer. -/
def putMessage (st : Bytes × Nat) (marshalToSizedBuffer : Bytes → Except Error (Bytes × Nat)) :
    Except Error (Bytes × Nat) :=
  marshalToSizedBuffer (st.1.take st.2) >>= fun r =>
  decr st.2 r.2 >>= fun i =>
  putVarint (r.1 ++ st.1.drop st.2, i) r.2

/-- The statements of `Params.MarshalToSizedBuffer` between `i := len(dAtA)` and the
return: `size := m.FeePercentage.Size(); i -= size; m.FeePercentage.MarshalTo(dAtA[i:]);
i = encodeVarintGenesis(dAtA, i, uint64(size)); i--; dAtA[i] = 0xa`. `MarshalTo` writes its
bytes at the start of `dAtA[i:]`; writing past the end of that slice is a panic. -/
def Params.MarshalToSizedBuffer.fields {codec : DecCodec} (m : Params codec)
    (st : Bytes × Nat) : Except Error (Bytes × Nat) :=
  decr st.2 (codec.Size m.FeePercentage) >>= fun i =>
  codec.MarshalTo m.FeePercentage >>= fun written =>
  (if written.length ≤ st.1.length - i then copyAt st.1 i written
    else .error .indexOutOfRange) >>= fun buf =>
  putVarint (buf, i) (codec.Size m.FeePercentage) >>= fun st =>
  putByte st 0xa

/-- Function `Params.MarshalToSizedBuffer`. -/
def Params.MarshalToSizedBuffer {codec : DecCodec} (m : Params codec) (dAtA : Bytes) :
    Except Error (Bytes × Nat) :=
  match Params.MarshalToSizedBuffer.fields m (dAtA, dAtA.length) with
  | .error e => .error e
  | .ok st => .ok (st.1, dAtA.length - st.2)

/-- Function `Params.Marshal`. -/
def Params.Marshal {codec : DecCodec} (m : Params codec) : Except Error Bytes :=
  let size := m.Size
  let dAtA : Bytes := List.replicate size 0
  match m.MarshalToSizedBuffer (dAtA.take size) with
  | .error e => .error e
  | .ok (dAtA, n) => .ok (dAtA.take n)

/-- One iteration of the loop of `Params.Unmarshal`. -/
def Params.Unmarshal.step {codec : DecCodec} (dAtA : Bytes) (iNdEx : Nat) (m : Params codec) :
    Except Error (Nat × Params codec) :=
  let preIndex := iNdEx
  match readVarint 64 dAtA iNdEx with
  | .error e => .error e
  | .ok (wire, iNdEx) =>
    let fieldNum := int32OfNat (wire >>> 3)
    let wireType := wire &&& 0x7
    if wireType = 4 then .error (.wiretypeEndGroup "Params")
    else if fieldNum ≤ 0 then .error (.illegalTag "Params" fieldNum wire)
    else if fieldNum = 1 then
      match readBytesField dAtA iNdEx wireType "FeePercentage" with
      | .error e => .error e
      | .ok (bz, iNdEx) =>
        match codec.Unmarshal m.FeePercentage bz with
        | .error e => .error e
        | .ok d => .ok (iNdEx, { m with FeePercentage := d })
    else
      match skipField dAtA preIndex dAtA.length with
      | .error e => .error e
      | .ok iNdEx => .ok (iNdEx, m)

/-- The loop of `Params.Unmarshal` and the statements after it. -/
def Params.Unmarshal.loop {codec : DecCodec} (dAtA : Bytes) :
    Nat → Nat → Params codec → Except Error (Params codec)
  | 0, _, _ => .error .outOfFuel
  | fuel + 1, iNdEx, m =>
    if iNdEx < dAtA.length then
      match Params.Unmarshal.step dAtA iNdEx m with
      | .error e => .error e
      | .ok (iNdEx, m) => Params.Unmarshal.loop dAtA fuel iNdEx m
    else if iNdEx > dAtA.length then .error .ErrUnexpectedEOF
    else .ok m

/-- Function `Params.Unmarshal`. -/
def Params.Unmarshal {codec : DecCodec} (m : Params codec) (dAtA : Bytes) :
    Except Error (Params codec) :=
  Params.Unmarshal.loop dAtA (dAtA.length + 1) 0 m

/-- The summand of one map entry in `GenesisState.Size`:
`mapEntrySize + 1 + sovGenesis(uint64(mapEntrySize))`. -/
def mapEntrySize (k : Bytes) (v : InFlightPacket) : Nat :=
  let l := v.Size
  let mapEntrySize := 1 + k.length + sovGenesis k.length + 1 + l + sovGenesis l
  mapEntrySize + 1 + sovGenesis mapEntrySize

/-- Function `GenesisState.Size`. -/
def GenesisState.Size {codec : DecCodec} (m : GenesisState codec) : Nat :=
  let l := m.Params.Size
  (1 + l + sovGenesis l) + (m.InFlightPackets.map (fun kv => mapEntrySize kv.1 kv.2)).sum

/-- The body of the loop `for k := range m.InFlightPackets {...}` of
`GenesisState.MarshalToSizedBuffer` for one key `k` with its value `v`; `baseI` is the
index at the start of the body. -/
def GenesisState.MarshalToSizedBuffer.entry (st : Bytes × Nat) (k : Bytes) (v : InFlightPacket) :
    Except Error (Bytes × Nat) :=
  (putMessage st v.MarshalToSizedBuffer >>= fun st =>
   putByte st 0x12 >>= fun st =>
   putBytes st k >>= fun st =>
   putVarint st k.length >>= fun st =>
   putByte st 0xa) >>= fun st' =>
  putVarint st' (st.2 - st'.2) >>= fun st' =>
  putByte st' 0x12

/-- The loop `for k := range m.InFlightPackets {...}` over the entries in the order of
enumeration. -/
def GenesisState.MarshalToSizedBuffer.entries :
    List (Bytes × InFlightPacket) → Bytes × Nat → Except Error (Bytes × Nat)
  | [], st => .ok st
  | (k, v) :: rest, st =>
    GenesisState.MarshalToSizedBuffer.entry st k v >>=
      GenesisState.MarshalToSizedBuffer.entries rest

/-- The statements of `GenesisState.MarshalToSizedBuffer` between `i := len(dAtA)` and
the return: the loop over the map, then the Params message and its tag. -/
def GenesisState.MarshalToSizedBuffer.fields {codec : DecCodec} (m : GenesisState codec)
    (st : Bytes × Nat) : Except Error (Bytes × Nat) :=
  GenesisState.MarshalToSizedBuffer.entries m.InFlightPackets st >>= fun st =>
  putMessage st m.Params.MarshalToSizedBuffer >>= fun st =>
  putByte st 0xa

/-- Function `GenesisState.MarshalToSizedBuffer`. -/
def GenesisState.MarshalToSizedBuffer {codec : DecCodec} (m : GenesisState codec) (dAtA : Bytes) :
    Except Error (Bytes × Nat) :=
  match GenesisState.MarshalToSizedBuffer.fields m (dAtA, dAtA.length) with
  | .error e => .error e
  | .ok st => .ok (st.1, dAtA.length - st.2)

/-- Function `GenesisState.Marshal`. -/
def GenesisState.Marshal {codec : DecCodec} (m : GenesisState codec) : Except Error Bytes :=
  let size := m.Size
  let dAtA : Bytes := List.replicate size 0
  match m.MarshalToSizedBuffer (dAtA.take size) with
  | .error e => .error e
  | .ok (dAtA, n) => .ok (dAtA.take n)

/-- The loop `for iNdEx < postIndex {...}` over the fields of one map entry in
`GenesisState.Unmarshal`. Returns `mapkey` and `mapvalue` after the loop. -/
def GenesisState.Unmarshal.entry (dAtA : Bytes) (postIndex : Nat) :
    Nat → Nat → Bytes → InFlightPacket → Except Error (Bytes × InFlightPacket)
  | 0, _, _, _ => .error .outOfFuel
  | fuel + 1, iNdEx, mapkey, mapvalue =>
    if iNdEx < postIndex then
      let entryPreIndex := iNdEx
      match readVarint 64 dAtA iNdEx with
      | .error e => .error e
      | .ok (wire, iNdEx) =>
        let fieldNum := int32OfNat (wire >>> 3)
        if fieldNum = 1 then
          match readLengthDelimited dAtA iNdEx with
          | .error e => .error e
          | .ok (s, iNdEx) => GenesisState.Unmarshal.entry dAtA postIndex fuel iNdEx s mapvalue
        else if fieldNum = 2 then
          match readLengthDelimited dAtA iNdEx with
          | .error e => .error e
          | .ok (bz, iNdEx) =>
            match InFlightPacket.empty.Unmarshal bz with
            | .error e => .error e
            | .ok v => GenesisState.Unmarshal.entry dAtA postIndex fuel iNdEx mapkey v
        else
          match skipField dAtA entryPreIndex postIndex with
          | .error e => .error e
          | .ok iNdEx => GenesisState.Unmarshal.entry dAtA postIndex fuel iNdEx mapkey mapvalue
    else .ok (mapkey, mapvalue)

/-- One iteration of the loop `for iNdEx < l {...}` of `GenesisState.Unmarshal`. -/
def GenesisState.Unmarshal.step {codec : DecCodec} (dAtA : Bytes) (iNdEx : Nat)
    (m : GenesisState codec) : Except Error (Nat × GenesisState codec) :=
  let preIndex := iNdEx
  match readVarint 64 dAtA iNdEx with
  | .error e => .error e
  | .ok (wire, iNdEx) =>
    let fieldNum := int32OfNat (wire >>> 3)
    let wireType := wire &&& 0x7
    if wireType = 4 then .error (.wiretypeEndGroup "GenesisState")
    else if fieldNum ≤ 0 then .error (.illegalTag "GenesisState" fieldNum wire)
    else if fieldNum = 1 then
      match readBytesField dAtA iNdEx wireType "Params" with
      | .error e => .error e
      | .ok (bz, postIndex) =>
        match m.Params.Unmarshal bz with
        | .error e => .error e
        | .ok params => .ok (postIndex, { m with Params := params })
    else if fieldNum = 2 then
      if wireType ≠ 2 then .error (.wrongWireType wireType "InFlightPackets")
      else
        match readLength dAtA iNdEx with
        | .error e => .error e
        | .ok (iNdEx, postIndex) =>
          match GenesisState.Unmarshal.entry dAtA postIndex (dAtA.length + 1) iNdEx []
              InFlightPacket.empty with
          | .error e => .error e
          | .ok (mapkey, mapvalue) =>
            .ok (postIndex, { m with InFlightPackets := mapSet m.InFlightPackets mapkey mapvalue })
    else
      match skipField dAtA preIndex dAtA.length with
      | .error e => .error e
      | .ok iNdEx => .ok (iNdEx, m)

/-- The loop `for iNdEx < l {...}` of `GenesisState.Unmarshal` and the statements after
it. -/
def GenesisState.Unmarshal.loop {codec : DecCodec} (dAtA : Bytes) :
    Nat → Nat → GenesisState codec → Except Error (GenesisState codec)
  | 0, _, _ => .error .outOfFuel
  | fuel + 1, iNdEx, m =>
    if iNdEx < dAtA.length then
      match GenesisState.Unmarshal.step dAtA iNdEx m with
      | .error e => .error e
      | .ok (iNdEx, m) => GenesisState.Unmarshal.loop dAtA fuel iNdEx m
    else if iNdEx > dAtA.length then .error .ErrUnexpectedEOF
    else .ok m

/-- Function `GenesisState.Unmarshal`: decodes `dAtA` into the receiver `m`. -/
def GenesisState.Unmarshal {codec : DecCodec} (m : GenesisState codec) (dAtA : Bytes) :
    Except Error (GenesisState codec) :=
  GenesisState.Unmarshal.loop dAtA (dAtA.length + 1) 0 m

/-- A decimal codec for the examples: the decimal is a single byte, written as that
byte. -/
def exampleCodec : DecCodec where
  Dec := UInt8
  Size := fun _ => 1
  MarshalTo := fun d => .ok [d]
  Unmarshal := fun _ bz =>
    match bz with
    | [b] => .ok b
    | _ => .error (.decError 0)

/-! ### The wire layout, in the words of the specification -/

/-- The base-128 varint of `v`, least significant group first, the continuation bit set
on every byte but the last; `fuel` bounds the number of bytes. -/
def varintBytes : Nat → Nat → Bytes
  | 0, _ => []
  | fuel + 1, v =>
    if v < 128 then [UInt8.ofNat v]
    else UInt8.ofNat (v % 128 + 128) :: varintBytes fuel (v / 128)

/-- The base-128 varint of a 64-bit unsigned value: at most ten bytes. -/
def varint (v : Nat) : Bytes := varintBytes 10 v

/-- The record of a length-delimited field: nothing for an empty value, otherwise the
tag byte, the varint of the length and the raw bytes. -/
def bytesRecord (tag : UInt8) (s : Bytes) : Bytes :=
  if s.length > 0 then tag :: (varint s.length ++ s) else []

/-- The record of a varint field: nothing for a zero value, otherwise the tag byte and
the varint of the value converted to `uint64`. -/
def varintRecord (tag : UInt8) (isZero : Bool) (v64 : Nat) : Bytes :=
  if isZero then [] else tag :: varint v64

/-- The records of the twelve fields of a packet in ascending field number. -/
def InFlightPacket.records (m : InFlightPacket) : List Bytes :=
  [ bytesRecord 0x0a m.OriginalSenderAddress,
    bytesRecord 0x12 m.RefundChannelId,
    bytesRecord 0x1a m.RefundPortId,
    bytesRecord 0x22 m.PacketSrcChannelId,
    bytesRecord 0x2a m.PacketSrcPortId,
    varintRecord 0x30 (m.PacketTimeoutTimestamp == 0) m.PacketTimeoutTimestamp,
    bytesRecord 0x3a m.PacketTimeoutHeight,
    bytesRecord 0x42 m.PacketData,
    varintRecord 0x48 (m.RefundSequence == 0) m.RefundSequence,
    varintRecord 0x50 (m.RetriesRemaining == 0) (uint64OfInt m.RetriesRemaining),
    varintRecord 0x58 (m.Timeout == 0) m.Timeout,
    varintRecord 0x60 (!m.Nonrefundable) 1 ]

/-- The wire layout of a packet: the concatenation of its records. -/
def InFlightPacket.wireLayout (m : InFlightPacket) : Bytes :=
  (InFlightPacket.records m).flatten

/-- A packet whose fields are values of their Go types: `uint64` fields below `2^64`,
the `int32` field within `[-2^31, 2^31)`, and an encoding that fits a Go slice. -/
def InFlightPacket.WellFormed (m : InFlightPacket) : Prop :=
  m.PacketTimeoutTimestamp < 2 ^ 64 ∧ m.RefundSequence < 2 ^ 64 ∧ m.Timeout < 2 ^ 64 ∧
  -2 ^ 31 ≤ m.RetriesRemaining ∧ m.RetriesRemaining < 2 ^ 31 ∧
  (InFlightPacket.wireLayout m).length < 2 ^ 63

/-- The record of a length-delimited field that is always written: the tag byte, the
varint of the length and the raw bytes. -/
def messageRecord (tag : UInt8) (s : Bytes) : Bytes :=
  tag :: (varint s.length ++ s)

/-- The record of one map entry: tag `0x12`, and as payload the key as field 1 and the
packet as field 2, both always written. -/
def entryRecord (kv : Bytes × InFlightPacket) : Bytes :=
  messageRecord 0x12 (messageRecord 0x0a kv.1 ++ messageRecord 0x12 kv.2.wireLayout)

/-- The wire layout of a genesis state whose fee percentage marshals to `fee`: the Params
message as field 1, then the records of the map entries, the entry enumerated last
coming first. -/
def genesisLayout (fee : Bytes) (entries : List (Bytes × InFlightPacket)) : Bytes :=
  messageRecord 0x0a (messageRecord 0x0a fee) ++ (entries.reverse.map entryRecord).flatten

/-- The assumption on the decimal type: `MarshalTo` writes `Size` bytes without error, and
`Unmarshal` of these bytes gives the decimal back, whatever the receiver held. -/
def DecCodec.RoundTrips (codec : DecCodec) : Prop :=
  ∀ d : codec.Dec, ∃ bz, codec.MarshalTo d = .ok bz ∧ bz.length = codec.Size d ∧
    ∀ d0 : codec.Dec, codec.Unmarshal d0 bz = .ok d

/-- A genesis state whose packets are well-formed and whose encoding, with the fee
percentage written as `fee`, fits a Go slice. -/
def GenesisState.WellFormed {codec : DecCodec} (m : GenesisState codec) (fee : Bytes) : Prop :=
  (∀ kv ∈ m.InFlightPackets, kv.2.WellFormed) ∧
  (genesisLayout fee m.InFlightPackets).length < 2 ^ 63

/-- A packet for the examples. -/
def examplePacketA : InFlightPacket :=
  ⟨[0x61, 0x62], [], [0x63], [], [], 300, [], [1, 2, 3], 0, -1, 1, true⟩

/-- A genesis state for the examples: fee percentage 7, the key `k` with the example
packet enumerated first, the empty key with the empty packet second. -/
def exampleGenesisA : GenesisState exampleCodec :=
  ⟨⟨(7 : UInt8)⟩, [([0x6b], examplePacketA), ([], InFlightPacket.empty)]⟩

/-- The same genesis state with its map enumerated in the other order. -/
def exampleGenesisB : GenesisState exampleCodec :=
  ⟨⟨(7 : UInt8)⟩, [([], InFlightPacket.empty), ([0x6b], examplePacketA)]⟩

/-! ### Predicates on blocks of the marshallers and on decoder iterations -/

/-- The block `f` writes the record `r` in front of what is already written: it
replaces the `r.length` bytes before the index and moves the index to their start. -/
def Writes (f : Bytes × Nat → Except Error (Bytes × Nat)) (r : Bytes) : Prop :=
  ∀ (pre junk post : Bytes), junk.length = r.length →
    f (pre ++ junk ++ post, pre.length + junk.length) = .ok (pre ++ r ++ post, pre.length)

/-- One iteration of the decoder loop, started at a record `r`, consumes the record and
applies the update `u` to the packet. -/
def Decodes (r : Bytes) (u : InFlightPacket → InFlightPacket) : Prop :=
  ∀ (data : Bytes) (i : Nat) (m : InFlightPacket) (post : Bytes),
    data.drop i = r ++ post → data.length < 2 ^ 63 →
    InFlightPacket.Unmarshal.step data i m = .ok (i + r.length, u m)

/-- One iteration of the decoder loop, started at a record `r` that is cut off strictly
inside, returns the unexpected-end-of-data error. -/
def Truncated (r : Bytes) : Prop :=
  ∀ (t : Nat) (data : Bytes) (i : Nat) (m : InFlightPacket),
    0 < t → t < r.length → data.drop i = r.take t → i + r.length < 2 ^ 63 →
    InFlightPacket.Unmarshal.step data i m = .error .ErrUnexpectedEOF

/-- The records of a packet, each with the assignment its decoding makes. -/
def InFlightPacket.recordUpdates (p : InFlightPacket) :
    List (Bytes × (InFlightPacket → InFlightPacket)) :=
  [ (bytesRecord 0x0a p.OriginalSenderAddress,
      fun m => { m with OriginalSenderAddress := p.OriginalSenderAddress }),
    (bytesRecord 0x12 p.RefundChannelId, fun m => { m with RefundChannelId := p.RefundChannelId }),
    (bytesRecord 0x1a p.RefundPortId, fun m => { m with RefundPortId := p.RefundPortId }),
    (bytesRecord 0x22 p.PacketSrcChannelId,
      fun m => { m with PacketSrcChannelId := p.PacketSrcChannelId }),
    (bytesRecord 0x2a p.PacketSrcPortId, fun m => { m with PacketSrcPortId := p.PacketSrcPortId }),
    (varintRecord 0x30 (p.PacketTimeoutTimestamp == 0) p.PacketTimeoutTimestamp,
      fun m => { m with PacketTimeoutTimestamp := p.PacketTimeoutTimestamp }),
    (bytesRecord 0x3a p.PacketTimeoutHeight,
      fun m => { m with PacketTimeoutHeight := p.PacketTimeoutHeight }),
    (bytesRecord 0x42 p.PacketData, fun m => { m with PacketData := p.PacketData }),
    (varintRecord 0x48 (p.RefundSequence == 0) p.RefundSequence,
      fun m => { m with RefundSequence := p.RefundSequence }),
    (varintRecord 0x50 (p.RetriesRemaining == 0) (uint64OfInt p.RetriesRemaining),
      fun m => { m with RetriesRemaining := p.RetriesRemaining }),
    (varintRecord 0x58 (p.Timeout == 0) p.Timeout, fun m => { m with Timeout := p.Timeout }),
    (varintRecord 0x60 (!p.Nonrefundable) 1, fun m => { m with Nonrefundable := true }) ]

/-! ### Outcomes of the decoders -/

/-- An error the Go code returns, as opposed to the two outcomes that are not Go errors:
the panic of an access outside a slice and the iteration bound of a modelled loop. -/
def Error.IsReturned (e : Error) : Prop :=
  e ≠ .indexOutOfRange ∧ e ≠ .outOfFuel

/-- The first `n` iterations of the loop of `InFlightPacket.Unmarshal`, started at the
index `iNdEx` with the packet `m`: the index and the packet after them, or the error of the
first iteration that fails. -/
def InFlightPacket.Unmarshal.iterate (dAtA : Bytes) :
    Nat → Nat → InFlightPacket → Except Error (Nat × InFlightPacket)
  | 0, iNdEx, m => .ok (iNdEx, m)
  | n + 1, iNdEx, m =>
    match InFlightPacket.Unmarshal.step dAtA iNdEx m with
    | .error e => .error e
    | .ok (iNdEx, m) => InFlightPacket.Unmarshal.iterate dAtA n iNdEx m

/-- RetriesRemaining is a value of its Go type `int32`. -/
def InFlightPacket.RetriesInRange (m : InFlightPacket) : Prop :=
  -2 ^ 31 ≤ m.RetriesRemaining ∧ m.RetriesRemaining < 2 ^ 31

/-! ### Records of fields the message does not have -/

/-- The value of a field on the wire, for the wire types 0, 1, 2 and 5. -/
inductive FieldValue where
  /-- Wire type 0: a varint. -/
  | ofVarint (v : Nat)
  /-- Wire type 1: eight bytes. -/
  | ofFixed64 (b : Bytes)
  /-- Wire type 2: a length and as many bytes. -/
  | ofBytes (s : Bytes)
  /-- Wire type 5: four bytes. -/
  | ofFixed32 (b : Bytes)
  deriving DecidableEq, Repr

/-- The wire type of a field value. -/
def FieldValue.wireType : FieldValue → Nat
  | .ofVarint _ => 0
  | .ofFixed64 _ => 1
  | .ofBytes _ => 2
  | .ofFixed32 _ => 5

/-- The bytes of a field value behind the tag. -/
def FieldValue.encode : FieldValue → Bytes
  | .ofVarint v => varint v
  | .ofFixed64 b => b
  | .ofBytes s => varint s.length ++ s
  | .ofFixed32 b => b

/-- A field value that is well-formed: a varint of a 64-bit value, exactly eight bytes,
a payload whose length fits an `int`, exactly four bytes. -/
def FieldValue.WellFormed : FieldValue → Prop
  | .ofVarint v => v < 2 ^ 64
  | .ofFixed64 b => b.length = 8
  | .ofBytes s => s.length < 2 ^ 63
  | .ofFixed32 b => b.length = 4

/-- The record of a field: the varint of `fieldNum << 3 | wireType` followed by the bytes
of the value. -/
def fieldRecord (fieldNum : Nat) (x : FieldValue) : Bytes :=
  varint (fieldNum <<< 3 ||| x.wireType) ++ x.encode

end RouterTypes

namespace RateLimiting

/-! ## Store lemmas -/

/-- Reading a rate limit back at its own key after `SetRateLimit` returns it. -/
theorem Keeper.GetRateLimit_SetRateLimit_self (ctx : Context) (rateLimit : RateLimit) :
    Keeper.GetRateLimit (Keeper.SetRateLimit ctx rateLimit) rateLimit.Path.Denom
      rateLimit.Path.ChannelId = some rateLimit := by
  simp [Keeper.GetRateLimit, Keeper.SetRateLimit]

/-- The record `GetRateLimit` returns carries the key it was looked up with. -/
theorem Keeper.GetRateLimit_path (ctx : Context) (denom channelId : String)
    (rateLimit : RateLimit)
    (h : Keeper.GetRateLimit ctx denom channelId = some rateLimit) :
    rateLimit.Path = ⟨denom, channelId⟩ := by
  unfold Keeper.GetRateLimit at h
  split at h
  · cases h; rfl
  · cases h

/-- The record `GetRateLimit` returns holds what is stored under the key. -/
theorem Keeper.GetRateLimit_stored (ctx : Context) (denom channelId : String)
    (rateLimit : RateLimit)
    (h : Keeper.GetRateLimit ctx denom channelId = some rateLimit) :
    ctx.rateLimits denom channelId = some ⟨rateLimit.Quota, rateLimit.Flow⟩ := by
  unfold Keeper.GetRateLimit at h
  split at h
  · next stored hs => cases h; simpa using hs
  · cases h

/-- Writing back the record that was read leaves the rate-limit store as it was. -/
theorem Keeper.SetRateLimit_same (ctx : Context) (denom channelId : String)
    (rateLimit : RateLimit)
    (h : Keeper.GetRateLimit ctx denom channelId = some rateLimit) :
    (Keeper.SetRateLimit ctx rateLimit).rateLimits = ctx.rateLimits := by
  have hp := Keeper.GetRateLimit_path ctx denom channelId rateLimit h
  have hs := Keeper.GetRateLimit_stored ctx denom channelId rateLimit h
  funext d c
  simp only [Keeper.SetRateLimit, hp]
  split
  · next hdc => rw [hdc.1, hdc.2, hs]
  · rfl

/-! ## Claims about `CheckRateLimitAndUpdateFlow` -/

/-- C1: when the denom is not blacklisted, a rate limit exists for (denom, channelId),
the sender/receiver pair is not whitelisted and the amount `a ≥ 0` satisfies
`a ≤ bound − currentOutflow` with `bound = floor(channelValue × maxSendPercentage)`,
a SEND check returns `(true, nil)` and the rate limit stored afterwards is the old one
with outflow exactly `currentOutflow + a`. -/
theorem send_within_bound_succeeds (ctx : Context) (packetInfo : RateLimitedPacketInfo)
    (rateLimit : RateLimit)
    (hblack : Keeper.IsDenomBlacklisted ctx packetInfo.Denom = false)
    (hfound : Keeper.GetRateLimit ctx packetInfo.Denom packetInfo.ChannelID = some rateLimit)
    (hwhite : Keeper.IsAddressPairWhitelisted ctx packetInfo.Sender packetInfo.Receiver = false)
    (_hnonneg : 0 ≤ packetInfo.Amount)
    (hroom : packetInfo.Amount ≤
      rateLimit.Quota.SendBound rateLimit.Flow.ChannelValue - rateLimit.Flow.Outflow) :
    (Keeper.CheckRateLimitAndUpdateFlow ctx PacketDirection.PACKET_SEND packetInfo).1
        = (true, none) ∧
    Keeper.GetRateLimit
        (Keeper.CheckRateLimitAndUpdateFlow ctx PacketDirection.PACKET_SEND packetInfo).2
        packetInfo.Denom packetInfo.ChannelID
      = some { rateLimit with
          Flow := { rateLimit.Flow with Outflow := rateLimit.Flow.Outflow + packetInfo.Amount } } := by
  have hp := Keeper.GetRateLimit_path ctx _ _ rateLimit hfound
  have hle : ¬ (rateLimit.Flow.Outflow + packetInfo.Amount >
      rateLimit.Quota.SendBound rateLimit.Flow.ChannelValue) := by omega
  have hcall : Keeper.CheckRateLimitAndUpdateFlow ctx PacketDirection.PACKET_SEND packetInfo
      = ((true, none), Keeper.SetRateLimit ctx { rateLimit with
          Flow := { rateLimit.Flow with Outflow := rateLimit.Flow.Outflow + packetInfo.Amount } }) := by
    simp [Keeper.CheckRateLimitAndUpdateFlow, hblack, hfound, hwhite, Keeper.UpdateFlow,
      Flow.AddOutflow, hle]
  rw [hcall]
  refine ⟨rfl, ?_⟩
  have h := Keeper.GetRateLimit_SetRateLimit_self ctx { rateLimit with
          Flow := { rateLimit.Flow with Outflow := rateLimit.Flow.Outflow + packetInfo.Amount } }
  simpa [hp] using h

/-- Witness of C1: outflow 50 of a bound of 100, a SEND of 50 is accepted and the stored
outflow becomes 100. -/
theorem send_within_bound_succeeds_witness :
    (Keeper.CheckRateLimitAndUpdateFlow (exampleContext 50 10) PacketDirection.PACKET_SEND
        (examplePacket "uatom" "dave" 50)).1 = (true, none) ∧
    Keeper.GetRateLimit
        (Keeper.CheckRateLimitAndUpdateFlow (exampleContext 50 10) PacketDirection.PACKET_SEND
          (examplePacket "uatom" "dave" 50)).2 "uatom" "channel-0"
      = some ⟨⟨"uatom", "channel-0"⟩, ⟨⟨10 ^ 17⟩, ⟨10 ^ 17⟩, 86400⟩, ⟨0, 50 + 50, 0, 86400, 1000⟩⟩ :=
  send_within_bound_succeeds (exampleContext 50 10) (examplePacket "uatom" "dave" 50)
    ⟨⟨"uatom", "channel-0"⟩, ⟨⟨10 ^ 17⟩, ⟨10 ^ 17⟩, 86400⟩, ⟨0, 50, 0, 86400, 1000⟩⟩
    (by decide) (by decide) (by decide) (by decide) (by decide)

/-- C2: when the denom is not blacklisted, a rate limit exists, the pair is not
whitelisted and `currentOutflow + a > bound`, a SEND check returns
`(false, RateLimitExceeded)` and the rate-limit store, hence the persisted rate limit
(outflow, inflow, quota), is identical to what it was before the call. -/
theorem send_over_bound_denied (ctx : Context) (packetInfo : RateLimitedPacketInfo)
    (rateLimit : RateLimit)
    (hblack : Keeper.IsDenomBlacklisted ctx packetInfo.Denom = false)
    (hfound : Keeper.GetRateLimit ctx packetInfo.Denom packetInfo.ChannelID = some rateLimit)
    (hwhite : Keeper.IsAddressPairWhitelisted ctx packetInfo.Sender packetInfo.Receiver = false)
    (hover : rateLimit.Flow.Outflow + packetInfo.Amount >
      rateLimit.Quota.SendBound rateLimit.Flow.ChannelValue) :
    (Keeper.CheckRateLimitAndUpdateFlow ctx PacketDirection.PACKET_SEND packetInfo).1
        = (false, some Error.RateLimitExceeded) ∧
    (Keeper.CheckRateLimitAndUpdateFlow ctx PacketDirection.PACKET_SEND packetInfo).2.rateLimits
        = ctx.rateLimits ∧
    Keeper.GetRateLimit
        (Keeper.CheckRateLimitAndUpdateFlow ctx PacketDirection.PACKET_SEND packetInfo).2
        packetInfo.Denom packetInfo.ChannelID = some rateLimit := by
  have hcall : Keeper.CheckRateLimitAndUpdateFlow ctx PacketDirection.PACKET_SEND packetInfo
      = ((false, some Error.RateLimitExceeded),
          Keeper.EmitTransferDeniedEvent ctx EventType.EventRateLimitExceeded packetInfo.Denom
            packetInfo.ChannelID PacketDirection.PACKET_SEND packetInfo.Amount
            Error.RateLimitExceeded) := by
    simp [Keeper.CheckRateLimitAndUpdateFlow, hblack, hfound, hwhite, Keeper.UpdateFlow,
      Flow.AddOutflow, hover]
  rw [hcall]
  refine ⟨rfl, rfl, ?_⟩
  simpa [Keeper.GetRateLimit, Keeper.EmitTransferDeniedEvent] using hfound

/-- Witness of C2: outflow 50 of a bound of 100, a SEND of 60 is denied and the stored
rate limit keeps outflow 50. -/
theorem send_over_bound_denied_witness :
    (Keeper.CheckRateLimitAndUpdateFlow (exampleContext 50 10) PacketDirection.PACKET_SEND
        (examplePacket "uatom" "dave" 60)).1 = (false, some Error.RateLimitExceeded) ∧
    (Keeper.CheckRateLimitAndUpdateFlow (exampleContext 50 10) PacketDirection.PACKET_SEND
        (examplePacket "uatom" "dave" 60)).2.rateLimits = (exampleContext 50 10).rateLimits ∧
    Keeper.GetRateLimit
        (Keeper.CheckRateLimitAndUpdateFlow (exampleContext 50 10) PacketDirection.PACKET_SEND
          (examplePacket "uatom" "dave" 60)).2 "uatom" "channel-0"
      = some ⟨⟨"uatom", "channel-0"⟩, ⟨⟨10 ^ 17⟩, ⟨10 ^ 17⟩, 86400⟩, ⟨0, 50, 0, 86400, 1000⟩⟩ :=
  send_over_bound_denied (exampleContext 50 10) (examplePacket "uatom" "dave" 60)
    ⟨⟨"uatom", "channel-0"⟩, ⟨⟨10 ^ 17⟩, ⟨10 ^ 17⟩, 86400⟩, ⟨0, 50, 0, 86400, 1000⟩⟩
    (by decide) (by decide) (by decide) (by decide)

/-- C3: when the denom is blacklisted, for every direction, channel, amount, sender and
receiver (whether or not a rate limit exists or the pair is whitelisted, whatever the
headroom), the check returns `(false, ErrDenomIsBlacklisted)` and leaves the rate-limit
store unchanged. -/
theorem blacklisted_denom_denied (ctx : Context) (direction : PacketDirection)
    (packetInfo : RateLimitedPacketInfo)
    (hblack : Keeper.IsDenomBlacklisted ctx packetInfo.Denom = true) :
    (Keeper.CheckRateLimitAndUpdateFlow ctx direction packetInfo).1
        = (false, some (Error.ErrDenomIsBlacklisted packetInfo.Denom)) ∧
    (Keeper.CheckRateLimitAndUpdateFlow ctx direction packetInfo).2.rateLimits
        = ctx.rateLimits := by
  simp [Keeper.CheckRateLimitAndUpdateFlow, hblack, Keeper.EmitTransferDeniedEvent]

/-- Witness of C3: a RECV of the blacklisted denom `ubad` is denied. -/
theorem blacklisted_denom_denied_witness :
    Keeper.IsDenomBlacklisted (exampleContext 0 10) "ubad" = true ∧
    (Keeper.CheckRateLimitAndUpdateFlow (exampleContext 0 10) PacketDirection.PACKET_RECV
        (examplePacket "ubad" "alice" 1)).1 = (false, some (Error.ErrDenomIsBlacklisted "ubad")) ∧
    (Keeper.CheckRateLimitAndUpdateFlow (exampleContext 0 10) PacketDirection.PACKET_RECV
        (examplePacket "ubad" "alice" 1)).2.rateLimits = (exampleContext 0 10).rateLimits :=
  ⟨by decide, blacklisted_denom_denied (exampleContext 0 10) PacketDirection.PACKET_RECV
    (examplePacket "ubad" "alice" 1) (by decide)⟩

/-- C4: when the denom is not blacklisted and the (sender, receiver) pair is
whitelisted, for every direction and amount (also one that would exceed the bound) the
check returns `(false, nil)` and leaves the whole context, in particular every stored
rate limit, unchanged. -/
theorem whitelisted_pair_bypasses (ctx : Context) (direction : PacketDirection)
    (packetInfo : RateLimitedPacketInfo)
    (hblack : Keeper.IsDenomBlacklisted ctx packetInfo.Denom = false)
    (hwhite : Keeper.IsAddressPairWhitelisted ctx packetInfo.Sender packetInfo.Receiver = true) :
    Keeper.CheckRateLimitAndUpdateFlow ctx direction packetInfo = ((false, none), ctx) := by
  unfold Keeper.CheckRateLimitAndUpdateFlow
  simp only [hblack, hwhite]
  cases Keeper.GetRateLimit ctx packetInfo.Denom packetInfo.ChannelID <;> simp

/-- C5: when the denom is not blacklisted and no rate limit exists for
(denom, channelId), the check returns `(false, nil)` for every direction and amount and
leaves the whole context unchanged; no rate limit is created. -/
theorem no_rate_limit_no_action (ctx : Context) (direction : PacketDirection)
    (packetInfo : RateLimitedPacketInfo)
    (hblack : Keeper.IsDenomBlacklisted ctx packetInfo.Denom = false)
    (hnone : Keeper.GetRateLimit ctx packetInfo.Denom packetInfo.ChannelID = none) :
    Keeper.CheckRateLimitAndUpdateFlow ctx direction packetInfo = ((false, none), ctx) ∧
    Keeper.GetRateLimit (Keeper.CheckRateLimitAndUpdateFlow ctx direction packetInfo).2
      packetInfo.Denom packetInfo.ChannelID = none := by
  have hcall : Keeper.CheckRateLimitAndUpdateFlow ctx direction packetInfo
      = ((false, none), ctx) := by
    simp [Keeper.CheckRateLimitAndUpdateFlow, hblack, hnone]
  rw [hcall]
  exact ⟨rfl, hnone⟩

/-- Witness of C4: `alice` to `bob` is whitelisted; a SEND of 500 against a bound of 100
returns `(false, nil)` and changes nothing. -/
theorem whitelisted_pair_bypasses_witness :
    Keeper.CheckRateLimitAndUpdateFlow (exampleContext 50 10) PacketDirection.PACKET_SEND
        ⟨"channel-0", "uatom", 500, "alice", "bob"⟩ = ((false, none), exampleContext 50 10) :=
  whitelisted_pair_bypasses (exampleContext 50 10) PacketDirection.PACKET_SEND
    ⟨"channel-0", "uatom", 500, "alice", "bob"⟩ (by decide) (by decide)

/-- Witness of C5: there is no rate limit for `uosmo`; a SEND of 500 returns
`(false, nil)` and no rate limit exists afterwards. -/
theorem no_rate_limit_no_action_witness :
    Keeper.CheckRateLimitAndUpdateFlow (exampleContext 50 10) PacketDirection.PACKET_SEND
        (examplePacket "uosmo" "dave" 500) = ((false, none), exampleContext 50 10) ∧
    Keeper.GetRateLimit
      (Keeper.CheckRateLimitAndUpdateFlow (exampleContext 50 10) PacketDirection.PACKET_SEND
        (examplePacket "uosmo" "dave" 500)).2 "uosmo" "channel-0" = none :=
  no_rate_limit_no_action (exampleContext 50 10) PacketDirection.PACKET_SEND
    (examplePacket "uosmo" "dave" 500) (by decide) (by decide)

/-! ## Claims about `UndoSendPacket` -/

/-- When the check returns `(true, nil)`, a rate limit was found, `UpdateFlow` returned no
error, and the context afterwards is the old one with the updated rate limit persisted. -/
theorem Keeper.CheckRateLimitAndUpdateFlow_true (ctx : Context) (direction : PacketDirection)
    (packetInfo : RateLimitedPacketInfo)
    (h : (Keeper.CheckRateLimitAndUpdateFlow ctx direction packetInfo).1 = (true, none)) :
    ∃ rateLimit updated,
      Keeper.GetRateLimit ctx packetInfo.Denom packetInfo.ChannelID = some rateLimit ∧
      Keeper.UpdateFlow rateLimit direction packetInfo.Amount = (updated, none) ∧
      (Keeper.CheckRateLimitAndUpdateFlow ctx direction packetInfo).2
        = Keeper.SetRateLimit ctx updated := by
  cases hb : Keeper.IsDenomBlacklisted ctx packetInfo.Denom with
  | true => simp [Keeper.CheckRateLimitAndUpdateFlow, hb] at h
  | false =>
    cases hg : Keeper.GetRateLimit ctx packetInfo.Denom packetInfo.ChannelID with
    | none => simp [Keeper.CheckRateLimitAndUpdateFlow, hb, hg] at h
    | some rateLimit =>
      cases hw : Keeper.IsAddressPairWhitelisted ctx packetInfo.Sender packetInfo.Receiver with
      | true => simp [Keeper.CheckRateLimitAndUpdateFlow, hb, hg, hw] at h
      | false =>
        rcases hu : Keeper.UpdateFlow rateLimit direction packetInfo.Amount with ⟨updated, err⟩
        cases err with
        | some e => simp [Keeper.CheckRateLimitAndUpdateFlow, hb, hg, hw, hu] at h
        | none =>
          exact ⟨rateLimit, updated, rfl, hu,
            by simp [Keeper.CheckRateLimitAndUpdateFlow, hb, hg, hw, hu]⟩

/-- A successful SEND update is the rate limit with the amount added to its outflow. -/
theorem Keeper.UpdateFlow_send_ok (rateLimit updated : RateLimit) (amount : Int)
    (h : Keeper.UpdateFlow rateLimit PacketDirection.PACKET_SEND amount = (updated, none)) :
    updated = { rateLimit with
      Flow := { rateLimit.Flow with Outflow := rateLimit.Flow.Outflow + amount } } := by
  simp only [Keeper.UpdateFlow, Flow.AddOutflow] at h
  split at h
  · simp at h
  · simp only [Prod.mk.injEq, and_true] at h
    exact h.symm

/-- C6: round trip of send and undo. If a SEND check of amount `a` returns `(true, nil)`
and `UndoSendPacket(channelId, sequence, denom, a)` is then invoked while the pending
marker for (channelId, sequence) is present, the rate limit stored for
(denom, channelId) is the one stored before the send: the outflow equals its value
before the send and the inflow is unchanged; the pending marker is absent afterwards. -/
theorem send_then_undo_restores (ctx : Context) (packetInfo : RateLimitedPacketInfo)
    (sequence : Nat)
    (hsend : (Keeper.CheckRateLimitAndUpdateFlow ctx PacketDirection.PACKET_SEND packetInfo).1
      = (true, none))
    (hpending : Keeper.CheckPacketSentDuringCurrentQuota
      (Keeper.CheckRateLimitAndUpdateFlow ctx PacketDirection.PACKET_SEND packetInfo).2
      packetInfo.ChannelID sequence = true) :
    ∃ before after,
      Keeper.GetRateLimit ctx packetInfo.Denom packetInfo.ChannelID = some before ∧
      Keeper.GetRateLimit
        (Keeper.UndoSendPacket
          (Keeper.CheckRateLimitAndUpdateFlow ctx PacketDirection.PACKET_SEND packetInfo).2
          packetInfo.ChannelID sequence packetInfo.Denom packetInfo.Amount).2
        packetInfo.Denom packetInfo.ChannelID = some after ∧
      after.Flow.Outflow = before.Flow.Outflow ∧
      after.Flow.Inflow = before.Flow.Inflow ∧
      after = before ∧
      Keeper.CheckPacketSentDuringCurrentQuota
        (Keeper.UndoSendPacket
          (Keeper.CheckRateLimitAndUpdateFlow ctx PacketDirection.PACKET_SEND packetInfo).2
          packetInfo.ChannelID sequence packetInfo.Denom packetInfo.Amount).2
        packetInfo.ChannelID sequence = false := by
  obtain ⟨rateLimit, updated, hfound, hupd, hctx⟩ :=
    Keeper.CheckRateLimitAndUpdateFlow_true ctx _ packetInfo hsend
  have hp := Keeper.GetRateLimit_path ctx _ _ rateLimit hfound
  have hu := Keeper.UpdateFlow_send_ok rateLimit updated _ hupd
  rw [hctx] at hpending ⊢
  have hget : Keeper.GetRateLimit (Keeper.SetRateLimit ctx updated) packetInfo.Denom
      packetInfo.ChannelID = some updated := by
    have h := Keeper.GetRateLimit_SetRateLimit_self ctx updated
    rw [hu] at h ⊢
    simpa [hp] using h
  have hundo : (Keeper.UndoSendPacket (Keeper.SetRateLimit ctx updated) packetInfo.ChannelID
      sequence packetInfo.Denom packetInfo.Amount).2
      = Keeper.RemovePendingSendPacket (Keeper.SetRateLimit (Keeper.SetRateLimit ctx updated)
          { updated with Flow := { updated.Flow with
              Outflow := updated.Flow.Outflow - packetInfo.Amount } })
          packetInfo.ChannelID sequence := by
    simp [Keeper.UndoSendPacket, hget, hpending]
  have hback : ({ updated with Flow := { updated.Flow with
      Outflow := updated.Flow.Outflow - packetInfo.Amount } } : RateLimit) = rateLimit := by
    rw [hu]
    simp
  rw [hundo, hback]
  refine ⟨rateLimit, rateLimit, hfound, ?_, rfl, rfl, rfl, ?_⟩
  · have h := Keeper.GetRateLimit_SetRateLimit_self (Keeper.SetRateLimit ctx updated) rateLimit
    simpa [hp, Keeper.GetRateLimit, Keeper.RemovePendingSendPacket] using h
  · simp [Keeper.CheckPacketSentDuringCurrentQuota, Keeper.RemovePendingSendPacket]

/-- Witness of C6: with the marker for `(channel-0, 7)` present, a SEND of 30 followed
by its undo leaves the rate limit of `(uatom, channel-0)` as it was. -/
theorem send_then_undo_restores_witness :
    ∃ before after,
      Keeper.GetRateLimit (exampleContext 50 10) "uatom" "channel-0" = some before ∧
      Keeper.GetRateLimit
        (Keeper.UndoSendPacket
          (Keeper.CheckRateLimitAndUpdateFlow (exampleContext 50 10) PacketDirection.PACKET_SEND
            (examplePacket "uatom" "dave" 30)).2
          "channel-0" 7 "uatom" 30).2
        "uatom" "channel-0" = some after ∧
      after.Flow.Outflow = before.Flow.Outflow ∧
      after.Flow.Inflow = before.Flow.Inflow ∧
      after = before ∧
      Keeper.CheckPacketSentDuringCurrentQuota
        (Keeper.UndoSendPacket
          (Keeper.CheckRateLimitAndUpdateFlow (exampleContext 50 10) PacketDirection.PACKET_SEND
            (examplePacket "uatom" "dave" 30)).2
          "channel-0" 7 "uatom" 30).2
        "channel-0" 7 = false :=
  send_then_undo_restores (exampleContext 50 10) (examplePacket "uatom" "dave" 30) 7
    (by decide) (by decide)

/-- C7: `UndoSendPacket` mutates nothing unless both lookups succeed. If no rate limit
exists for (denom, channelId), or the packet (channelId, sequence) was not sent during
the current quota window, the context after the call, with its stored rate limits and
its pending-send markers, is the context before it. -/
theorem undo_without_both_lookups_is_noop (ctx : Context) (channelId : String)
    (sequence : Nat) (denom : String) (amount : Int)
    (h : Keeper.GetRateLimit ctx denom channelId = none ∨
      Keeper.CheckPacketSentDuringCurrentQuota ctx channelId sequence = false) :
    (Keeper.UndoSendPacket ctx channelId sequence denom amount).2 = ctx ∧
    (Keeper.UndoSendPacket ctx channelId sequence denom amount).2.rateLimits = ctx.rateLimits ∧
    (Keeper.UndoSendPacket ctx channelId sequence denom amount).2.pendingSendPackets
      = ctx.pendingSendPackets := by
  have hctx : (Keeper.UndoSendPacket ctx channelId sequence denom amount).2 = ctx := by
    unfold Keeper.UndoSendPacket
    rcases h with h | h
    · simp [h]
    · cases Keeper.GetRateLimit ctx denom channelId <;> simp [h]
  rw [hctx]
  exact ⟨rfl, rfl, rfl⟩

/-- Witness of C7: a rate limit exists for `(uatom, channel-0)` but sequence 8 has no
pending marker; the undo of 30 changes nothing. -/
theorem undo_without_both_lookups_is_noop_witness :
    Keeper.CheckPacketSentDuringCurrentQuota (exampleContext 50 10) "channel-0" 8 = false ∧
    (Keeper.UndoSendPacket (exampleContext 50 10) "channel-0" 8 "uatom" 30).2
      = exampleContext 50 10 :=
  ⟨by decide,
    (undo_without_both_lookups_is_noop (exampleContext 50 10) "channel-0" 8 "uatom" 30
      (Or.inr (by decide))).1⟩

/-- C8: `UndoSendPacket` cannot fail. For every context and every
(channelId, sequence, denom, amount), also an amount larger than the current outflow and
a sequence never sent, the returned error is nil. -/
theorem undo_returns_nil (ctx : Context) (channelId : String) (sequence : Nat)
    (denom : String) (amount : Int) :
    (Keeper.UndoSendPacket ctx channelId sequence denom amount).1 = none := by
  unfold Keeper.UndoSendPacket
  cases Keeper.GetRateLimit ctx denom channelId with
  | none => rfl
  | some rateLimit =>
    cases Keeper.CheckPacketSentDuringCurrentQuota ctx channelId sequence <;> rfl

/-! ## The quota invariant -/

/-- Persisting a rate limit that satisfies both bounds keeps the invariant. -/
theorem QuotaInvariant_SetRateLimit (ctx : Context) (rateLimit : RateLimit)
    (hinv : QuotaInvariant ctx)
    (hout : rateLimit.Flow.Outflow ≤ rateLimit.Quota.SendBound rateLimit.Flow.ChannelValue)
    (hin : rateLimit.Flow.Inflow ≤ rateLimit.Quota.RecvBound rateLimit.Flow.ChannelValue) :
    QuotaInvariant (Keeper.SetRateLimit ctx rateLimit) := by
  intro denom channelId stored hstored
  simp only [Keeper.SetRateLimit] at hstored
  split at hstored
  · cases hstored
    exact ⟨hout, hin⟩
  · exact hinv denom channelId stored hstored

/-- A rate limit read from a store that satisfies the invariant satisfies both bounds. -/
theorem QuotaInvariant_GetRateLimit (ctx : Context) (denom channelId : String)
    (rateLimit : RateLimit) (hinv : QuotaInvariant ctx)
    (h : Keeper.GetRateLimit ctx denom channelId = some rateLimit) :
    rateLimit.Flow.Outflow ≤ rateLimit.Quota.SendBound rateLimit.Flow.ChannelValue ∧
    rateLimit.Flow.Inflow ≤ rateLimit.Quota.RecvBound rateLimit.Flow.ChannelValue :=
  hinv denom channelId _ (Keeper.GetRateLimit_stored ctx denom channelId rateLimit h)

/-- An update that returns no error keeps both bounds of the rate limit. -/
theorem Keeper.UpdateFlow_keeps_bounds (rateLimit updated : RateLimit)
    (direction : PacketDirection) (amount : Int)
    (hout : rateLimit.Flow.Outflow ≤ rateLimit.Quota.SendBound rateLimit.Flow.ChannelValue)
    (hin : rateLimit.Flow.Inflow ≤ rateLimit.Quota.RecvBound rateLimit.Flow.ChannelValue)
    (h : Keeper.UpdateFlow rateLimit direction amount = (updated, none)) :
    updated.Flow.Outflow ≤ updated.Quota.SendBound updated.Flow.ChannelValue ∧
    updated.Flow.Inflow ≤ updated.Quota.RecvBound updated.Flow.ChannelValue := by
  cases direction with
  | PACKET_SEND =>
    simp only [Keeper.UpdateFlow, Flow.AddOutflow] at h
    split at h
    · simp at h
    · next hle =>
      simp only [Prod.mk.injEq, and_true] at h
      subst h
      exact ⟨by simpa using hle, hin⟩
  | PACKET_RECV =>
    simp only [Keeper.UpdateFlow, Flow.AddInflow] at h
    split at h
    · simp at h
    · next hle =>
      simp only [Prod.mk.injEq, and_true] at h
      subst h
      exact ⟨hout, by simpa using hle⟩
  | other code => simp [Keeper.UpdateFlow] at h

/-- The check keeps the invariant, whatever it returns. -/
theorem QuotaInvariant_CheckRateLimitAndUpdateFlow (ctx : Context)
    (direction : PacketDirection) (packetInfo : RateLimitedPacketInfo)
    (hinv : QuotaInvariant ctx) :
    QuotaInvariant (Keeper.CheckRateLimitAndUpdateFlow ctx direction packetInfo).2 := by
  cases hb : Keeper.IsDenomBlacklisted ctx packetInfo.Denom with
  | true =>
    simp only [Keeper.CheckRateLimitAndUpdateFlow, hb, if_true]
    exact hinv
  | false =>
    cases hg : Keeper.GetRateLimit ctx packetInfo.Denom packetInfo.ChannelID with
    | none =>
      simp only [Keeper.CheckRateLimitAndUpdateFlow, hb, hg]
      exact hinv
    | some rateLimit =>
      have hb0 := QuotaInvariant_GetRateLimit ctx _ _ rateLimit hinv hg
      cases hw : Keeper.IsAddressPairWhitelisted ctx packetInfo.Sender packetInfo.Receiver with
      | true =>
        simp only [Keeper.CheckRateLimitAndUpdateFlow, hb, hg, hw]
        exact hinv
      | false =>
        rcases hu : Keeper.UpdateFlow rateLimit direction packetInfo.Amount with ⟨updated, err⟩
        cases err with
        | some e =>
          simp only [Keeper.CheckRateLimitAndUpdateFlow, hb, hg, hw, hu]
          exact hinv
        | none =>
          have hb1 := Keeper.UpdateFlow_keeps_bounds rateLimit updated direction _ hb0.1 hb0.2 hu
          simp only [Keeper.CheckRateLimitAndUpdateFlow, hb, hg, hw, hu]
          exact QuotaInvariant_SetRateLimit ctx updated hinv hb1.1 hb1.2

/-- The undo of a non-negative amount keeps the invariant. -/
theorem QuotaInvariant_UndoSendPacket (ctx : Context) (channelId : String) (sequence : Nat)
    (denom : String) (amount : Int) (hinv : QuotaInvariant ctx) (hamount : 0 ≤ amount) :
    QuotaInvariant (Keeper.UndoSendPacket ctx channelId sequence denom amount).2 := by
  cases hg : Keeper.GetRateLimit ctx denom channelId with
  | none =>
    simp only [Keeper.UndoSendPacket, hg]
    exact hinv
  | some rateLimit =>
    have hb0 := QuotaInvariant_GetRateLimit ctx _ _ rateLimit hinv hg
    cases hp : Keeper.CheckPacketSentDuringCurrentQuota ctx channelId sequence with
    | false =>
      simp only [Keeper.UndoSendPacket, hg, hp]
      exact hinv
    | true =>
      simp only [Keeper.UndoSendPacket, hg, hp, if_true]
      have hset := QuotaInvariant_SetRateLimit ctx
        { rateLimit with Flow := { rateLimit.Flow with Outflow := rateLimit.Flow.Outflow - amount } }
        hinv (by simp only; omega) hb0.2
      exact hset

/-- C9: quota invariant. If every stored rate limit satisfies
`outflow ≤ floor(channelValue × maxSendPercentage)` and
`inflow ≤ floor(channelValue × maxReceivePercentage)`, then after any call of
`CheckRateLimitAndUpdateFlow` (any direction, any non-negative amount, successful or not)
and after any call of `UndoSendPacket` (any non-negative amount) every stored rate limit
still satisfies both bounds. -/
theorem quota_invariant_preserved (ctx : Context) (hinv : QuotaInvariant ctx) :
    (∀ (direction : PacketDirection) (packetInfo : RateLimitedPacketInfo),
      0 ≤ packetInfo.Amount →
      QuotaInvariant (Keeper.CheckRateLimitAndUpdateFlow ctx direction packetInfo).2) ∧
    (∀ (channelId : String) (sequence : Nat) (denom : String) (amount : Int),
      0 ≤ amount →
      QuotaInvariant (Keeper.UndoSendPacket ctx channelId sequence denom amount).2) :=
  ⟨fun direction packetInfo _ =>
      QuotaInvariant_CheckRateLimitAndUpdateFlow ctx direction packetInfo hinv,
    fun channelId sequence denom amount hamount =>
      QuotaInvariant_UndoSendPacket ctx channelId sequence denom amount hinv hamount⟩

/-- Witness of C9: the example context (outflow 50, inflow 0, both bounds 100) satisfies
the invariant, and so do the contexts after a SEND of 30 and after an undo of 30. -/
theorem quota_invariant_preserved_witness :
    QuotaInvariant (exampleContext 50 10) ∧
    QuotaInvariant (Keeper.CheckRateLimitAndUpdateFlow (exampleContext 50 10)
      PacketDirection.PACKET_SEND (examplePacket "uatom" "dave" 30)).2 ∧
    QuotaInvariant (Keeper.UndoSendPacket (exampleContext 50 10) "channel-0" 7 "uatom" 30).2 :=
  have hinv : QuotaInvariant (exampleContext 50 10) := by
    intro denom channelId stored hstored
    simp only [exampleContext] at hstored
    split at hstored
    · cases hstored
      decide
    · cases hstored
  ⟨hinv,
    (quota_invariant_preserved (exampleContext 50 10) hinv).1 PacketDirection.PACKET_SEND
      (examplePacket "uatom" "dave" 30) (by decide),
    (quota_invariant_preserved (exampleContext 50 10) hinv).2 "channel-0" 7 "uatom" 30
      (by decide)⟩

/-! ## Window rollover and channel value -/

/-- With the plain read of the store as the lookup, the parametrised check is
`CheckRateLimitAndUpdateFlow`. -/
theorem Keeper.CheckRateLimitAndUpdateFlowWith_GetRateLimit (ctx : Context)
    (direction : PacketDirection) (packetInfo : RateLimitedPacketInfo) :
    Keeper.CheckRateLimitAndUpdateFlowWith Keeper.GetRateLimit ctx direction packetInfo
      = Keeper.CheckRateLimitAndUpdateFlow ctx direction packetInfo :=
  rfl

/-- The fresh lookup of a stored record: the stored quota, the stored flow rolled over at
the block time, and the channel value from `GetChannelValue`. -/
theorem Keeper.GetRateLimitFresh_stored (ctx : Context) (denom channelId : String)
    (stored : StoredRateLimit) (hstored : ctx.rateLimits denom channelId = some stored) :
    Keeper.GetRateLimitFresh ctx denom channelId
      = some ⟨⟨denom, channelId⟩, stored.Quota,
          ⟨(stored.Flow.Rollover stored.Quota ctx.blockTime).Inflow,
           (stored.Flow.Rollover stored.Quota ctx.blockTime).Outflow,
           (stored.Flow.Rollover stored.Quota ctx.blockTime).WindowStart,
           (stored.Flow.Rollover stored.Quota ctx.blockTime).WindowEnd,
           Keeper.GetChannelValue ctx denom⟩⟩ := by
  simp only [Keeper.GetRateLimitFresh, hstored]

/-- A SEND through the check with the fresh lookup, past the blacklist and the whitelist:
the amount is added to the outflow of the rolled-over flow and compared with the send
bound of the current channel value. -/
theorem Keeper.CheckRateLimitAndUpdateFlowWith_send (ctx : Context)
    (packetInfo : RateLimitedPacketInfo) (stored : StoredRateLimit)
    (hblack : Keeper.IsDenomBlacklisted ctx packetInfo.Denom = false)
    (hstored : ctx.rateLimits packetInfo.Denom packetInfo.ChannelID = some stored)
    (hwhite : Keeper.IsAddressPairWhitelisted ctx packetInfo.Sender packetInfo.Receiver = false) :
    Keeper.CheckRateLimitAndUpdateFlowWith Keeper.GetRateLimitFresh ctx
        PacketDirection.PACKET_SEND packetInfo
      = if (stored.Flow.Rollover stored.Quota ctx.blockTime).Outflow + packetInfo.Amount
            > stored.Quota.SendBound (Keeper.GetChannelValue ctx packetInfo.Denom) then
          ((false, some Error.RateLimitExceeded),
            Keeper.EmitTransferDeniedEvent ctx EventType.EventRateLimitExceeded packetInfo.Denom
              packetInfo.ChannelID PacketDirection.PACKET_SEND packetInfo.Amount
              Error.RateLimitExceeded)
        else
          ((true, none),
            Keeper.SetRateLimit ctx ⟨⟨packetInfo.Denom, packetInfo.ChannelID⟩, stored.Quota,
              ⟨(stored.Flow.Rollover stored.Quota ctx.blockTime).Inflow,
               (stored.Flow.Rollover stored.Quota ctx.blockTime).Outflow + packetInfo.Amount,
               (stored.Flow.Rollover stored.Quota ctx.blockTime).WindowStart,
               (stored.Flow.Rollover stored.Quota ctx.blockTime).WindowEnd,
               Keeper.GetChannelValue ctx packetInfo.Denom⟩⟩) := by
  have hg := Keeper.GetRateLimitFresh_stored ctx _ _ stored hstored
  by_cases h : (stored.Flow.Rollover stored.Quota ctx.blockTime).Outflow + packetInfo.Amount
      > stored.Quota.SendBound (Keeper.GetChannelValue ctx packetInfo.Denom)
  · simp [Keeper.CheckRateLimitAndUpdateFlowWith, hblack, hg, hwhite, Keeper.UpdateFlow,
      Flow.AddOutflow, h]
  · simp [Keeper.CheckRateLimitAndUpdateFlowWith, hblack, hg, hwhite, Keeper.UpdateFlow,
      Flow.AddOutflow, h]

/-- A RECV through the check with the fresh lookup, past the blacklist and the whitelist:
the amount is added to the inflow of the rolled-over flow and compared with the receive
bound of the current channel value. -/
theorem Keeper.CheckRateLimitAndUpdateFlowWith_recv (ctx : Context)
    (packetInfo : RateLimitedPacketInfo) (stored : StoredRateLimit)
    (hblack : Keeper.IsDenomBlacklisted ctx packetInfo.Denom = false)
    (hstored : ctx.rateLimits packetInfo.Denom packetInfo.ChannelID = some stored)
    (hwhite : Keeper.IsAddressPairWhitelisted ctx packetInfo.Sender packetInfo.Receiver = false) :
    Keeper.CheckRateLimitAndUpdateFlowWith Keeper.GetRateLimitFresh ctx
        PacketDirection.PACKET_RECV packetInfo
      = if (stored.Flow.Rollover stored.Quota ctx.blockTime).Inflow + packetInfo.Amount
            > stored.Quota.RecvBound (Keeper.GetChannelValue ctx packetInfo.Denom) then
          ((false, some Error.RateLimitExceeded),
            Keeper.EmitTransferDeniedEvent ctx EventType.EventRateLimitExceeded packetInfo.Denom
              packetInfo.ChannelID PacketDirection.PACKET_RECV packetInfo.Amount
              Error.RateLimitExceeded)
        else
          ((true, none),
            Keeper.SetRateLimit ctx ⟨⟨packetInfo.Denom, packetInfo.ChannelID⟩, stored.Quota,
              ⟨(stored.Flow.Rollover stored.Quota ctx.blockTime).Inflow + packetInfo.Amount,
               (stored.Flow.Rollover stored.Quota ctx.blockTime).Outflow,
               (stored.Flow.Rollover stored.Quota ctx.blockTime).WindowStart,
               (stored.Flow.Rollover stored.Quota ctx.blockTime).WindowEnd,
               Keeper.GetChannelValue ctx packetInfo.Denom⟩⟩) := by
  have hg := Keeper.GetRateLimitFresh_stored ctx _ _ stored hstored
  by_cases h : (stored.Flow.Rollover stored.Quota ctx.blockTime).Inflow + packetInfo.Amount
      > stored.Quota.RecvBound (Keeper.GetChannelValue ctx packetInfo.Denom)
  · simp [Keeper.CheckRateLimitAndUpdateFlowWith, hblack, hg, hwhite, Keeper.UpdateFlow,
      Flow.AddInflow, h]
  · simp [Keeper.CheckRateLimitAndUpdateFlowWith, hblack, hg, hwhite, Keeper.UpdateFlow,
      Flow.AddInflow, h]

/-- The rollover of a flow whose window has ended: zero flows and the window
`[now, now + duration)`. -/
theorem Flow.Rollover_ended (flow : Flow) (quota : Quota) (now : Int)
    (hended : now ≥ flow.WindowEnd) :
    flow.Rollover quota now = ⟨0, 0, now, now + quota.Duration, flow.ChannelValue⟩ := by
  simp only [Flow.Rollover, if_pos hended]

/-- The rollover of a flow inside its window: the flow itself. -/
theorem Flow.Rollover_inside (flow : Flow) (quota : Quota) (now : Int)
    (hinside : now < flow.WindowEnd) : flow.Rollover quota now = flow := by
  have h : ¬ now ≥ flow.WindowEnd := by omega
  simp only [Flow.Rollover, if_neg h]

/-- The record stored under the key of a rate limit after `SetRateLimit`. -/
theorem Keeper.SetRateLimit_rateLimits (ctx : Context) (rateLimit : RateLimit) :
    (Keeper.SetRateLimit ctx rateLimit).rateLimits rateLimit.Path.Denom rateLimit.Path.ChannelId
      = some ⟨rateLimit.Quota, rateLimit.Flow⟩ := by
  simp [Keeper.SetRateLimit]

/-- Inside the window and with the stored channel value equal to the current supply, the
fresh lookup returns what the plain read of the store returns. -/
theorem Keeper.GetRateLimitFresh_eq_GetRateLimit (ctx : Context) (denom channelId : String)
    (stored : StoredRateLimit) (hstored : ctx.rateLimits denom channelId = some stored)
    (hinside : ctx.blockTime < stored.Flow.WindowEnd)
    (hvalue : stored.Flow.ChannelValue = Keeper.GetChannelValue ctx denom) :
    Keeper.GetRateLimitFresh ctx denom channelId = Keeper.GetRateLimit ctx denom channelId := by
  rw [Keeper.GetRateLimitFresh_stored ctx denom channelId stored hstored,
    Flow.Rollover_inside stored.Flow stored.Quota ctx.blockTime hinside, ← hvalue]
  simp only [Keeper.GetRateLimit, hstored]

/-- C10: lazy window rollover, for the check with the lookup of sections 3 and 4.3. Past the
blacklist and the whitelist, on a stored rate limit whose window has ended
(`now ≥ windowEnd`) the amount is added to flows reset to zero: an amount within the bound
is allowed and the record stored afterwards has the amount as outflow (SEND) or as inflow
(RECV), zero as the other flow and the window `[now, now + duration)`; an amount over the
bound is denied and the store is left as it was. Inside the window (`now < windowEnd`) the
amount is added to the stored flow and the window is kept. -/
theorem lazy_window_rollover (ctx : Context) (packetInfo : RateLimitedPacketInfo)
    (stored : StoredRateLimit)
    (hblack : Keeper.IsDenomBlacklisted ctx packetInfo.Denom = false)
    (hstored : ctx.rateLimits packetInfo.Denom packetInfo.ChannelID = some stored)
    (hwhite : Keeper.IsAddressPairWhitelisted ctx packetInfo.Sender packetInfo.Receiver = false) :
    (ctx.blockTime ≥ stored.Flow.WindowEnd →
      (packetInfo.Amount ≤ stored.Quota.SendBound (Keeper.GetChannelValue ctx packetInfo.Denom) →
        (Keeper.CheckRateLimitAndUpdateFlowWith Keeper.GetRateLimitFresh ctx
          PacketDirection.PACKET_SEND packetInfo).1 = (true, none) ∧
        (Keeper.CheckRateLimitAndUpdateFlowWith Keeper.GetRateLimitFresh ctx
          PacketDirection.PACKET_SEND packetInfo).2.rateLimits packetInfo.Denom packetInfo.ChannelID
          = some ⟨stored.Quota, ⟨0, packetInfo.Amount, ctx.blockTime,
              ctx.blockTime + stored.Quota.Duration,
              Keeper.GetChannelValue ctx packetInfo.Denom⟩⟩) ∧
      (stored.Quota.SendBound (Keeper.GetChannelValue ctx packetInfo.Denom) < packetInfo.Amount →
        (Keeper.CheckRateLimitAndUpdateFlowWith Keeper.GetRateLimitFresh ctx
          PacketDirection.PACKET_SEND packetInfo).1 = (false, some Error.RateLimitExceeded) ∧
        (Keeper.CheckRateLimitAndUpdateFlowWith Keeper.GetRateLimitFresh ctx
          PacketDirection.PACKET_SEND packetInfo).2.rateLimits = ctx.rateLimits) ∧
      (packetInfo.Amount ≤ stored.Quota.RecvBound (Keeper.GetChannelValue ctx packetInfo.Denom) →
        (Keeper.CheckRateLimitAndUpdateFlowWith Keeper.GetRateLimitFresh ctx
          PacketDirection.PACKET_RECV packetInfo).1 = (true, none) ∧
        (Keeper.CheckRateLimitAndUpdateFlowWith Keeper.GetRateLimitFresh ctx
          PacketDirection.PACKET_RECV packetInfo).2.rateLimits packetInfo.Denom packetInfo.ChannelID
          = some ⟨stored.Quota, ⟨packetInfo.Amount, 0, ctx.blockTime,
              ctx.blockTime + stored.Quota.Duration,
              Keeper.GetChannelValue ctx packetInfo.Denom⟩⟩) ∧
      (stored.Quota.RecvBound (Keeper.GetChannelValue ctx packetInfo.Denom) < packetInfo.Amount →
        (Keeper.CheckRateLimitAndUpdateFlowWith Keeper.GetRateLimitFresh ctx
          PacketDirection.PACKET_RECV packetInfo).1 = (false, some Error.RateLimitExceeded) ∧
        (Keeper.CheckRateLimitAndUpdateFlowWith Keeper.GetRateLimitFresh ctx
          PacketDirection.PACKET_RECV packetInfo).2.rateLimits = ctx.rateLimits)) ∧
    (ctx.blockTime < stored.Flow.WindowEnd →
      (stored.Flow.Outflow + packetInfo.Amount
          ≤ stored.Quota.SendBound (Keeper.GetChannelValue ctx packetInfo.Denom) →
        (Keeper.CheckRateLimitAndUpdateFlowWith Keeper.GetRateLimitFresh ctx
          PacketDirection.PACKET_SEND packetInfo).1 = (true, none) ∧
        (Keeper.CheckRateLimitAndUpdateFlowWith Keeper.GetRateLimitFresh ctx
          PacketDirection.PACKET_SEND packetInfo).2.rateLimits packetInfo.Denom packetInfo.ChannelID
          = some ⟨stored.Quota, ⟨stored.Flow.Inflow, stored.Flow.Outflow + packetInfo.Amount,
              stored.Flow.WindowStart, stored.Flow.WindowEnd,
              Keeper.GetChannelValue ctx packetInfo.Denom⟩⟩) ∧
      (stored.Quota.SendBound (Keeper.GetChannelValue ctx packetInfo.Denom)
          < stored.Flow.Outflow + packetInfo.Amount →
        (Keeper.CheckRateLimitAndUpdateFlowWith Keeper.GetRateLimitFresh ctx
          PacketDirection.PACKET_SEND packetInfo).1 = (false, some Error.RateLimitExceeded) ∧
        (Keeper.CheckRateLimitAndUpdateFlowWith Keeper.GetRateLimitFresh ctx
          PacketDirection.PACKET_SEND packetInfo).2.rateLimits = ctx.rateLimits) ∧
      (stored.Flow.Inflow + packetInfo.Amount
          ≤ stored.Quota.RecvBound (Keeper.GetChannelValue ctx packetInfo.Denom) →
        (Keeper.CheckRateLimitAndUpdateFlowWith Keeper.GetRateLimitFresh ctx
          PacketDirection.PACKET_RECV packetInfo).1 = (true, none) ∧
        (Keeper.CheckRateLimitAndUpdateFlowWith Keeper.GetRateLimitFresh ctx
          PacketDirection.PACKET_RECV packetInfo).2.rateLimits packetInfo.Denom packetInfo.ChannelID
          = some ⟨stored.Quota, ⟨stored.Flow.Inflow + packetInfo.Amount, stored.Flow.Outflow,
              stored.Flow.WindowStart, stored.Flow.WindowEnd,
              Keeper.GetChannelValue ctx packetInfo.Denom⟩⟩) ∧
      (stored.Quota.RecvBound (Keeper.GetChannelValue ctx packetInfo.Denom)
          < stored.Flow.Inflow + packetInfo.Amount →
        (Keeper.CheckRateLimitAndUpdateFlowWith Keeper.GetRateLimitFresh ctx
          PacketDirection.PACKET_RECV packetInfo).1 = (false, some Error.RateLimitExceeded) ∧
        (Keeper.CheckRateLimitAndUpdateFlowWith Keeper.GetRateLimitFresh ctx
          PacketDirection.PACKET_RECV packetInfo).2.rateLimits = ctx.rateLimits)) := by
  have hs := Keeper.CheckRateLimitAndUpdateFlowWith_send ctx packetInfo stored hblack hstored hwhite
  have hr := Keeper.CheckRateLimitAndUpdateFlowWith_recv ctx packetInfo stored hblack hstored hwhite
  constructor
  · intro hended
    rw [Flow.Rollover_ended stored.Flow stored.Quota ctx.blockTime hended] at hs hr
    simp only [zero_add] at hs hr
    refine ⟨?_, ?_, ?_, ?_⟩
    · intro h
      have hn : ¬ packetInfo.Amount
          > stored.Quota.SendBound (Keeper.GetChannelValue ctx packetInfo.Denom) := by omega
      rw [if_neg hn] at hs
      rw [hs]
      exact ⟨rfl, Keeper.SetRateLimit_rateLimits ctx _⟩
    · intro h
      rw [if_pos h] at hs
      rw [hs]
      exact ⟨rfl, rfl⟩
    · intro h
      have hn : ¬ packetInfo.Amount
          > stored.Quota.RecvBound (Keeper.GetChannelValue ctx packetInfo.Denom) := by omega
      rw [if_neg hn] at hr
      rw [hr]
      exact ⟨rfl, Keeper.SetRateLimit_rateLimits ctx _⟩
    · intro h
      rw [if_pos h] at hr
      rw [hr]
      exact ⟨rfl, rfl⟩
  · intro hinside
    rw [Flow.Rollover_inside stored.Flow stored.Quota ctx.blockTime hinside] at hs hr
    refine ⟨?_, ?_, ?_, ?_⟩
    · intro h
      have hn : ¬ stored.Flow.Outflow + packetInfo.Amount
          > stored.Quota.SendBound (Keeper.GetChannelValue ctx packetInfo.Denom) := by omega
      rw [if_neg hn] at hs
      rw [hs]
      exact ⟨rfl, Keeper.SetRateLimit_rateLimits ctx _⟩
    · intro h
      rw [if_pos h] at hs
      rw [hs]
      exact ⟨rfl, rfl⟩
    · intro h
      have hn : ¬ stored.Flow.Inflow + packetInfo.Amount
          > stored.Quota.RecvBound (Keeper.GetChannelValue ctx packetInfo.Denom) := by omega
      rw [if_neg hn] at hr
      rw [hr]
      exact ⟨rfl, Keeper.SetRateLimit_rateLimits ctx _⟩
    · intro h
      rw [if_pos h] at hr
      rw [hr]
      exact ⟨rfl, rfl⟩

/-- Witness of C10: the scenario of the claim, with a send quota of 10%, a channel value
of 1000, outflow 50 and the window `[0, 86400)`. At block time 10, inside the window, a
SEND of 60 is denied; at block time 90000, after the window has ended, a SEND of 60 is
allowed and the stored record has inflow 0, outflow 60 and the window
`[90000, 90000 + 86400)`. -/
theorem lazy_window_rollover_witness :
    ((Keeper.CheckRateLimitAndUpdateFlowWith Keeper.GetRateLimitFresh (exampleContext 50 10)
        PacketDirection.PACKET_SEND (examplePacket "uatom" "dave" 60)).1
        = (false, some Error.RateLimitExceeded) ∧
      (Keeper.CheckRateLimitAndUpdateFlowWith Keeper.GetRateLimitFresh (exampleContext 50 10)
        PacketDirection.PACKET_SEND (examplePacket "uatom" "dave" 60)).2.rateLimits
        = (exampleContext 50 10).rateLimits) ∧
    ((Keeper.CheckRateLimitAndUpdateFlowWith Keeper.GetRateLimitFresh (exampleContext 50 90000)
        PacketDirection.PACKET_SEND (examplePacket "uatom" "dave" 60)).1 = (true, none) ∧
      (Keeper.CheckRateLimitAndUpdateFlowWith Keeper.GetRateLimitFresh (exampleContext 50 90000)
        PacketDirection.PACKET_SEND (examplePacket "uatom" "dave" 60)).2.rateLimits
          "uatom" "channel-0"
        = some ⟨⟨⟨10 ^ 17⟩, ⟨10 ^ 17⟩, 86400⟩, ⟨0, 60, 90000, 90000 + 86400, 1000⟩⟩) :=
  ⟨((lazy_window_rollover (exampleContext 50 10) (examplePacket "uatom" "dave" 60)
      ⟨⟨⟨10 ^ 17⟩, ⟨10 ^ 17⟩, 86400⟩, ⟨0, 50, 0, 86400, 1000⟩⟩
      (by decide) (by decide) (by decide)).2 (by decide)).2.1 (by decide),
   ((lazy_window_rollover (exampleContext 50 90000) (examplePacket "uatom" "dave" 60)
      ⟨⟨⟨10 ^ 17⟩, ⟨10 ^ 17⟩, 86400⟩, ⟨0, 50, 0, 86400, 1000⟩⟩
      (by decide) (by decide) (by decide)).1 (by decide)).1 (by decide)⟩

/-- C11: the channel value of the bound is the current total supply, for the check with
the lookup of sections 3 and 4.3. `GetChannelValue` returns the oracle's total supply of
the denom, and for every state that differs from `ctx` only in the oracle's supply the
check, past the blacklist and the whitelist, is decided against that supply: a SEND is
denied exactly when the outflow plus the amount exceeds the send bound of the supply, a
RECV exactly when the inflow plus the amount exceeds the receive bound of the supply. The
channel value kept in the store has no part in the decision. -/
theorem channel_value_is_current_supply (ctx : Context) (supply : String → Int)
    (packetInfo : RateLimitedPacketInfo) (stored : StoredRateLimit)
    (hblack : Keeper.IsDenomBlacklisted ctx packetInfo.Denom = false)
    (hstored : ctx.rateLimits packetInfo.Denom packetInfo.ChannelID = some stored)
    (hwhite : Keeper.IsAddressPairWhitelisted ctx packetInfo.Sender packetInfo.Receiver = false) :
    Keeper.GetChannelValue { ctx with supply := supply } packetInfo.Denom
      = supply packetInfo.Denom ∧
    (Keeper.CheckRateLimitAndUpdateFlowWith Keeper.GetRateLimitFresh { ctx with supply := supply }
        PacketDirection.PACKET_SEND packetInfo).1
      = (if (stored.Flow.Rollover stored.Quota ctx.blockTime).Outflow + packetInfo.Amount
            > stored.Quota.SendBound (supply packetInfo.Denom)
          then (false, some Error.RateLimitExceeded) else (true, none)) ∧
    (Keeper.CheckRateLimitAndUpdateFlowWith Keeper.GetRateLimitFresh { ctx with supply := supply }
        PacketDirection.PACKET_RECV packetInfo).1
      = (if (stored.Flow.Rollover stored.Quota ctx.blockTime).Inflow + packetInfo.Amount
            > stored.Quota.RecvBound (supply packetInfo.Denom)
          then (false, some Error.RateLimitExceeded) else (true, none)) := by
  have hs := Keeper.CheckRateLimitAndUpdateFlowWith_send { ctx with supply := supply } packetInfo
    stored hblack hstored hwhite
  have hr := Keeper.CheckRateLimitAndUpdateFlowWith_recv { ctx with supply := supply } packetInfo
    stored hblack hstored hwhite
  refine ⟨rfl, ?_, ?_⟩
  · rw [hs]
    show (if (stored.Flow.Rollover stored.Quota ctx.blockTime).Outflow + packetInfo.Amount
        > stored.Quota.SendBound (supply packetInfo.Denom) then _ else _ : _ × Context).1 = _
    split <;> rfl
  · rw [hr]
    show (if (stored.Flow.Rollover stored.Quota ctx.blockTime).Inflow + packetInfo.Amount
        > stored.Quota.RecvBound (supply packetInfo.Denom) then _ else _ : _ × Context).1 = _
    split <;> rfl

/-- Witness of C11: two states that differ only in the supply of `uatom`, with a quota of
10%, outflow 50 and a stored channel value of 1000. Under a supply of 1000 (bound 100) a
SEND of 60 is denied; under a supply of 1000000 (bound 100000) it is allowed. -/
theorem channel_value_is_current_supply_witness :
    (Keeper.CheckRateLimitAndUpdateFlowWith Keeper.GetRateLimitFresh
        { exampleContext 50 10 with supply := fun _ => 1000 }
        PacketDirection.PACKET_SEND (examplePacket "uatom" "dave" 60)).1
      = (false, some Error.RateLimitExceeded) ∧
    (Keeper.CheckRateLimitAndUpdateFlowWith Keeper.GetRateLimitFresh
        { exampleContext 50 10 with supply := fun _ => 1000000 }
        PacketDirection.PACKET_SEND (examplePacket "uatom" "dave" 60)).1
      = (true, none) :=
  ⟨(channel_value_is_current_supply (exampleContext 50 10) (fun _ => 1000)
      (examplePacket "uatom" "dave" 60)
      ⟨⟨⟨10 ^ 17⟩, ⟨10 ^ 17⟩, 86400⟩, ⟨0, 50, 0, 86400, 1000⟩⟩
      (by decide) (by decide) (by decide)).2.1.trans (by decide),
   (channel_value_is_current_supply (exampleContext 50 10) (fun _ => 1000000)
      (examplePacket "uatom" "dave" 60)
      ⟨⟨⟨10 ^ 17⟩, ⟨10 ^ 17⟩, 86400⟩, ⟨0, 50, 0, 86400, 1000⟩⟩
      (by decide) (by decide) (by decide)).2.1.trans (by decide)⟩

/-! ## Direction dispatch, result flag, pending markers -/

/-- C12: direction dispatch of `UpdateFlow`. With direction SEND a successful update adds
the amount to the outflow and leaves inflow and quota unchanged; with direction RECV a
successful update adds the amount to the inflow and leaves outflow and quota unchanged. -/
theorem update_flow_dispatch (rateLimit updated : RateLimit) (amount : Int) :
    (Keeper.UpdateFlow rateLimit PacketDirection.PACKET_SEND amount = (updated, none) →
      updated.Flow.Outflow = rateLimit.Flow.Outflow + amount ∧
      updated.Flow.Inflow = rateLimit.Flow.Inflow ∧
      updated.Quota = rateLimit.Quota) ∧
    (Keeper.UpdateFlow rateLimit PacketDirection.PACKET_RECV amount = (updated, none) →
      updated.Flow.Inflow = rateLimit.Flow.Inflow + amount ∧
      updated.Flow.Outflow = rateLimit.Flow.Outflow ∧
      updated.Quota = rateLimit.Quota) := by
  constructor
  · intro h
    simp only [Keeper.UpdateFlow, Flow.AddOutflow] at h
    split at h
    · simp at h
    · simp only [Prod.mk.injEq, and_true] at h
      subst h
      exact ⟨rfl, rfl, rfl⟩
  · intro h
    simp only [Keeper.UpdateFlow, Flow.AddInflow] at h
    split at h
    · simp at h
    · simp only [Prod.mk.injEq, and_true] at h
      subst h
      exact ⟨rfl, rfl, rfl⟩

/-- Witness of C12: a SEND update of 30 on outflow 50 gives outflow 80; a RECV update of
30 on inflow 0 gives inflow 30. -/
theorem update_flow_dispatch_witness :
    ((80 : Int) = 50 + 30 ∧ (0 : Int) = 0 ∧
      (⟨⟨10 ^ 17⟩, ⟨10 ^ 17⟩, 86400⟩ : Quota) = ⟨⟨10 ^ 17⟩, ⟨10 ^ 17⟩, 86400⟩) ∧
    ((30 : Int) = 0 + 30 ∧ (50 : Int) = 50 ∧
      (⟨⟨10 ^ 17⟩, ⟨10 ^ 17⟩, 86400⟩ : Quota) = ⟨⟨10 ^ 17⟩, ⟨10 ^ 17⟩, 86400⟩) :=
  ⟨(update_flow_dispatch
      ⟨⟨"uatom", "channel-0"⟩, ⟨⟨10 ^ 17⟩, ⟨10 ^ 17⟩, 86400⟩, ⟨0, 50, 0, 86400, 1000⟩⟩
      ⟨⟨"uatom", "channel-0"⟩, ⟨⟨10 ^ 17⟩, ⟨10 ^ 17⟩, 86400⟩, ⟨0, 80, 0, 86400, 1000⟩⟩
      30).1 (by decide),
   (update_flow_dispatch
      ⟨⟨"uatom", "channel-0"⟩, ⟨⟨10 ^ 17⟩, ⟨10 ^ 17⟩, 86400⟩, ⟨0, 50, 0, 86400, 1000⟩⟩
      ⟨⟨"uatom", "channel-0"⟩, ⟨⟨10 ^ 17⟩, ⟨10 ^ 17⟩, 86400⟩, ⟨30, 50, 0, 86400, 1000⟩⟩
      30).2 (by decide)⟩

/-- C13: for every direction value other than SEND and RECV, `UpdateFlow` returns a
non-nil error and leaves the given rate limit, in particular its inflow and outflow, as
it was. -/
theorem update_flow_invalid_direction (rateLimit : RateLimit) (direction : PacketDirection)
    (amount : Int)
    (hsend : direction ≠ PacketDirection.PACKET_SEND)
    (hrecv : direction ≠ PacketDirection.PACKET_RECV) :
    (Keeper.UpdateFlow rateLimit direction amount).2 = some (Error.ErrInvalidRequest direction) ∧
    (Keeper.UpdateFlow rateLimit direction amount).2 ≠ none ∧
    (Keeper.UpdateFlow rateLimit direction amount).1.Flow.Inflow = rateLimit.Flow.Inflow ∧
    (Keeper.UpdateFlow rateLimit direction amount).1.Flow.Outflow = rateLimit.Flow.Outflow := by
  cases direction with
  | PACKET_SEND => exact absurd rfl hsend
  | PACKET_RECV => exact absurd rfl hrecv
  | other code => simp [Keeper.UpdateFlow]

/-- Witness of C13: the direction value 2 is rejected and the flow is untouched. -/
theorem update_flow_invalid_direction_witness :
    (Keeper.UpdateFlow
      ⟨⟨"uatom", "channel-0"⟩, ⟨⟨10 ^ 17⟩, ⟨10 ^ 17⟩, 86400⟩, ⟨0, 50, 0, 86400, 1000⟩⟩
      (PacketDirection.other 2) 30).2
      = some (Error.ErrInvalidRequest (PacketDirection.other 2)) :=
  (update_flow_invalid_direction
    ⟨⟨"uatom", "channel-0"⟩, ⟨⟨10 ^ 17⟩, ⟨10 ^ 17⟩, 86400⟩, ⟨0, 50, 0, 86400, 1000⟩⟩
    (PacketDirection.other 2) 30 (by decide) (by decide)).1

/-- The check with its record of writes returns what the check returns. -/
theorem Keeper.CheckRateLimitAndUpdateFlowWrites_eq (ctx : Context)
    (direction : PacketDirection) (packetInfo : RateLimitedPacketInfo) :
    ((Keeper.CheckRateLimitAndUpdateFlowWrites ctx direction packetInfo).1,
      (Keeper.CheckRateLimitAndUpdateFlowWrites ctx direction packetInfo).2.1)
      = Keeper.CheckRateLimitAndUpdateFlow ctx direction packetInfo := by
  unfold Keeper.CheckRateLimitAndUpdateFlowWrites Keeper.CheckRateLimitAndUpdateFlow
  dsimp only
  cases Keeper.IsDenomBlacklisted ctx packetInfo.Denom with
  | true => rfl
  | false =>
    cases Keeper.GetRateLimit ctx packetInfo.Denom packetInfo.ChannelID with
    | none => rfl
    | some rateLimit =>
      cases Keeper.IsAddressPairWhitelisted ctx packetInfo.Sender packetInfo.Receiver with
      | true => rfl
      | false =>
        rcases hu : Keeper.UpdateFlow rateLimit direction packetInfo.Amount with ⟨updated, err⟩
        cases err with
        | some e => simp [hu]
        | none => simp [hu]

/-- C14: all-or-nothing result flag of `CheckRateLimitAndUpdateFlow`. For every input the
returned `updatedFlow` is true if and only if the returned error is nil and a rate limit
was handed to `SetRateLimit`; whenever the error is non-nil, `updatedFlow` is false,
nothing was written and the rate-limit store and the pending markers are unchanged;
`(true, non-nil error)` is never returned. -/
theorem check_result_flag_all_or_nothing (ctx : Context) (direction : PacketDirection)
    (packetInfo : RateLimitedPacketInfo) :
    ((Keeper.CheckRateLimitAndUpdateFlowWrites ctx direction packetInfo).1,
      (Keeper.CheckRateLimitAndUpdateFlowWrites ctx direction packetInfo).2.1)
      = Keeper.CheckRateLimitAndUpdateFlow ctx direction packetInfo ∧
    ((Keeper.CheckRateLimitAndUpdateFlowWrites ctx direction packetInfo).1.1 = true ↔
      ((Keeper.CheckRateLimitAndUpdateFlowWrites ctx direction packetInfo).1.2 = none ∧
       (Keeper.CheckRateLimitAndUpdateFlowWrites ctx direction packetInfo).2.2 ≠ [])) ∧
    ((Keeper.CheckRateLimitAndUpdateFlowWrites ctx direction packetInfo).1.2 ≠ none →
      (Keeper.CheckRateLimitAndUpdateFlowWrites ctx direction packetInfo).1.1 = false ∧
      (Keeper.CheckRateLimitAndUpdateFlowWrites ctx direction packetInfo).2.2 = [] ∧
      (Keeper.CheckRateLimitAndUpdateFlow ctx direction packetInfo).2.rateLimits
        = ctx.rateLimits ∧
      (Keeper.CheckRateLimitAndUpdateFlow ctx direction packetInfo).2.pendingSendPackets
        = ctx.pendingSendPackets) ∧
    (∀ e, (Keeper.CheckRateLimitAndUpdateFlow ctx direction packetInfo).1 ≠ (true, some e)) := by
  refine ⟨Keeper.CheckRateLimitAndUpdateFlowWrites_eq ctx direction packetInfo, ?_⟩
  unfold Keeper.CheckRateLimitAndUpdateFlowWrites Keeper.CheckRateLimitAndUpdateFlow
  dsimp only
  cases Keeper.IsDenomBlacklisted ctx packetInfo.Denom with
  | true => simp [Keeper.EmitTransferDeniedEvent]
  | false =>
    cases Keeper.GetRateLimit ctx packetInfo.Denom packetInfo.ChannelID with
    | none => simp
    | some rateLimit =>
      cases Keeper.IsAddressPairWhitelisted ctx packetInfo.Sender packetInfo.Receiver with
      | true => simp
      | false =>
        rcases hu : Keeper.UpdateFlow rateLimit direction packetInfo.Amount with ⟨updated, err⟩
        cases err with
        | some e => simp [hu, Keeper.EmitTransferDeniedEvent]
        | none => simp [hu]

/-- Witness of C14: a SEND of 60 over the bound returns an error; the flag is false,
nothing is written, the stores are unchanged. -/
theorem check_result_flag_all_or_nothing_witness :
    (Keeper.CheckRateLimitAndUpdateFlowWrites (exampleContext 50 10) PacketDirection.PACKET_SEND
      (examplePacket "uatom" "dave" 60)).1.1 = false ∧
    (Keeper.CheckRateLimitAndUpdateFlowWrites (exampleContext 50 10) PacketDirection.PACKET_SEND
      (examplePacket "uatom" "dave" 60)).2.2 = [] ∧
    (Keeper.CheckRateLimitAndUpdateFlow (exampleContext 50 10) PacketDirection.PACKET_SEND
      (examplePacket "uatom" "dave" 60)).2.rateLimits = (exampleContext 50 10).rateLimits ∧
    (Keeper.CheckRateLimitAndUpdateFlow (exampleContext 50 10) PacketDirection.PACKET_SEND
      (examplePacket "uatom" "dave" 60)).2.pendingSendPackets
      = (exampleContext 50 10).pendingSendPackets :=
  (check_result_flag_all_or_nothing (exampleContext 50 10) PacketDirection.PACKET_SEND
    (examplePacket "uatom" "dave" 60)).2.2.1 (by decide)

/-- The check never touches the pending-send markers. -/
theorem Keeper.CheckRateLimitAndUpdateFlow_pending (ctx : Context)
    (direction : PacketDirection) (packetInfo : RateLimitedPacketInfo) :
    (Keeper.CheckRateLimitAndUpdateFlow ctx direction packetInfo).2.pendingSendPackets
      = ctx.pendingSendPackets := by
  unfold Keeper.CheckRateLimitAndUpdateFlow
  dsimp only
  cases Keeper.IsDenomBlacklisted ctx packetInfo.Denom with
  | true => rfl
  | false =>
    cases Keeper.GetRateLimit ctx packetInfo.Denom packetInfo.ChannelID with
    | none => rfl
    | some rateLimit =>
      cases Keeper.IsAddressPairWhitelisted ctx packetInfo.Sender packetInfo.Receiver with
      | true => rfl
      | false =>
        rcases hu : Keeper.UpdateFlow rateLimit direction packetInfo.Amount with ⟨updated, err⟩
        cases err with
        | some e => simp [hu, Keeper.EmitTransferDeniedEvent]
        | none => simp [hu, Keeper.SetRateLimit]

/-- Counterexample to C15: in the example context without any pending marker a SEND of
30 is accepted with `(true, nil)`, and afterwards there is no pending marker on
`channel-0` for any sequence. -/
theorem pending_marker_counterexample :
    (Keeper.CheckRateLimitAndUpdateFlow
      { exampleContext 50 10 with pendingSendPackets := fun _ _ => false }
      PacketDirection.PACKET_SEND (examplePacket "uatom" "dave" 30)).1 = (true, none) ∧
    ∀ sequence, Keeper.CheckPacketSentDuringCurrentQuota
      (Keeper.CheckRateLimitAndUpdateFlow
        { exampleContext 50 10 with pendingSendPackets := fun _ _ => false }
        PacketDirection.PACKET_SEND (examplePacket "uatom" "dave" 30)).2
      "channel-0" sequence = false := by
  refine ⟨by decide, fun sequence => ?_⟩
  simp only [Keeper.CheckPacketSentDuringCurrentQuota,
    Keeper.CheckRateLimitAndUpdateFlow_pending]

/-- C15, amended: `CheckRateLimitAndUpdateFlow` takes no sequence and writes no
pending-send marker. Whatever it returns, also when a SEND is accepted with
`(true, nil)`, a marker for a (channel id, sequence) exists afterwards exactly when it
existed before the call. -/
theorem check_writes_no_pending_marker (ctx : Context) (direction : PacketDirection)
    (packetInfo : RateLimitedPacketInfo) (channelId : String) (sequence : Nat) :
    Keeper.CheckPacketSentDuringCurrentQuota
      (Keeper.CheckRateLimitAndUpdateFlow ctx direction packetInfo).2 channelId sequence
      = Keeper.CheckPacketSentDuringCurrentQuota ctx channelId sequence := by
  simp only [Keeper.CheckPacketSentDuringCurrentQuota,
    Keeper.CheckRateLimitAndUpdateFlow_pending]

/-! ## Denial events, invalid direction, undo without clamping -/

/-- C23: denial events of `CheckRateLimitAndUpdateFlow`. A call denied because the denom is
blacklisted appends exactly one blacklisted-denom event carrying the call's denom, channel
id, direction and amount; a call denied with the quota error appends exactly one
rate-limit-exceeded event carrying the same four values; a call that returns a nil error
leaves the events as they were. -/
theorem denial_events (ctx : Context) (direction : PacketDirection)
    (packetInfo : RateLimitedPacketInfo) :
    (Keeper.IsDenomBlacklisted ctx packetInfo.Denom = true →
      (Keeper.CheckRateLimitAndUpdateFlow ctx direction packetInfo).1
        = (false, some (Error.ErrDenomIsBlacklisted packetInfo.Denom)) ∧
      (Keeper.CheckRateLimitAndUpdateFlow ctx direction packetInfo).2.events
        = ctx.events ++ [⟨EventType.EventBlacklistedDenom, packetInfo.Denom,
            packetInfo.ChannelID, direction, packetInfo.Amount,
            Error.ErrDenomIsBlacklisted packetInfo.Denom⟩]) ∧
    ((Keeper.CheckRateLimitAndUpdateFlow ctx direction packetInfo).1.2
        = some Error.RateLimitExceeded →
      (Keeper.CheckRateLimitAndUpdateFlow ctx direction packetInfo).2.events
        = ctx.events ++ [⟨EventType.EventRateLimitExceeded, packetInfo.Denom,
            packetInfo.ChannelID, direction, packetInfo.Amount, Error.RateLimitExceeded⟩]) ∧
    ((Keeper.CheckRateLimitAndUpdateFlow ctx direction packetInfo).1.2 = none →
      (Keeper.CheckRateLimitAndUpdateFlow ctx direction packetInfo).2.events = ctx.events) := by
  unfold Keeper.CheckRateLimitAndUpdateFlow
  dsimp only
  cases hb : Keeper.IsDenomBlacklisted ctx packetInfo.Denom with
  | true => simp [Keeper.EmitTransferDeniedEvent]
  | false =>
    cases Keeper.GetRateLimit ctx packetInfo.Denom packetInfo.ChannelID with
    | none => simp
    | some rateLimit =>
      cases Keeper.IsAddressPairWhitelisted ctx packetInfo.Sender packetInfo.Receiver with
      | true => simp
      | false =>
        rcases hu : Keeper.UpdateFlow rateLimit direction packetInfo.Amount with ⟨updated, err⟩
        cases err with
        | some e =>
          simp +contextual [hu, Keeper.EmitTransferDeniedEvent]
        | none => simp [hu, Keeper.SetRateLimit]

/-- Witness of C23: the blacklisted denom `ubad` gives one blacklisted-denom event, a SEND
of 60 over the bound gives one rate-limit-exceeded event, an accepted SEND of 30 gives no
event. -/
theorem denial_events_witness :
    (Keeper.CheckRateLimitAndUpdateFlow (exampleContext 50 10) PacketDirection.PACKET_SEND
        (examplePacket "ubad" "dave" 30)).2.events
      = [⟨EventType.EventBlacklistedDenom, "ubad", "channel-0", PacketDirection.PACKET_SEND, 30,
          Error.ErrDenomIsBlacklisted "ubad"⟩] ∧
    (Keeper.CheckRateLimitAndUpdateFlow (exampleContext 50 10) PacketDirection.PACKET_SEND
        (examplePacket "uatom" "dave" 60)).2.events
      = [⟨EventType.EventRateLimitExceeded, "uatom", "channel-0", PacketDirection.PACKET_SEND,
          60, Error.RateLimitExceeded⟩] ∧
    (Keeper.CheckRateLimitAndUpdateFlow (exampleContext 50 10) PacketDirection.PACKET_SEND
        (examplePacket "uatom" "dave" 30)).2.events = [] :=
  ⟨((denial_events (exampleContext 50 10) PacketDirection.PACKET_SEND
      (examplePacket "ubad" "dave" 30)).1 (by decide)).2,
   (denial_events (exampleContext 50 10) PacketDirection.PACKET_SEND
      (examplePacket "uatom" "dave" 60)).2.1 (by decide),
   (denial_events (exampleContext 50 10) PacketDirection.PACKET_SEND
      (examplePacket "uatom" "dave" 30)).2.2 (by decide)⟩

/-- C29: an invalid direction is reported through the quota-exceeded path. When the denom
is not blacklisted, a rate limit exists, the pair is not whitelisted and the direction is
neither SEND nor RECV, `CheckRateLimitAndUpdateFlow` returns `(false, invalid-request
error)`, emits one rate-limit-exceeded event, hands nothing to `SetRateLimit` and leaves
the rate-limit store as it was. -/
theorem invalid_direction_through_quota_path (ctx : Context) (direction : PacketDirection)
    (packetInfo : RateLimitedPacketInfo) (rateLimit : RateLimit)
    (hsend : direction ≠ PacketDirection.PACKET_SEND)
    (hrecv : direction ≠ PacketDirection.PACKET_RECV)
    (hblack : Keeper.IsDenomBlacklisted ctx packetInfo.Denom = false)
    (hfound : Keeper.GetRateLimit ctx packetInfo.Denom packetInfo.ChannelID = some rateLimit)
    (hwhite : Keeper.IsAddressPairWhitelisted ctx packetInfo.Sender packetInfo.Receiver = false) :
    (Keeper.CheckRateLimitAndUpdateFlow ctx direction packetInfo).1
      = (false, some (Error.ErrInvalidRequest direction)) ∧
    (Keeper.CheckRateLimitAndUpdateFlow ctx direction packetInfo).2.events
      = ctx.events ++ [⟨EventType.EventRateLimitExceeded, packetInfo.Denom,
          packetInfo.ChannelID, direction, packetInfo.Amount,
          Error.ErrInvalidRequest direction⟩] ∧
    (Keeper.CheckRateLimitAndUpdateFlowWrites ctx direction packetInfo).2.2 = [] ∧
    (Keeper.CheckRateLimitAndUpdateFlow ctx direction packetInfo).2.rateLimits
      = ctx.rateLimits := by
  cases direction with
  | PACKET_SEND => exact absurd rfl hsend
  | PACKET_RECV => exact absurd rfl hrecv
  | other code =>
    simp [Keeper.CheckRateLimitAndUpdateFlow, Keeper.CheckRateLimitAndUpdateFlowWrites, hblack,
      hfound, hwhite, Keeper.UpdateFlow, Keeper.EmitTransferDeniedEvent]

/-- Witness of C29: the direction value 2 on the example context. -/
theorem invalid_direction_through_quota_path_witness :
    (Keeper.CheckRateLimitAndUpdateFlow (exampleContext 50 10) (PacketDirection.other 2)
        (examplePacket "uatom" "dave" 30)).1
      = (false, some (Error.ErrInvalidRequest (PacketDirection.other 2))) ∧
    (Keeper.CheckRateLimitAndUpdateFlow (exampleContext 50 10) (PacketDirection.other 2)
        (examplePacket "uatom" "dave" 30)).2.events
      = [⟨EventType.EventRateLimitExceeded, "uatom", "channel-0", PacketDirection.other 2, 30,
          Error.ErrInvalidRequest (PacketDirection.other 2)⟩] ∧
    (Keeper.CheckRateLimitAndUpdateFlowWrites (exampleContext 50 10) (PacketDirection.other 2)
        (examplePacket "uatom" "dave" 30)).2.2 = [] ∧
    (Keeper.CheckRateLimitAndUpdateFlow (exampleContext 50 10) (PacketDirection.other 2)
        (examplePacket "uatom" "dave" 30)).2.rateLimits = (exampleContext 50 10).rateLimits :=
  invalid_direction_through_quota_path (exampleContext 50 10) (PacketDirection.other 2)
    (examplePacket "uatom" "dave" 30)
    ⟨⟨"uatom", "channel-0"⟩, ⟨⟨10 ^ 17⟩, ⟨10 ^ 17⟩, 86400⟩, ⟨0, 50, 0, 86400, 1000⟩⟩
    (by decide) (by decide) (by decide) (by decide) (by decide)

/-- C30: `UndoSendPacket` subtracts exactly and without clamping. Whenever a rate limit
exists and the packet was sent during the current quota, the rate limit stored afterwards
is the old one with outflow `old outflow - amount`, for every integer amount: inflow and
quota are unchanged, for `amount > old outflow` the stored outflow is negative, and the
rate limit of every other (denom, channel id) is unchanged. -/
theorem undo_subtracts_without_clamping (ctx : Context) (channelId : String) (sequence : Nat)
    (denom : String) (amount : Int) (rateLimit : RateLimit)
    (hfound : Keeper.GetRateLimit ctx denom channelId = some rateLimit)
    (hpending : Keeper.CheckPacketSentDuringCurrentQuota ctx channelId sequence = true) :
    ∃ after,
      Keeper.GetRateLimit (Keeper.UndoSendPacket ctx channelId sequence denom amount).2 denom
        channelId = some after ∧
      after.Flow.Outflow = rateLimit.Flow.Outflow - amount ∧
      after.Flow.Inflow = rateLimit.Flow.Inflow ∧
      after.Quota = rateLimit.Quota ∧
      (amount > rateLimit.Flow.Outflow → after.Flow.Outflow < 0) ∧
      ∀ d c, ¬ (d = denom ∧ c = channelId) →
        Keeper.GetRateLimit (Keeper.UndoSendPacket ctx channelId sequence denom amount).2 d c
          = Keeper.GetRateLimit ctx d c := by
  have hp := Keeper.GetRateLimit_path ctx denom channelId rateLimit hfound
  have hundo : (Keeper.UndoSendPacket ctx channelId sequence denom amount).2
      = Keeper.RemovePendingSendPacket (Keeper.SetRateLimit ctx
          { rateLimit with Flow := { rateLimit.Flow with
              Outflow := rateLimit.Flow.Outflow - amount } })
          channelId sequence := by
    simp [Keeper.UndoSendPacket, hfound, hpending]
  refine ⟨{ rateLimit with Flow := { rateLimit.Flow with
      Outflow := rateLimit.Flow.Outflow - amount } }, ?_, rfl, rfl, rfl, ?_, ?_⟩
  · rw [hundo]
    simp [Keeper.GetRateLimit, Keeper.RemovePendingSendPacket, Keeper.SetRateLimit, hp]
  · intro h
    show rateLimit.Flow.Outflow - amount < 0
    omega
  · intro d c hdc
    rw [hundo]
    simp only [Keeper.GetRateLimit, Keeper.RemovePendingSendPacket, Keeper.SetRateLimit, hp]
    rw [if_neg hdc]

/-- Witness of C30: on outflow 50 the undo of 80 stores the outflow `-30`. -/
theorem undo_subtracts_without_clamping_witness :
    ∃ after,
      Keeper.GetRateLimit (Keeper.UndoSendPacket (exampleContext 50 10) "channel-0" 7 "uatom"
        80).2 "uatom" "channel-0" = some after ∧
      after.Flow.Outflow = 50 - 80 ∧
      after.Flow.Inflow = 0 ∧
      after.Quota = ⟨⟨10 ^ 17⟩, ⟨10 ^ 17⟩, 86400⟩ ∧
      ((80 : Int) > 50 → after.Flow.Outflow < 0) ∧
      ∀ d c, ¬ (d = "uatom" ∧ c = "channel-0") →
        Keeper.GetRateLimit (Keeper.UndoSendPacket (exampleContext 50 10) "channel-0" 7 "uatom"
          80).2 d c = Keeper.GetRateLimit (exampleContext 50 10) d c :=
  undo_subtracts_without_clamping (exampleContext 50 10) "channel-0" 7 "uatom" 80
    ⟨⟨"uatom", "channel-0"⟩, ⟨⟨10 ^ 17⟩, ⟨10 ^ 17⟩, 86400⟩, ⟨0, 50, 0, 86400, 1000⟩⟩
    (by decide) (by decide)

end RateLimiting

/-! # Router types: theorems about the wire codec -/

namespace RouterTypes

/-! ## Arithmetic of bytes and varints -/

theorem toNat_ofNat_lt (n : Nat) (h : n < 256) : (UInt8.ofNat n).toNat = n :=
  UInt8.toNat_ofNat_of_lt h

theorem and_7f (v : Nat) : v &&& 0x7f = v % 128 :=
  Nat.and_pow_two_sub_one_eq_mod v 7

theorem and_7 (v : Nat) : v &&& 0x7 = v % 8 :=
  Nat.and_pow_two_sub_one_eq_mod v 3

theorem lor_80 (c : Nat) (h : c < 128) : c ||| 0x80 = c + 128 := by
  have h1 := Nat.mul_add_lt_is_or (i := 7) (b := c) (by simpa using h) 1
  rw [Nat.lor_comm]
  simp only [Nat.reducePow, Nat.reduceMul] at h1
  omega

theorem lor_one (v : Nat) : v ||| 1 = if v % 2 = 0 then v + 1 else v := by
  have h1 := Nat.mul_add_lt_is_or (i := 1) (b := 1) (by decide) (v / 2)
  simp only [Nat.pow_one] at h1
  split
  · next h =>
    have hv : v = 2 * (v / 2) := by omega
    have : v ||| 1 = 2 * (v / 2) ||| 1 := by rw [← hv]
    rw [this, ← h1]
    omega
  · next h =>
    have hv : v = 2 * (v / 2) + 1 := by omega
    have : v ||| 1 = (2 * (v / 2) ||| 1) ||| 1 := by rw [← h1, ← hv]
    rw [this, Nat.lor_assoc, Nat.or_self, ← h1, ← hv]

theorem bitLen_le_iff (f : Nat) : ∀ (x k : Nat), x < 2 ^ f → (bitLen f x ≤ k ↔ x < 2 ^ k) := by
  induction f with
  | zero =>
    intro x k hx
    have : x = 0 := by simpa using hx
    subst this
    simp [bitLen]
  | succ f ih =>
    intro x k hx
    unfold bitLen
    split
    · next h0 => subst h0; simp
    · next h0 =>
      have hx2 : x / 2 < 2 ^ f := by
        rw [Nat.pow_succ] at hx
        omega
      cases k with
      | zero => simp; omega
      | succ k =>
        rw [Nat.add_le_add_iff_right, ih (x / 2) k hx2, Nat.pow_succ]
        omega

theorem varintBytes_length_pos (f v : Nat) : 1 ≤ (varintBytes (f + 1) v).length := by
  unfold varintBytes
  split <;> simp

theorem varintBytes_length_le_iff (f : Nat) :
    ∀ (v n : Nat), v < 2 ^ (7 * (f + 1)) → 1 ≤ n →
      ((varintBytes (f + 1) v).length ≤ n ↔ v < 2 ^ (7 * n)) := by
  induction f with
  | zero =>
    intro v n hv hn
    have hv7 : v < 128 := by simpa using hv
    have hpow : 2 ^ 7 ≤ 2 ^ (7 * n) := Nat.pow_le_pow_right (by decide) (by omega)
    simp only [varintBytes, hv7, if_true, List.length_singleton]
    constructor
    · intro _
      have : (2 : Nat) ^ 7 = 128 := by norm_num
      omega
    · intro _
      exact hn
  | succ f ih =>
    intro v n hv hn
    rw [varintBytes]
    split
    · next hlt =>
      have hpow : 2 ^ 7 ≤ 2 ^ (7 * n) := Nat.pow_le_pow_right (by decide) (by omega)
      have : (2 : Nat) ^ 7 = 128 := by norm_num
      simp only [List.length_singleton]
      constructor
      · intro _; omega
      · intro _; exact hn
    · next hge =>
      have hv2 : v / 128 < 2 ^ (7 * (f + 1)) := by
        have : 2 ^ (7 * (f + 1 + 1)) = 2 ^ (7 * (f + 1)) * 128 := by
          rw [show 7 * (f + 1 + 1) = 7 * (f + 1) + 7 by ring, Nat.pow_add]
        rw [this] at hv
        exact Nat.div_lt_of_lt_mul (by rw [Nat.mul_comm]; exact hv)
      have hpos := varintBytes_length_pos f (v / 128)
      simp only [List.length_cons]
      cases n with
      | zero => omega
      | succ n =>
        cases n with
        | zero =>
          simp only [Nat.zero_add, Nat.mul_one]
          have : (2 : Nat) ^ 7 = 128 := by norm_num
          constructor
          · intro h; omega
          · intro h; omega
        | succ n =>
          rw [Nat.add_le_add_iff_right, ih (v / 128) (n + 1) hv2 (by omega)]
          have : 2 ^ (7 * (n + 1 + 1)) = 2 ^ (7 * (n + 1)) * 128 := by
            rw [show 7 * (n + 1 + 1) = 7 * (n + 1) + 7 by ring, Nat.pow_add]
          rw [this]
          constructor
          · intro h; exact (Nat.div_lt_iff_lt_mul (by decide)).mp h
          · intro h; exact (Nat.div_lt_iff_lt_mul (by decide)).mpr h

theorem sovGenesis_le_iff (v n : Nat) (hv : v < 2 ^ 64) (hn : 1 ≤ n) :
    sovGenesis v ≤ n ↔ v < 2 ^ (7 * n) := by
  have hor : v ||| 1 < 2 ^ 64 := by
    rw [lor_one]
    split <;> omega
  have hbl := bitLen_le_iff 64 (v ||| 1) (7 * n) hor
  have hpar : v ||| 1 < 2 ^ (7 * n) ↔ v < 2 ^ (7 * n) := by
    have hp : 2 ^ (7 * n) = 2 * 2 ^ (7 * n - 1) := by
      rw [← Nat.pow_succ']
      congr 1
      omega
    rw [lor_one, hp]
    split <;> omega
  unfold sovGenesis Len64
  rw [← hpar, ← hbl]
  omega

theorem sovGenesis_pos (v : Nat) : 1 ≤ sovGenesis v := by
  have h : v ||| 1 ≠ 0 := by
    rw [lor_one]
    split <;> omega
  unfold sovGenesis Len64 bitLen
  simp only [h, if_false]
  omega

/-- Function `sovGenesis` counts the bytes of the varint. -/
theorem sovGenesis_eq_length (v : Nat) (hv : v < 2 ^ 64) :
    sovGenesis v = (varint v).length := by
  have hv70 : v < 2 ^ (7 * (9 + 1)) := lt_of_lt_of_le hv (by norm_num)
  have h1 := sovGenesis_pos v
  have h2 := varintBytes_length_pos 9 v
  have ha := sovGenesis_le_iff v (varint v).length hv h2
  have hb := varintBytes_length_le_iff 9 v (varint v).length hv70 h2
  have hc := sovGenesis_le_iff v (sovGenesis v) hv h1
  have hd := varintBytes_length_le_iff 9 v (sovGenesis v) hv70 h1
  unfold varint at *
  have e1 : sovGenesis v ≤ (varintBytes 10 v).length := ha.mpr (hb.mp (le_refl _))
  have e2 : (varintBytes 10 v).length ≤ sovGenesis v := hd.mpr (hc.mp (le_refl _))
  omega

theorem varint_length_le (v : Nat) (hv : v < 2 ^ 64) : (varint v).length ≤ 10 := by
  have hv70 : v < 2 ^ (7 * (9 + 1)) := lt_of_lt_of_le hv (by norm_num)
  exact (varintBytes_length_le_iff 9 v 10 hv70 (by decide)).mpr hv70

theorem varint_length_pos (v : Nat) : 1 ≤ (varint v).length :=
  varintBytes_length_pos 9 v

/-! ## Writing into a buffer -/

theorem Writes.skip : Writes (fun st => .ok st) [] := by
  intro pre junk post h
  have : junk = [] := List.length_eq_zero.mp h
  subst this
  simp

theorem Writes.bind {f g : Bytes × Nat → Except Error (Bytes × Nat)} {r1 r2 : Bytes}
    (hf : Writes f r1) (hg : Writes g r2) : Writes (fun st => f st >>= g) (r2 ++ r1) := by
  intro pre junk post h
  have hsplit : junk = junk.take r2.length ++ junk.drop r2.length :=
    (List.take_append_drop _ _).symm
  have hl2 : (junk.take r2.length).length = r2.length := by
    rw [List.length_take]; rw [List.length_append] at h; omega
  have hl1 : (junk.drop r2.length).length = r1.length := by
    rw [List.length_drop]; rw [List.length_append] at h; omega
  have e1 : (pre ++ junk ++ post, pre.length + junk.length)
      = ((pre ++ junk.take r2.length) ++ junk.drop r2.length ++ post,
          (pre ++ junk.take r2.length).length + (junk.drop r2.length).length) := by
    have hlen : pre.length + junk.length
        = (pre ++ junk.take r2.length).length + (junk.drop r2.length).length := by
      rw [List.length_append, hl2, hl1, h, List.length_append]; omega
    rw [hlen, List.append_assoc pre (junk.take r2.length) (junk.drop r2.length),
      List.take_append_drop]
  have e2 : ((pre ++ junk.take r2.length) ++ r1 ++ post, (pre ++ junk.take r2.length).length)
      = (pre ++ junk.take r2.length ++ (r1 ++ post), pre.length + (junk.take r2.length).length) := by
    simp [List.append_assoc]
  show f _ >>= g = _
  rw [e1, hf _ _ _ hl1]
  show g _ = _
  rw [e2, hg _ _ _ hl2]
  simp [List.append_assoc]

theorem setByte_append (pre post : Bytes) (j b : UInt8) :
    setByte (pre ++ j :: post) pre.length b = .ok (pre ++ b :: post) := by
  simp [setByte]

theorem Writes.putByte (b : UInt8) : Writes (fun st => putByte st b) [b] := by
  intro pre junk post h
  match junk, h with
  | [j], _ =>
    simp only [RouterTypes.putByte, decr, List.length_singleton]
    have h1 : 1 ≤ pre.length + 1 := by omega
    simp only [h1, if_true, Nat.add_sub_cancel]
    have := setByte_append pre post j b
    simp only [List.append_assoc, List.singleton_append]
    rw [this]

theorem Writes.putBytes (s : Bytes) : Writes (fun st => putBytes st s) s := by
  intro pre junk post h
  simp only [RouterTypes.putBytes, decr]
  have h1 : s.length ≤ pre.length + junk.length := by omega
  simp only [h1, if_true]
  have h2 : pre.length + junk.length - s.length = pre.length := by omega
  simp only [h2, copyAt, List.length_append]
  have h3 : pre.length ≤ pre.length + junk.length + post.length := by omega
  simp only [h3, if_true]
  congr 2
  rw [List.take_append_of_le_length (by simp), List.take_append_of_le_length (by simp),
    List.take_length]
  rw [List.take_of_length_le (by omega)]
  rw [List.append_assoc pre junk post, List.drop_append_eq_append_drop]
  simp only [List.drop_of_length_le (show pre.length ≤ pre.length + s.length by omega),
    List.nil_append, Nat.add_sub_cancel_left]
  rw [List.drop_append_eq_append_drop, ← h]
  simp

theorem encodeVarintGenesis.loop_append (f : Nat) :
    ∀ (v fuel : Nat) (pre junk post : Bytes), v < 2 ^ (7 * (f + 1)) →
      junk.length = (varintBytes (f + 1) v).length → junk.length ≤ fuel →
      encodeVarintGenesis.loop fuel (pre ++ junk ++ post) pre.length v
        = .ok (pre ++ varintBytes (f + 1) v ++ post) := by
  induction f with
  | zero =>
    intro v fuel pre junk post hv hj hfuel
    have hv7 : v < 128 := by simpa using hv
    simp only [varintBytes, hv7, if_true, List.length_singleton] at hj ⊢
    match junk, hj, fuel, hfuel with
    | [j], _, fuel + 1, _ =>
      have hnot : ¬ (v ≥ 1 <<< 7) := by
        have : (1 : Nat) <<< 7 = 128 := by decide
        omega
      simp only [encodeVarintGenesis.loop, hnot, if_false]
      have := setByte_append pre post j (UInt8.ofNat v)
      simpa [List.append_assoc] using this
  | succ f ih =>
    intro v fuel pre junk post hv hj hfuel
    rw [varintBytes] at hj ⊢
    split at hj
    · next hlt =>
      simp only [hlt, if_true]
      simp only [List.length_singleton] at hj
      match junk, hj, fuel, hfuel with
      | [j], _, fuel + 1, _ =>
        have hnot : ¬ (v ≥ 1 <<< 7) := by
          have : (1 : Nat) <<< 7 = 128 := by decide
          omega
        simp only [encodeVarintGenesis.loop, hnot, if_false]
        have := setByte_append pre post j (UInt8.ofNat v)
        simpa [List.append_assoc] using this
    · next hge =>
      simp only [hge, if_false]
      simp only [List.length_cons] at hj
      match junk, hj, fuel, hfuel with
      | j :: junk, hj, fuel + 1, hfuel =>
        have hyes : v ≥ 1 <<< 7 := by
          have : (1 : Nat) <<< 7 = 128 := by decide
          omega
        have hv2 : v / 128 < 2 ^ (7 * (f + 1)) := by
          have : 2 ^ (7 * (f + 1 + 1)) = 2 ^ (7 * (f + 1)) * 128 := by
            rw [show 7 * (f + 1 + 1) = 7 * (f + 1) + 7 by ring, Nat.pow_add]
          rw [this] at hv
          exact Nat.div_lt_of_lt_mul (by rw [Nat.mul_comm]; exact hv)
        have hbyte : v &&& 0x7f ||| 0x80 = v % 128 + 128 := by
          rw [and_7f, lor_80 _ (Nat.mod_lt _ (by decide))]
        have hshift : v >>> 7 = v / 128 := by
          rw [Nat.shiftRight_eq_div_pow]
        simp only [encodeVarintGenesis.loop, hyes, if_true, hbyte, hshift]
        have hset := setByte_append pre (junk ++ post) j (UInt8.ofNat (v % 128 + 128))
        have e1 : pre ++ j :: junk ++ post = pre ++ j :: (junk ++ post) := by simp
        rw [e1, hset]
        simp only
        have hrec := ih (v / 128) fuel (pre ++ [UInt8.ofNat (v % 128 + 128)]) junk post hv2
          (by simpa using hj) (by simpa using hfuel)
        simp only [List.length_append, List.length_singleton, List.append_assoc,
          List.singleton_append] at hrec
        simpa using hrec

theorem Writes.putVarint (v : Nat) (hv : v < 2 ^ 64) :
    Writes (fun st => putVarint st v) (varint v) := by
  intro pre junk post h
  have hv70 : v < 2 ^ (7 * (9 + 1)) := lt_of_lt_of_le hv (by norm_num)
  have hsov := sovGenesis_eq_length v hv
  have hle := varint_length_le v hv
  simp only [RouterTypes.putVarint, encodeVarintGenesis, decr, hsov]
  have h1 : (varint v).length ≤ pre.length + junk.length := by omega
  have h2 : pre.length + junk.length - (varint v).length = pre.length := by omega
  simp only [h1, if_true, h2]
  have := encodeVarintGenesis.loop_append 9 v 10 pre junk post hv70 h (by omega)
  rw [this]
  rfl

theorem Writes.putBytesField (tag : UInt8) (s : Bytes) (hs : s.length < 2 ^ 64) :
    Writes (fun st => putBytesField st tag s) (bytesRecord tag s) := by
  unfold RouterTypes.putBytesField bytesRecord
  by_cases h : s.length > 0
  · simp only [h, if_true]
    have hb := Writes.bind (Writes.putBytes s)
      (Writes.bind (Writes.putVarint s.length hs) (Writes.putByte tag))
    intro pre junk post hj
    have := hb pre junk post (by simpa using hj)
    simp only [List.append_assoc, List.singleton_append, List.cons_append,
      List.nil_append] at this ⊢
    exact this
  · simp only [h, if_false]
    exact Writes.skip

theorem Writes.putVarintField (tag : UInt8) (isZero : Bool) (v : Nat) (hv : v < 2 ^ 64) :
    Writes (fun st => putVarintField st tag isZero v) (varintRecord tag isZero v) := by
  unfold RouterTypes.putVarintField varintRecord
  cases isZero with
  | true => exact Writes.skip
  | false =>
    have hb := Writes.bind (Writes.putVarint v hv) (Writes.putByte tag)
    intro pre junk post hj
    have := hb pre junk post (by simpa using hj)
    simp only [List.append_assoc, List.singleton_append, List.cons_append,
      List.nil_append, Bool.false_eq_true, if_false] at this ⊢
    exact this

theorem varint_one : varint 1 = [1] := by decide

theorem Writes.putBoolField (tag : UInt8) (b : Bool) :
    Writes (fun st => putBoolField st tag b) (varintRecord tag (!b) 1) := by
  unfold RouterTypes.putBoolField varintRecord
  cases b with
  | false => exact Writes.skip
  | true =>
    have hb := Writes.bind (Writes.putByte 1) (Writes.putByte tag)
    intro pre junk post hj
    have := hb pre junk post (by simpa [varint_one] using hj)
    simp only [List.append_assoc, List.singleton_append, List.cons_append,
      List.nil_append, varint_one, Bool.not_true, Bool.false_eq_true, if_false, if_true] at this ⊢
    exact this

theorem uint64OfInt_lt (x : Int) : uint64OfInt x < 2 ^ 64 := by
  unfold uint64OfInt
  omega

theorem bytesRecord_length (tag : UInt8) (s : Bytes) :
    (bytesRecord tag s).length = if s.length > 0 then 1 + s.length + (varint s.length).length else 0 := by
  unfold bytesRecord
  split
  · simp; omega
  · rfl

theorem varintRecord_length (tag : UInt8) (isZero : Bool) (v : Nat) :
    (varintRecord tag isZero v).length = if isZero then 0 else 1 + (varint v).length := by
  unfold varintRecord
  split
  · rfl
  · simp; omega

theorem bytesRecord_length_ge (tag : UInt8) (s : Bytes) :
    s.length ≤ (bytesRecord tag s).length := by
  rw [bytesRecord_length]
  split <;> omega

theorem InFlightPacket.wireLayout_eq (m : InFlightPacket) :
    m.wireLayout =
      bytesRecord 0x0a m.OriginalSenderAddress ++ (bytesRecord 0x12 m.RefundChannelId ++
      (bytesRecord 0x1a m.RefundPortId ++ (bytesRecord 0x22 m.PacketSrcChannelId ++
      (bytesRecord 0x2a m.PacketSrcPortId ++
      (varintRecord 0x30 (m.PacketTimeoutTimestamp == 0) m.PacketTimeoutTimestamp ++
      (bytesRecord 0x3a m.PacketTimeoutHeight ++ (bytesRecord 0x42 m.PacketData ++
      (varintRecord 0x48 (m.RefundSequence == 0) m.RefundSequence ++
      (varintRecord 0x50 (m.RetriesRemaining == 0) (uint64OfInt m.RetriesRemaining) ++
      (varintRecord 0x58 (m.Timeout == 0) m.Timeout ++
      varintRecord 0x60 (!m.Nonrefundable) 1)))))))))) := by
  simp [InFlightPacket.wireLayout, InFlightPacket.records]

/-- The lengths of the string and bytes fields of a well-formed packet are below `2^63`. -/
theorem InFlightPacket.WellFormed.lengths {m : InFlightPacket} (h : m.WellFormed) :
    m.OriginalSenderAddress.length < 2 ^ 63 ∧ m.RefundChannelId.length < 2 ^ 63 ∧
    m.RefundPortId.length < 2 ^ 63 ∧ m.PacketSrcChannelId.length < 2 ^ 63 ∧
    m.PacketSrcPortId.length < 2 ^ 63 ∧ m.PacketTimeoutHeight.length < 2 ^ 63 ∧
    m.PacketData.length < 2 ^ 63 := by
  have hl := h.2.2.2.2.2
  rw [InFlightPacket.wireLayout_eq] at hl
  simp only [List.length_append] at hl
  have h1 := bytesRecord_length_ge 0x0a m.OriginalSenderAddress
  have h2 := bytesRecord_length_ge 0x12 m.RefundChannelId
  have h3 := bytesRecord_length_ge 0x1a m.RefundPortId
  have h4 := bytesRecord_length_ge 0x22 m.PacketSrcChannelId
  have h5 := bytesRecord_length_ge 0x2a m.PacketSrcPortId
  have h7 := bytesRecord_length_ge 0x3a m.PacketTimeoutHeight
  have h8 := bytesRecord_length_ge 0x42 m.PacketData
  omega

theorem sizeBytesField_eq (tag : UInt8) (s : Bytes) (hs : s.length < 2 ^ 64) :
    sizeBytesField s = (bytesRecord tag s).length := by
  rw [bytesRecord_length, sizeBytesField, sovGenesis_eq_length _ hs]

theorem sizeVarintField_eq (tag : UInt8) (isZero : Bool) (v : Nat) (hv : v < 2 ^ 64) :
    sizeVarintField isZero v = (varintRecord tag isZero v).length := by
  rw [varintRecord_length, sizeVarintField, sovGenesis_eq_length _ hv]

/-- Function `Size` is the length of the wire layout. -/
theorem InFlightPacket.Size_eq_length (m : InFlightPacket) (h : m.WellFormed) :
    m.Size = m.wireLayout.length := by
  obtain ⟨l1, l2, l3, l4, l5, l7, l8⟩ := h.lengths
  obtain ⟨ht, hs, hto, _, _, _⟩ := h
  rw [InFlightPacket.wireLayout_eq]
  simp only [List.length_append, InFlightPacket.Size]
  rw [sizeBytesField_eq 0x0a _ (by omega), sizeBytesField_eq 0x12 _ (by omega),
    sizeBytesField_eq 0x1a _ (by omega), sizeBytesField_eq 0x22 _ (by omega),
    sizeBytesField_eq 0x2a _ (by omega), sizeBytesField_eq 0x3a _ (by omega),
    sizeBytesField_eq 0x42 _ (by omega),
    sizeVarintField_eq 0x30 _ _ ht, sizeVarintField_eq 0x48 _ _ hs,
    sizeVarintField_eq 0x50 _ _ (uint64OfInt_lt _), sizeVarintField_eq 0x58 _ _ hto]
  have hb : (if m.Nonrefundable = true then 2 else 0)
      = (varintRecord 0x60 (!m.Nonrefundable) 1).length := by
    cases m.Nonrefundable <;> simp [varintRecord, varint_one]
  rw [hb]
  omega

/-- The field blocks write the wire layout. -/
theorem InFlightPacket.MarshalToSizedBuffer.fields_writes (m : InFlightPacket)
    (h : m.WellFormed) :
    Writes (InFlightPacket.MarshalToSizedBuffer.fields m) m.wireLayout := by
  obtain ⟨l1, l2, l3, l4, l5, l7, l8⟩ := h.lengths
  obtain ⟨ht, hs, hto, _, _, _⟩ := h
  have hw :=
    Writes.bind (Writes.putBoolField 0x60 m.Nonrefundable)
    (Writes.bind (Writes.putVarintField 0x58 (m.Timeout == 0) m.Timeout hto)
    (Writes.bind (Writes.putVarintField 0x50 (m.RetriesRemaining == 0)
      (uint64OfInt m.RetriesRemaining) (uint64OfInt_lt _))
    (Writes.bind (Writes.putVarintField 0x48 (m.RefundSequence == 0) m.RefundSequence hs)
    (Writes.bind (Writes.putBytesField 0x42 m.PacketData (by omega))
    (Writes.bind (Writes.putBytesField 0x3a m.PacketTimeoutHeight (by omega))
    (Writes.bind (Writes.putVarintField 0x30 (m.PacketTimeoutTimestamp == 0)
      m.PacketTimeoutTimestamp ht)
    (Writes.bind (Writes.putBytesField 0x2a m.PacketSrcPortId (by omega))
    (Writes.bind (Writes.putBytesField 0x22 m.PacketSrcChannelId (by omega))
    (Writes.bind (Writes.putBytesField 0x1a m.RefundPortId (by omega))
    (Writes.bind (Writes.putBytesField 0x12 m.RefundChannelId (by omega))
      (Writes.putBytesField 0xa m.OriginalSenderAddress (by omega))))))))))))
  rw [InFlightPacket.wireLayout_eq]
  simp only [List.append_assoc] at hw
  exact hw

/-- Function `MarshalToSizedBuffer` on a buffer with room for the layout writes the layout into
the end of the buffer and returns its length. -/
theorem InFlightPacket.MarshalToSizedBuffer_append (m : InFlightPacket) (h : m.WellFormed)
    (pre junk : Bytes) (hj : junk.length = m.wireLayout.length) :
    m.MarshalToSizedBuffer (pre ++ junk) = .ok (pre ++ m.wireLayout, m.wireLayout.length) := by
  have hw := InFlightPacket.MarshalToSizedBuffer.fields_writes m h pre junk [] hj
  simp only [List.append_nil] at hw
  unfold InFlightPacket.MarshalToSizedBuffer
  rw [List.length_append, hw]
  simp only [hj]
  congr 2
  omega

/-- Function `Marshal` returns the wire layout. -/
theorem InFlightPacket.Marshal_eq_wireLayout (m : InFlightPacket) (h : m.WellFormed) :
    m.Marshal = .ok m.wireLayout := by
  unfold InFlightPacket.Marshal
  simp only
  have hsize := InFlightPacket.Size_eq_length m h
  have htake : List.take m.Size (List.replicate m.Size (0 : UInt8)) = [] ++ List.replicate m.Size 0 := by
    simp
  rw [htake, InFlightPacket.MarshalToSizedBuffer_append m h [] _ (by simp [hsize])]
  simp

/-! ## Reading from a buffer -/

theorem getElem?_of_drop {data : Bytes} {i : Nat} {b : UInt8} {rest : Bytes}
    (h : data.drop i = b :: rest) : data[i]? = some b ∧ i < data.length := by
  have hlt : i < data.length := by
    by_contra hge
    rw [List.drop_of_length_le (by omega)] at h
    cases h
  refine ⟨?_, hlt⟩
  have := List.getElem?_drop data i 0
  rw [h] at this
  simpa using this.symm

theorem drop_succ_of_drop {data : Bytes} {i : Nat} {b : UInt8} {rest : Bytes}
    (h : data.drop i = b :: rest) : data.drop (i + 1) = rest := by
  have : data.drop (i + 1) = (data.drop i).drop 1 := by
    rw [List.drop_drop, Nat.add_comm]
  rw [this, h]
  rfl

theorem drop_add_of_drop {data : Bytes} {i : Nat} {r post : Bytes}
    (h : data.drop i = r ++ post) : data.drop (i + r.length) = post := by
  have : data.drop (i + r.length) = (data.drop i).drop r.length := by
    rw [List.drop_drop, Nat.add_comm]
  rw [this, h]
  simp

theorem length_of_drop {data : Bytes} {i : Nat} {r : Bytes}
    (h : data.drop i = r) : r ≠ [] → i + r.length = data.length := by
  intro hne
  have hl := congrArg List.length h
  rw [List.length_drop] at hl
  have : r.length ≠ 0 := by
    intro h0
    exact hne (List.length_eq_zero.mp h0)
  omega

theorem length_ge_of_drop {data : Bytes} {i : Nat} {r post : Bytes}
    (h : data.drop i = r ++ post) (hne : r ≠ []) : i + r.length + post.length = data.length := by
  have := length_of_drop h (by simp [hne])
  rw [List.length_append] at this
  omega

/-- Adding a 7-bit group above an accumulator that holds the groups below it. -/
theorem accumulate (bits s A c : Nat) (hA : A < 2 ^ s) :
    (A % 2 ^ bits) ||| ((c <<< s) % 2 ^ bits) = (A + c * 2 ^ s) % 2 ^ bits := by
  rw [Nat.shiftLeft_eq]
  by_cases hs : bits ≤ s
  · have hd : 2 ^ bits ∣ c * 2 ^ s := by
      exact Dvd.dvd.mul_left (Nat.pow_dvd_pow 2 hs) c
    rw [Nat.mod_eq_zero_of_dvd hd, Nat.or_zero]
    obtain ⟨k, hk⟩ := hd
    rw [hk, Nat.add_mul_mod_self_left]
  · have hs' : s < bits := by omega
    have hAw : A < 2 ^ bits := lt_of_lt_of_le hA (Nat.pow_le_pow_right (by decide) (by omega))
    have hpow : 2 ^ bits = 2 ^ s * 2 ^ (bits - s) := by
      rw [← Nat.pow_add]
      congr 1
      omega
    have hmod : (c * 2 ^ s) % 2 ^ bits = 2 ^ s * (c % 2 ^ (bits - s)) := by
      rw [hpow, Nat.mul_comm c, Nat.mul_mod_mul_left]
    rw [Nat.mod_eq_of_lt hAw, hmod, Nat.lor_comm, ← Nat.mul_add_lt_is_or hA]
    have hc := Nat.div_add_mod c (2 ^ (bits - s))
    have hlt : 2 ^ s * (c % 2 ^ (bits - s)) + A < 2 ^ bits := by
      have h1 : c % 2 ^ (bits - s) < 2 ^ (bits - s) := Nat.mod_lt _ (Nat.two_pow_pos _)
      have h2 : 2 ^ s * (c % 2 ^ (bits - s)) + 2 ^ s ≤ 2 ^ s * 2 ^ (bits - s) := by
        rw [← Nat.mul_succ]
        exact Nat.mul_le_mul_left _ h1
      rw [hpow]
      omega
    have hsplit : A + c * 2 ^ s
        = (2 ^ s * (c % 2 ^ (bits - s)) + A) + 2 ^ bits * (c / 2 ^ (bits - s)) := by
      rw [hpow]
      nth_rewrite 1 [← hc]
      ring
    rw [hsplit, Nat.add_mul_mod_self_left, Nat.mod_eq_of_lt hlt]

theorem readVarint.loop_spec (bits : Nat) (data : Bytes) (f : Nat) :
    ∀ (v fuel shift i A : Nat) (post : Bytes),
      data.drop i = varintBytes (f + 1) v ++ post → v < 2 ^ (7 * (f + 1)) →
      shift + 7 * (varintBytes (f + 1) v).length ≤ 70 →
      (varintBytes (f + 1) v).length ≤ fuel → A < 2 ^ shift →
      readVarint.loop bits data fuel shift i (A % 2 ^ bits)
        = .ok ((A + v * 2 ^ shift) % 2 ^ bits, i + (varintBytes (f + 1) v).length) := by
  induction f with
  | zero =>
    intro v fuel shift i A post hd hv hshift hfuel hA
    have hv7 : v < 128 := by simpa using hv
    simp only [varintBytes, hv7, if_true, List.length_singleton, List.singleton_append]
      at hd hshift hfuel ⊢
    obtain ⟨hget, hlt⟩ := getElem?_of_drop hd
    match fuel, hfuel with
    | fuel + 1, _ =>
      have h1 : ¬ shift ≥ 64 := by omega
      have h2 : ¬ i ≥ data.length := by omega
      have hb : (UInt8.ofNat v).toNat = v := toNat_ofNat_lt v (by omega)
      simp only [readVarint.loop, h1, h2, if_false, hget, hb, and_7f, Nat.mod_eq_of_lt hv7,
        accumulate bits shift A v hA]
      simp [hv7]
  | succ f ih =>
    intro v fuel shift i A post hd hv hshift hfuel hA
    rw [varintBytes] at hd hshift hfuel ⊢
    split at hd
    · next hv7 =>
      simp only [hv7, if_true, List.length_singleton, List.singleton_append]
        at hd hshift hfuel ⊢
      obtain ⟨hget, hlt⟩ := getElem?_of_drop hd
      match fuel, hfuel with
      | fuel + 1, _ =>
        have h1 : ¬ shift ≥ 64 := by omega
        have h2 : ¬ i ≥ data.length := by omega
        have hb : (UInt8.ofNat v).toNat = v := toNat_ofNat_lt v (by omega)
        simp only [readVarint.loop, h1, h2, if_false, hget, hb, and_7f, Nat.mod_eq_of_lt hv7,
          accumulate bits shift A v hA]
        simp [hv7]
    · next hv7 =>
      simp only [hv7, if_false, List.length_cons, List.cons_append] at hd hshift hfuel ⊢
      obtain ⟨hget, hlt⟩ := getElem?_of_drop hd
      have hd' := drop_succ_of_drop hd
      match fuel, hfuel with
      | fuel + 1, hfuel =>
        have h1 : ¬ shift ≥ 64 := by omega
        have h2 : ¬ i ≥ data.length := by omega
        have hm : v % 128 < 128 := Nat.mod_lt _ (by decide)
        have hb : (UInt8.ofNat (v % 128 + 128)).toNat = v % 128 + 128 :=
          toNat_ofNat_lt _ (by omega)
        have hand : (v % 128 + 128) % 128 = v % 128 := by omega
        have hnot : ¬ (v % 128 + 128 < 128) := by omega
        have hv2 : v / 128 < 2 ^ (7 * (f + 1)) := by
          have : 2 ^ (7 * (f + 1 + 1)) = 2 ^ (7 * (f + 1)) * 128 := by
            rw [show 7 * (f + 1 + 1) = 7 * (f + 1) + 7 by ring, Nat.pow_add]
          rw [this] at hv
          exact Nat.div_lt_of_lt_mul (by rw [Nat.mul_comm]; exact hv)
        have hA' : A + v % 128 * 2 ^ shift < 2 ^ (shift + 7) := by
          rw [Nat.pow_add]
          have : v % 128 * 2 ^ shift + 2 ^ shift ≤ 2 ^ shift * 2 ^ 7 := by
            have h3 : v % 128 + 1 ≤ 2 ^ 7 := by norm_num; omega
            calc v % 128 * 2 ^ shift + 2 ^ shift = (v % 128 + 1) * 2 ^ shift := by ring
              _ ≤ 2 ^ 7 * 2 ^ shift := Nat.mul_le_mul_right _ h3
              _ = 2 ^ shift * 2 ^ 7 := Nat.mul_comm _ _
          omega
        have hrec := ih (v / 128) fuel (shift + 7) (i + 1) (A + v % 128 * 2 ^ shift) post hd' hv2
          (by omega) (by omega) hA'
        simp only [readVarint.loop, h1, h2, if_false, hget, hb, and_7f, hand,
          accumulate bits shift A (v % 128) hA, hnot]
        rw [hrec]
        have hval : A + v % 128 * 2 ^ shift + v / 128 * 2 ^ (shift + 7) = A + v * 2 ^ shift := by
          have := Nat.div_add_mod v 128
          rw [Nat.pow_add]
          nth_rewrite 3 [← this]
          ring
        rw [hval]
        congr 2
        omega

/-- Reading the varint of `v` gives back the low `bits` bits of `v`. -/
theorem readVarint_varint (bits : Nat) (data : Bytes) (i v : Nat) (post : Bytes)
    (hd : data.drop i = varint v ++ post) (hv : v < 2 ^ 64) :
    readVarint bits data i = .ok (v % 2 ^ bits, i + (varint v).length) := by
  have hv70 : v < 2 ^ (7 * (9 + 1)) := lt_of_lt_of_le hv (by norm_num)
  have hle : (varintBytes (9 + 1) v).length ≤ 10 := varint_length_le v hv
  have := readVarint.loop_spec bits data 9 v 11 0 i 0 post hd hv70
    (by omega) (by omega) (by norm_num)
  simpa [readVarint, varint] using this

theorem slice_of_drop {data : Bytes} {i : Nat} {s post : Bytes}
    (h : data.drop i = s ++ post) : slice data i (i + s.length) = s := by
  unfold slice
  rw [List.drop_take]
  simp [h]

theorem int64OfNat_of_lt (n : Nat) (h : n < 2 ^ 63) : int64OfNat n = (n : Int) := by
  unfold int64OfNat
  have : n % 2 ^ 64 = n := Nat.mod_eq_of_lt (by omega)
  rw [this]
  have h' : n < 9223372036854775808 := by omega
  simp [h']

theorem int64_of_lt (x : Int) (h0 : 0 ≤ x) (h : x < 2 ^ 63) : int64 x = x := by
  unfold int64
  omega

/-- Reading the length of a length-delimited field whose bytes are all present. -/
theorem readLength_spec (data : Bytes) (i n : Nat) (rest : Bytes)
    (hd : data.drop i = varint n ++ rest) (hn : n ≤ rest.length)
    (hlen : data.length < 2 ^ 63) :
    readLength data i = .ok (i + (varint n).length, i + (varint n).length + n) := by
  have hne : varint n ≠ [] := by
    have := varint_length_pos n
    intro h
    rw [h] at this
    simp at this
  have htot := length_ge_of_drop hd hne
  have hn63 : n < 2 ^ 63 := by omega
  have hr := readVarint_varint 64 data i n rest hd (by omega)
  have hmod : n % 2 ^ 64 = n := Nat.mod_eq_of_lt (by omega)
  unfold readLength
  rw [hr, hmod]
  simp only [int64OfNat_of_lt n hn63]
  have h1 : ¬ ((n : Int) < 0) := by omega
  have h2 : int64 (((i + (varint n).length : Nat) : Int) + (n : Int))
      = ((i + (varint n).length + n : Nat) : Int) := by
    rw [int64_of_lt _ (by omega) (by omega)]
    omega
  simp only [h1, if_false, h2]
  have h3 : ¬ (((i + (varint n).length + n : Nat) : Int) < 0) := by omega
  have h4 : ¬ (((i + (varint n).length + n : Nat) : Int) > (data.length : Int)) := by omega
  simp only [h3, h4, if_false, Int.toNat_ofNat]

/-- Reading a length-delimited field gives back its bytes. -/
theorem readLengthDelimited_spec (data : Bytes) (i : Nat) (s post : Bytes)
    (hd : data.drop i = varint s.length ++ (s ++ post)) (hlen : data.length < 2 ^ 63) :
    readLengthDelimited data i = .ok (s, i + (varint s.length).length + s.length) := by
  have hr := readLength_spec data i s.length (s ++ post) hd (by simp) hlen
  have hd2 := drop_add_of_drop hd
  unfold readLengthDelimited
  rw [hr]
  simp only
  rw [slice_of_drop hd2]

/-- Reading a tag of one byte. -/
theorem readVarint_tag (data : Bytes) (i : Nat) (tag : UInt8) (rest : Bytes) (n : Nat)
    (hd : data.drop i = tag :: rest) (hn : tag.toNat = n) (ht : tag.toNat < 128) :
    readVarint 64 data i = .ok (n, i + 1) := by
  subst hn
  obtain ⟨hget, hlt⟩ := getElem?_of_drop hd
  have h2 : ¬ i ≥ data.length := by omega
  have hm : tag.toNat % 128 = tag.toNat := Nat.mod_eq_of_lt ht
  have hm2 : tag.toNat % 2 ^ 64 = tag.toNat := Nat.mod_eq_of_lt (by omega)
  have hm3 : tag.toNat < 18446744073709551616 := by omega
  simp [readVarint, readVarint.loop, h2, hget, and_7f, hm, ht, hm2, hm3]

/-! ## Decoding the records of a packet -/

theorem bytesRecord_cons (tag : UInt8) (s : Bytes) (hs : s ≠ []) :
    bytesRecord tag s = tag :: (varint s.length ++ s) := by
  have : s.length > 0 := List.length_pos.mpr hs
  simp [bytesRecord, this]

/-- What the decoder reads after the tag of a string or bytes record. -/
theorem readBytesField_record (data : Bytes) (i : Nat) (tag : UInt8) (s post : Bytes)
    (field : String) (hs : s ≠ [])
    (hd : data.drop i = bytesRecord tag s ++ post) (hlen : data.length < 2 ^ 63) :
    readBytesField data (i + 1) 2 field = .ok (s, i + (bytesRecord tag s).length) := by
  rw [bytesRecord_cons tag s hs] at hd ⊢
  simp only [List.cons_append, List.append_assoc] at hd
  have hd1 := drop_succ_of_drop hd
  have hr := readLengthDelimited_spec data (i + 1) s post hd1 hlen
  simp only [readBytesField, ne_eq, not_true_eq_false, if_false, hr, List.length_cons,
    List.length_append]
  congr 2
  omega

/-- What the decoder reads after the tag of a varint record. -/
theorem readVarintField_record (bits : Nat) (data : Bytes) (i : Nat) (tag : UInt8) (v : Nat)
    (post : Bytes) (field : String) (hv : v < 2 ^ 64)
    (hd : data.drop i = varintRecord tag false v ++ post) :
    readVarintField bits data (i + 1) 0 field
      = .ok (v % 2 ^ bits, i + (varintRecord tag false v).length) := by
  simp only [varintRecord, Bool.false_eq_true, if_false, List.cons_append] at hd ⊢
  have hd1 := drop_succ_of_drop hd
  have hr := readVarint_varint bits data (i + 1) v post hd1 hv
  simp only [readVarintField, ne_eq, not_true_eq_false, if_false, hr, List.length_cons]
  congr 2
  omega

theorem Decodes.OriginalSenderAddress (s : Bytes) (hs : s ≠ []) :
    Decodes (bytesRecord 0x0a s) (fun m => { m with OriginalSenderAddress := s }) := by
  intro data i m post hd hlen
  have hr := readBytesField_record data i 0x0a s post "OriginalSenderAddress" hs hd hlen
  rw [bytesRecord_cons _ s hs] at hd
  have ht := readVarint_tag data i 0x0a _ 10 hd (by decide) (by decide)
  have hw : (10 &&& 0x7 : Nat) = 2 := by decide
  have hf : int32OfNat (10 >>> 3) = 1 := by decide
  simp only [InFlightPacket.Unmarshal.step, ht, hw, hf, hr]
  simp

theorem Decodes.RefundChannelId (s : Bytes) (hs : s ≠ []) :
    Decodes (bytesRecord 0x12 s) (fun m => { m with RefundChannelId := s }) := by
  intro data i m post hd hlen
  have hr := readBytesField_record data i 0x12 s post "RefundChannelId" hs hd hlen
  rw [bytesRecord_cons _ s hs] at hd
  have ht := readVarint_tag data i 0x12 _ 18 hd (by decide) (by decide)
  have hw : (18 &&& 0x7 : Nat) = 2 := by decide
  have hf : int32OfNat (18 >>> 3) = 2 := by decide
  simp only [InFlightPacket.Unmarshal.step, ht, hw, hf, hr]
  simp

theorem Decodes.RefundPortId (s : Bytes) (hs : s ≠ []) :
    Decodes (bytesRecord 0x1a s) (fun m => { m with RefundPortId := s }) := by
  intro data i m post hd hlen
  have hr := readBytesField_record data i 0x1a s post "RefundPortId" hs hd hlen
  rw [bytesRecord_cons _ s hs] at hd
  have ht := readVarint_tag data i 0x1a _ 26 hd (by decide) (by decide)
  have hw : (26 &&& 0x7 : Nat) = 2 := by decide
  have hf : int32OfNat (26 >>> 3) = 3 := by decide
  simp only [InFlightPacket.Unmarshal.step, ht, hw, hf, hr]
  simp

theorem Decodes.PacketSrcChannelId (s : Bytes) (hs : s ≠ []) :
    Decodes (bytesRecord 0x22 s) (fun m => { m with PacketSrcChannelId := s }) := by
  intro data i m post hd hlen
  have hr := readBytesField_record data i 0x22 s post "PacketSrcChannelId" hs hd hlen
  rw [bytesRecord_cons _ s hs] at hd
  have ht := readVarint_tag data i 0x22 _ 34 hd (by decide) (by decide)
  have hw : (34 &&& 0x7 : Nat) = 2 := by decide
  have hf : int32OfNat (34 >>> 3) = 4 := by decide
  simp only [InFlightPacket.Unmarshal.step, ht, hw, hf, hr]
  simp

theorem Decodes.PacketSrcPortId (s : Bytes) (hs : s ≠ []) :
    Decodes (bytesRecord 0x2a s) (fun m => { m with PacketSrcPortId := s }) := by
  intro data i m post hd hlen
  have hr := readBytesField_record data i 0x2a s post "PacketSrcPortId" hs hd hlen
  rw [bytesRecord_cons _ s hs] at hd
  have ht := readVarint_tag data i 0x2a _ 42 hd (by decide) (by decide)
  have hw : (42 &&& 0x7 : Nat) = 2 := by decide
  have hf : int32OfNat (42 >>> 3) = 5 := by decide
  simp only [InFlightPacket.Unmarshal.step, ht, hw, hf, hr]
  simp

theorem Decodes.PacketTimeoutHeight (s : Bytes) (hs : s ≠ []) :
    Decodes (bytesRecord 0x3a s) (fun m => { m with PacketTimeoutHeight := s }) := by
  intro data i m post hd hlen
  have hr := readBytesField_record data i 0x3a s post "PacketTimeoutHeight" hs hd hlen
  rw [bytesRecord_cons _ s hs] at hd
  have ht := readVarint_tag data i 0x3a _ 58 hd (by decide) (by decide)
  have hw : (58 &&& 0x7 : Nat) = 2 := by decide
  have hf : int32OfNat (58 >>> 3) = 7 := by decide
  simp only [InFlightPacket.Unmarshal.step, ht, hw, hf, hr]
  simp

theorem Decodes.PacketData (s : Bytes) (hs : s ≠ []) :
    Decodes (bytesRecord 0x42 s) (fun m => { m with PacketData := s }) := by
  intro data i m post hd hlen
  have hr := readBytesField_record data i 0x42 s post "PacketData" hs hd hlen
  rw [bytesRecord_cons _ s hs] at hd
  have ht := readVarint_tag data i 0x42 _ 66 hd (by decide) (by decide)
  have hw : (66 &&& 0x7 : Nat) = 2 := by decide
  have hf : int32OfNat (66 >>> 3) = 8 := by decide
  simp only [InFlightPacket.Unmarshal.step, ht, hw, hf, hr]
  simp

theorem Decodes.PacketTimeoutTimestamp (v : Nat) (hv : v < 2 ^ 64) :
    Decodes (varintRecord 0x30 false v) (fun m => { m with PacketTimeoutTimestamp := v }) := by
  intro data i m post hd hlen
  have hr := readVarintField_record 64 data i 0x30 v post "PacketTimeoutTimestamp" hv hd
  rw [Nat.mod_eq_of_lt hv] at hr
  simp only [varintRecord, Bool.false_eq_true, if_false, List.cons_append] at hd
  have ht := readVarint_tag data i 0x30 _ 48 hd (by decide) (by decide)
  have hw : (48 &&& 0x7 : Nat) = 0 := by decide
  have hf : int32OfNat (48 >>> 3) = 6 := by decide
  simp only [InFlightPacket.Unmarshal.step, ht, hw, hf, hr]
  simp

theorem Decodes.RefundSequence (v : Nat) (hv : v < 2 ^ 64) :
    Decodes (varintRecord 0x48 false v) (fun m => { m with RefundSequence := v }) := by
  intro data i m post hd hlen
  have hr := readVarintField_record 64 data i 0x48 v post "RefundSequence" hv hd
  rw [Nat.mod_eq_of_lt hv] at hr
  simp only [varintRecord, Bool.false_eq_true, if_false, List.cons_append] at hd
  have ht := readVarint_tag data i 0x48 _ 72 hd (by decide) (by decide)
  have hw : (72 &&& 0x7 : Nat) = 0 := by decide
  have hf : int32OfNat (72 >>> 3) = 9 := by decide
  simp only [InFlightPacket.Unmarshal.step, ht, hw, hf, hr]
  simp

theorem Decodes.Timeout (v : Nat) (hv : v < 2 ^ 64) :
    Decodes (varintRecord 0x58 false v) (fun m => { m with Timeout := v }) := by
  intro data i m post hd hlen
  have hr := readVarintField_record 64 data i 0x58 v post "Timeout" hv hd
  rw [Nat.mod_eq_of_lt hv] at hr
  simp only [varintRecord, Bool.false_eq_true, if_false, List.cons_append] at hd
  have ht := readVarint_tag data i 0x58 _ 88 hd (by decide) (by decide)
  have hw : (88 &&& 0x7 : Nat) = 0 := by decide
  have hf : int32OfNat (88 >>> 3) = 11 := by decide
  simp only [InFlightPacket.Unmarshal.step, ht, hw, hf, hr]
  simp

/-- The low 32 bits of `uint64(x)` are the bits of the `int32` value `x`. -/
theorem int32OfNat_uint64OfInt (x : Int) (h1 : -2 ^ 31 ≤ x) (h2 : x < 2 ^ 31) :
    int32OfNat (uint64OfInt x % 2 ^ 32) = x := by
  unfold int32OfNat uint64OfInt
  have h3 : ((x % 2 ^ 64).toNat % 2 ^ 32 % 2 ^ 32 : Nat) = (x % 2 ^ 64).toNat % 2 ^ 32 := by
    omega
  rw [h3]
  split <;> omega

theorem Decodes.RetriesRemaining (x : Int) (h1 : -2 ^ 31 ≤ x) (h2 : x < 2 ^ 31) :
    Decodes (varintRecord 0x50 false (uint64OfInt x))
      (fun m => { m with RetriesRemaining := x }) := by
  intro data i m post hd hlen
  have hr := readVarintField_record 32 data i 0x50 (uint64OfInt x) post "RetriesRemaining"
    (uint64OfInt_lt x) hd
  simp only [varintRecord, Bool.false_eq_true, if_false, List.cons_append] at hd
  have ht := readVarint_tag data i 0x50 _ 80 hd (by decide) (by decide)
  have hw : (80 &&& 0x7 : Nat) = 0 := by decide
  have hf : int32OfNat (80 >>> 3) = 10 := by decide
  simp only [InFlightPacket.Unmarshal.step, ht, hw, hf, hr,
    int32OfNat_uint64OfInt x h1 h2]
  simp

theorem Decodes.Nonrefundable :
    Decodes (varintRecord 0x60 false 1) (fun m => { m with Nonrefundable := true }) := by
  intro data i m post hd hlen
  have hr := readVarintField_record 64 data i 0x60 1 post "Nonrefundable" (by norm_num) hd
  simp only [varintRecord, Bool.false_eq_true, if_false, List.cons_append] at hd
  have ht := readVarint_tag data i 0x60 _ 96 hd (by decide) (by decide)
  have hw : (96 &&& 0x7 : Nat) = 0 := by decide
  have hf : int32OfNat (96 >>> 3) = 12 := by decide
  have hone : int64OfNat (1 % 2 ^ 64) = 1 := by decide
  simp only [InFlightPacket.Unmarshal.step, ht, hw, hf, hr, hone]
  simp

/-! ## Round trip of a packet -/

/-- The decoder loop over a sequence of records, each either empty or decoded by one
iteration: the loop arrives behind the records with the updates of the non-empty records
applied in order. -/
theorem InFlightPacket.Unmarshal.loop_records (data : Bytes) (hlen : data.length < 2 ^ 63) :
    ∀ (rus : List (Bytes × (InFlightPacket → InFlightPacket))),
      (∀ ru ∈ rus, ru.1 ≠ [] → Decodes ru.1 ru.2) →
      ∀ (fuel i : Nat) (m : InFlightPacket) (post : Bytes),
        data.drop i = (rus.map Prod.fst).flatten ++ post →
        data.length - i < fuel →
        ∃ fuel', data.length - (i + ((rus.map Prod.fst).flatten).length) < fuel' ∧
          InFlightPacket.Unmarshal.loop data fuel i m
            = InFlightPacket.Unmarshal.loop data fuel'
                (i + ((rus.map Prod.fst).flatten).length)
                (rus.foldl (fun m ru => if ru.1 = [] then m else ru.2 m) m) := by
  intro rus
  induction rus with
  | nil =>
    intro _ fuel i m post _ hfuel
    exact ⟨fuel, by simpa using hfuel, by simp⟩
  | cons ru rest ih =>
    intro hdec fuel i m post hd hfuel
    have hrest : ∀ ru' ∈ rest, ru'.1 ≠ [] → Decodes ru'.1 ru'.2 :=
      fun ru' hmem => hdec ru' (List.mem_cons_of_mem _ hmem)
    by_cases hr : ru.1 = []
    · simp only [List.map_cons, List.flatten_cons, hr, List.nil_append, List.foldl_cons,
        if_true] at hd ⊢
      exact ih hrest fuel i m post hd hfuel
    · have hD := hdec ru (List.mem_cons_self _ _) hr
      simp only [List.map_cons, List.flatten_cons, List.append_assoc] at hd
      have htot := length_ge_of_drop hd hr
      have hstep := hD data i m _ hd hlen
      have hd' := drop_add_of_drop hd
      have hpos : ru.1.length ≠ 0 := fun h0 => hr (List.length_eq_zero.mp h0)
      have hlt : i < data.length := by omega
      cases fuel with
      | zero => omega
      | succ f =>
        have hf : data.length - (i + ru.1.length) < f := by omega
        obtain ⟨fuel', hf', heq⟩ := ih hrest f (i + ru.1.length) (ru.2 m) post hd' hf
        refine ⟨fuel', ?_, ?_⟩
        · simp only [List.map_cons, List.flatten_cons, List.length_append]
          rw [← Nat.add_assoc]
          exact hf'
        · simp only [List.map_cons, List.flatten_cons, List.length_append, List.foldl_cons, hr,
            if_false]
          rw [InFlightPacket.Unmarshal.loop]
          simp only [hlt, if_true, hstep]
          rw [heq, Nat.add_assoc]

theorem InFlightPacket.recordUpdates_fst (p : InFlightPacket) :
    (p.recordUpdates.map Prod.fst) = p.records := rfl

theorem bytesRecord_ne_nil {tag : UInt8} {s : Bytes} (h : bytesRecord tag s ≠ []) : s ≠ [] := by
  intro hs
  subst hs
  exact h rfl

theorem varintRecord_ne_nil {tag : UInt8} {isZero : Bool} {v : Nat}
    (h : varintRecord tag isZero v ≠ []) : isZero = false := by
  cases isZero with
  | false => rfl
  | true => exact absurd rfl h

theorem InFlightPacket.recordUpdates_decodes (p : InFlightPacket) (h : p.WellFormed) :
    ∀ ru ∈ p.recordUpdates, ru.1 ≠ [] → Decodes ru.1 ru.2 := by
  obtain ⟨ht, hs, hto, hr1, hr2, _⟩ := h
  intro ru hmem hne
  simp only [InFlightPacket.recordUpdates, List.mem_cons, List.mem_singleton,
    List.not_mem_nil, or_false] at hmem
  rcases hmem with h | h | h | h | h | h | h | h | h | h | h | h <;> subst h
  · exact Decodes.OriginalSenderAddress _ (bytesRecord_ne_nil hne)
  · exact Decodes.RefundChannelId _ (bytesRecord_ne_nil hne)
  · exact Decodes.RefundPortId _ (bytesRecord_ne_nil hne)
  · exact Decodes.PacketSrcChannelId _ (bytesRecord_ne_nil hne)
  · exact Decodes.PacketSrcPortId _ (bytesRecord_ne_nil hne)
  · have hz := varintRecord_ne_nil hne
    simp only [hz] at hne ⊢
    exact Decodes.PacketTimeoutTimestamp _ ht
  · exact Decodes.PacketTimeoutHeight _ (bytesRecord_ne_nil hne)
  · exact Decodes.PacketData _ (bytesRecord_ne_nil hne)
  · have hz := varintRecord_ne_nil hne
    simp only [hz] at hne ⊢
    exact Decodes.RefundSequence _ hs
  · have hz := varintRecord_ne_nil hne
    simp only [hz] at hne ⊢
    exact Decodes.RetriesRemaining _ hr1 hr2
  · have hz := varintRecord_ne_nil hne
    simp only [hz] at hne ⊢
    exact Decodes.Timeout _ hto
  · have hz := varintRecord_ne_nil hne
    simp only [hz] at hne ⊢
    exact Decodes.Nonrefundable

theorem ite_eq_right_of {c : Prop} [Decidable c] {α : Type} (a b : α) (h : c → a = b) :
    (if c then a else b) = b := by
  split
  · next hc => exact h hc
  · rfl

theorem bytesRecord_eq_nil {tag : UInt8} {s : Bytes} (h : bytesRecord tag s = []) : s = [] := by
  by_contra hs
  rw [bytesRecord_cons tag s hs] at h
  cases h

theorem varintRecord_eq_nil {tag : UInt8} {isZero : Bool} {v : Nat}
    (h : varintRecord tag isZero v = []) : isZero = true := by
  cases isZero with
  | true => rfl
  | false => simp [varintRecord] at h

theorem varintRecord_nat_eq_nil {tag : UInt8} {v w : Nat}
    (h : varintRecord tag (v == 0) w = []) : 0 = v := by
  have := varintRecord_eq_nil h
  simp only [beq_iff_eq] at this
  exact this.symm

theorem varintRecord_int_eq_nil {tag : UInt8} {v : Int} {w : Nat}
    (h : varintRecord tag (v == 0) w = []) : 0 = v := by
  have := varintRecord_eq_nil h
  simp only [beq_iff_eq] at this
  exact this.symm

theorem varintRecord_bool_eq_nil {tag : UInt8} {b : Bool} {w : Nat}
    (h : varintRecord tag (!b) w = []) : false = b := by
  have := varintRecord_eq_nil h
  cases b with
  | false => rfl
  | true => simp at this

/-- Applying the updates of the non-empty records to the empty packet gives the packet. -/
theorem InFlightPacket.recordUpdates_foldl (p : InFlightPacket) :
    p.recordUpdates.foldl (fun m ru => if ru.1 = [] then m else ru.2 m) InFlightPacket.empty
      = p := by
  have heta : ∀ q : InFlightPacket, q = ⟨q.OriginalSenderAddress, q.RefundChannelId,
      q.RefundPortId, q.PacketSrcChannelId, q.PacketSrcPortId, q.PacketTimeoutTimestamp,
      q.PacketTimeoutHeight, q.PacketData, q.RefundSequence, q.RetriesRemaining, q.Timeout,
      q.Nonrefundable⟩ := fun _ => rfl
  obtain ⟨a1, a2, a3, a4, a5, a6, a7, a8, a9, a10, a11, a12⟩ := p
  simp only [InFlightPacket.recordUpdates, List.foldl_cons, List.foldl_nil,
    InFlightPacket.empty]
  rw [heta (ite _ _ _)]
  congr 1
  · simp only [apply_ite InFlightPacket.OriginalSenderAddress, ite_self]
    exact ite_eq_right_of _ _ (fun h => (bytesRecord_eq_nil h).symm)
  · simp only [apply_ite InFlightPacket.RefundChannelId, ite_self]
    exact ite_eq_right_of _ _ (fun h => (bytesRecord_eq_nil h).symm)
  · simp only [apply_ite InFlightPacket.RefundPortId, ite_self]
    exact ite_eq_right_of _ _ (fun h => (bytesRecord_eq_nil h).symm)
  · simp only [apply_ite InFlightPacket.PacketSrcChannelId, ite_self]
    exact ite_eq_right_of _ _ (fun h => (bytesRecord_eq_nil h).symm)
  · simp only [apply_ite InFlightPacket.PacketSrcPortId, ite_self]
    exact ite_eq_right_of _ _ (fun h => (bytesRecord_eq_nil h).symm)
  · simp only [apply_ite InFlightPacket.PacketTimeoutTimestamp, ite_self]
    exact ite_eq_right_of _ _ (fun h => varintRecord_nat_eq_nil h)
  · simp only [apply_ite InFlightPacket.PacketTimeoutHeight, ite_self]
    exact ite_eq_right_of _ _ (fun h => (bytesRecord_eq_nil h).symm)
  · simp only [apply_ite InFlightPacket.PacketData, ite_self]
    exact ite_eq_right_of _ _ (fun h => (bytesRecord_eq_nil h).symm)
  · simp only [apply_ite InFlightPacket.RefundSequence, ite_self]
    exact ite_eq_right_of _ _ (fun h => varintRecord_nat_eq_nil h)
  · simp only [apply_ite InFlightPacket.RetriesRemaining, ite_self]
    exact ite_eq_right_of _ _ (fun h => varintRecord_int_eq_nil h)
  · simp only [apply_ite InFlightPacket.Timeout, ite_self]
    exact ite_eq_right_of _ _ (fun h => varintRecord_nat_eq_nil h)
  · simp only [apply_ite InFlightPacket.Nonrefundable, ite_self]
    cases a12 with
    | true => rfl
    | false => rfl

/-- Decoding the wire layout of a well-formed packet into the empty packet gives the
packet. -/
theorem InFlightPacket.Unmarshal_wireLayout (p : InFlightPacket) (h : p.WellFormed) :
    InFlightPacket.empty.Unmarshal p.wireLayout = .ok p := by
  have hlen : p.wireLayout.length < 2 ^ 63 := h.2.2.2.2.2
  have hd : p.wireLayout.drop 0 = (p.recordUpdates.map Prod.fst).flatten ++ [] := by
    simp [InFlightPacket.recordUpdates_fst, InFlightPacket.wireLayout]
  obtain ⟨fuel', hf', heq⟩ := InFlightPacket.Unmarshal.loop_records p.wireLayout hlen
    p.recordUpdates (InFlightPacket.recordUpdates_decodes p h) (p.wireLayout.length + 1) 0
    InFlightPacket.empty [] hd (by omega)
  unfold InFlightPacket.Unmarshal
  rw [heq, InFlightPacket.recordUpdates_foldl]
  have hl : (p.recordUpdates.map Prod.fst).flatten.length = p.wireLayout.length := by
    simp [InFlightPacket.recordUpdates_fst, InFlightPacket.wireLayout]
  rw [hl, Nat.zero_add] at hf' ⊢
  cases fuel' with
  | zero => omega
  | succ f => simp [InFlightPacket.Unmarshal.loop]

/-- C16: InFlightPacket round trip. For every packet whose fields are values of their Go
types (any strings, any byte payload, any `uint64` timestamp, sequence and timeout, any
`int32` RetriesRemaining, also negative, either value of Nonrefundable), `Marshal`
succeeds, and `Unmarshal` of its result into an empty packet succeeds and yields the
packet in every field (an empty PacketData and an absent one are the same list). -/
theorem inflight_packet_round_trip (p : InFlightPacket) (h : p.WellFormed) :
    ∃ bz, p.Marshal = .ok bz ∧ InFlightPacket.empty.Unmarshal bz = .ok p :=
  ⟨p.wireLayout, InFlightPacket.Marshal_eq_wireLayout p h,
    InFlightPacket.Unmarshal_wireLayout p h⟩

theorem examplePacketA_wellFormed : examplePacketA.WellFormed := by
  unfold InFlightPacket.WellFormed
  decide

/-- Witness of C16: the example packet, with RetriesRemaining `-1`, round-trips. -/
theorem inflight_packet_round_trip_witness :
    ∃ bz, examplePacketA.Marshal = .ok bz ∧
      InFlightPacket.empty.Unmarshal bz = .ok examplePacketA :=
  inflight_packet_round_trip examplePacketA (by unfold InFlightPacket.WellFormed; decide)

/-- C18: wire layout of InFlightPacket. For every well-formed packet `Marshal` returns the
concatenation, in ascending field number 1..12, of one record per non-default field and
nothing for a default-valued field (empty string, empty bytes, 0, false): the tag byte
(0x0a, 0x12, 0x1a, 0x22, 0x2a for the string fields 1-5, 0x30 for field 6, 0x3a for
field 7, 0x42 for field 8, 0x48, 0x50, 0x58, 0x60 for the varint fields 9-12) followed by
a varint length and the raw bytes for a length-delimited field, or by the base-128 varint
of the value (converted to `uint64`) for a varint field. The all-default packet marshals
to the empty byte string. -/
theorem inflight_packet_wire_layout (p : InFlightPacket) (h : p.WellFormed) :
    p.Marshal = .ok
      (bytesRecord 0x0a p.OriginalSenderAddress ++ bytesRecord 0x12 p.RefundChannelId ++
       bytesRecord 0x1a p.RefundPortId ++ bytesRecord 0x22 p.PacketSrcChannelId ++
       bytesRecord 0x2a p.PacketSrcPortId ++
       varintRecord 0x30 (p.PacketTimeoutTimestamp == 0) p.PacketTimeoutTimestamp ++
       bytesRecord 0x3a p.PacketTimeoutHeight ++ bytesRecord 0x42 p.PacketData ++
       varintRecord 0x48 (p.RefundSequence == 0) p.RefundSequence ++
       varintRecord 0x50 (p.RetriesRemaining == 0) (uint64OfInt p.RetriesRemaining) ++
       varintRecord 0x58 (p.Timeout == 0) p.Timeout ++
       varintRecord 0x60 (!p.Nonrefundable) 1) ∧
    InFlightPacket.empty.Marshal = .ok [] := by
  constructor
  · rw [InFlightPacket.Marshal_eq_wireLayout p h, InFlightPacket.wireLayout_eq]
    simp only [List.append_assoc]
  · decide

/-- Witness of C18: the bytes of the example packet. -/
theorem inflight_packet_wire_layout_witness :
    examplePacketA.Marshal = .ok
      [0x0a, 2, 0x61, 0x62, 0x1a, 1, 0x63, 0x30, 0xac, 0x02, 0x42, 3, 1, 2, 3,
       0x50, 0xff, 0xff, 0xff, 0xff, 0xff, 0xff, 0xff, 0xff, 0xff, 0x01, 0x58, 1, 0x60, 1] :=
  (inflight_packet_wire_layout examplePacketA
    (by unfold InFlightPacket.WellFormed; decide)).1.trans (by decide)

/-! ## Truncated input -/

theorem length_le_of_drop_nil {data : Bytes} {i : Nat} (h : data.drop i = []) :
    data.length ≤ i := by
  have := congrArg List.length h
  rw [List.length_drop] at this
  simp only [List.length_nil] at this
  omega

/-- The varint loop on a varint that is cut off before its last byte runs into the end of
the data. -/
theorem readVarint.loop_truncated (bits : Nat) (data : Bytes) (f : Nat) :
    ∀ (v t fuel shift i x : Nat),
      data.drop i = (varintBytes (f + 1) v).take t → t < (varintBytes (f + 1) v).length →
      shift + 7 * t < 64 → t < fuel →
      readVarint.loop bits data fuel shift i x = .error .ErrUnexpectedEOF := by
  induction f with
  | zero =>
    intro v t fuel shift i x hd ht hshift hfuel
    simp only [varintBytes] at hd ht
    split at ht
    · simp only [List.length_singleton, Nat.lt_one_iff] at ht
      subst ht
      simp only [List.take_zero] at hd
      have hge := length_le_of_drop_nil hd
      cases fuel with
      | zero => omega
      | succ fuel =>
        have h1 : ¬ shift ≥ 64 := by omega
        simp [readVarint.loop, h1, hge]
    · simp only [List.length_cons, List.length_nil, Nat.zero_add, Nat.lt_one_iff] at ht
      subst ht
      simp only [List.take_zero] at hd
      have hge := length_le_of_drop_nil hd
      cases fuel with
      | zero => omega
      | succ fuel =>
        have h1 : ¬ shift ≥ 64 := by omega
        simp [readVarint.loop, h1, hge]
  | succ f ih =>
    intro v t fuel shift i x hd ht hshift hfuel
    rw [varintBytes] at hd ht
    cases fuel with
    | zero => omega
    | succ fuel =>
      have h1 : ¬ shift ≥ 64 := by omega
      cases t with
      | zero =>
        simp only [List.take_zero] at hd
        have hge := length_le_of_drop_nil hd
        simp [readVarint.loop, h1, hge]
      | succ t =>
        split at ht
        · simp only [List.length_singleton] at ht
          omega
        · next hv7 =>
          simp only [hv7, if_false, List.take_succ_cons] at hd
          simp only [List.length_cons] at ht
          obtain ⟨hget, hlt⟩ := getElem?_of_drop hd
          have hd' := drop_succ_of_drop hd
          have h2 : ¬ i ≥ data.length := by omega
          have hm : v % 128 < 128 := Nat.mod_lt _ (by decide)
          have hb : (UInt8.ofNat (v % 128 + 128)).toNat = v % 128 + 128 :=
            toNat_ofNat_lt _ (by omega)
          have hnot : ¬ (v % 128 + 128 < 128) := by omega
          have hrec := ih (v / 128) t fuel (shift + 7) (i + 1)
            (x ||| ((v % 128 + 128 &&& 0x7F) <<< shift) % 2 ^ bits) hd' (by omega) (by omega)
            (by omega)
          simp only [readVarint.loop, h1, h2, if_false, hget, hb, hnot]
          exact hrec

theorem readVarint_truncated (bits : Nat) (data : Bytes) (i v t : Nat)
    (hd : data.drop i = (varint v).take t) (ht : t < (varint v).length) (hv : v < 2 ^ 64) :
    readVarint bits data i = .error .ErrUnexpectedEOF := by
  have hle : (varintBytes (9 + 1) v).length ≤ 10 := varint_length_le v hv
  have ht' : t < (varintBytes (9 + 1) v).length := ht
  exact readVarint.loop_truncated bits data 9 v t 11 0 i 0 hd ht' (by omega) (by omega)

/-- The length read when the payload is cut short: the end index lies behind the data. -/
theorem readLength_short (data : Bytes) (i n : Nat) (rest : Bytes)
    (hd : data.drop i = varint n ++ rest) (hn : rest.length < n)
    (hb : i + (varint n).length + n < 2 ^ 63) :
    readLength data i = .error .ErrUnexpectedEOF := by
  have hne : varint n ≠ [] := by
    have := varint_length_pos n
    intro h
    rw [h] at this
    simp at this
  have htot := length_ge_of_drop hd hne
  have hn63 : n < 2 ^ 63 := by omega
  have hr := readVarint_varint 64 data i n rest hd (by omega)
  have hmod : n % 2 ^ 64 = n := Nat.mod_eq_of_lt (by omega)
  unfold readLength
  rw [hr, hmod]
  simp only [int64OfNat_of_lt n hn63]
  have h1 : ¬ ((n : Int) < 0) := by omega
  have h2 : int64 (((i + (varint n).length : Nat) : Int) + (n : Int))
      = ((i + (varint n).length + n : Nat) : Int) := by
    rw [int64_of_lt _ (by omega) (by omega)]
    omega
  simp only [h1, if_false, h2]
  have h3 : ¬ (((i + (varint n).length + n : Nat) : Int) < 0) := by omega
  have h4 : (((i + (varint n).length + n : Nat) : Int) > (data.length : Int)) := by omega
  simp only [h3, h4, if_false, if_true]

/-- What the decoder reads after the tag of a string or bytes record that is cut off. -/
theorem readBytesField_truncated (data : Bytes) (i : Nat) (tag : UInt8) (s : Bytes)
    (field : String) (t : Nat) (hs : s ≠ []) (ht : t < (varint s.length ++ s).length)
    (hd : data.drop (i + 1) = (varint s.length ++ s).take t)
    (hb : i + (bytesRecord tag s).length < 2 ^ 63) :
    readBytesField data (i + 1) 2 field = .error .ErrUnexpectedEOF := by
  rw [bytesRecord_cons tag s hs] at hb
  simp only [List.length_cons, List.length_append] at hb ht
  simp only [readBytesField, ne_eq, not_true_eq_false, if_false, readLengthDelimited]
  by_cases hcase : t < (varint s.length).length
  · rw [List.take_append_of_le_length (by omega)] at hd
    have hr := readVarint_truncated 64 data (i + 1) s.length t hd hcase (by omega)
    simp only [readLength, hr]
  · rw [List.take_append_eq_append_take, List.take_of_length_le (by omega)] at hd
    have hr := readLength_short data (i + 1) s.length _ hd
      (by rw [List.length_take]; omega) (by omega)
    simp only [hr]

theorem readVarintField_truncated (bits : Nat) (data : Bytes) (i v : Nat) (field : String)
    (t : Nat) (ht : t < (varint v).length) (hv : v < 2 ^ 64)
    (hd : data.drop (i + 1) = (varint v).take t) :
    readVarintField bits data (i + 1) 0 field = .error .ErrUnexpectedEOF := by
  simp only [readVarintField, ne_eq, not_true_eq_false, if_false,
    readVarint_truncated bits data (i + 1) v t hd ht hv]

theorem Truncated.cut_OriginalSenderAddress (s : Bytes) (hs : s ≠ []) : Truncated (bytesRecord 0x0a s) := by
  intro t data i m ht0 ht hd hb
  rw [bytesRecord_cons _ s hs] at hd ht
  obtain ⟨t', rfl⟩ : ∃ t', t = t' + 1 := ⟨t - 1, by omega⟩
  simp only [List.take_succ_cons] at hd
  simp only [List.length_cons, Nat.add_lt_add_iff_right] at ht
  have htag := readVarint_tag data i 0x0a _ 10 hd (by decide) (by decide)
  have hr := readBytesField_truncated data i 0x0a s "OriginalSenderAddress" t' hs ht
    (drop_succ_of_drop hd) hb
  have hw : (10 &&& 0x7 : Nat) = 2 := by decide
  have hf : int32OfNat (10 >>> 3) = 1 := by decide
  simp only [InFlightPacket.Unmarshal.step, htag, hw, hf, hr]
  simp

theorem Truncated.cut_RefundChannelId (s : Bytes) (hs : s ≠ []) : Truncated (bytesRecord 0x12 s) := by
  intro t data i m ht0 ht hd hb
  rw [bytesRecord_cons _ s hs] at hd ht
  obtain ⟨t', rfl⟩ : ∃ t', t = t' + 1 := ⟨t - 1, by omega⟩
  simp only [List.take_succ_cons] at hd
  simp only [List.length_cons, Nat.add_lt_add_iff_right] at ht
  have htag := readVarint_tag data i 0x12 _ 18 hd (by decide) (by decide)
  have hr := readBytesField_truncated data i 0x12 s "RefundChannelId" t' hs ht
    (drop_succ_of_drop hd) hb
  have hw : (18 &&& 0x7 : Nat) = 2 := by decide
  have hf : int32OfNat (18 >>> 3) = 2 := by decide
  simp only [InFlightPacket.Unmarshal.step, htag, hw, hf, hr]
  simp

theorem Truncated.cut_RefundPortId (s : Bytes) (hs : s ≠ []) : Truncated (bytesRecord 0x1a s) := by
  intro t data i m ht0 ht hd hb
  rw [bytesRecord_cons _ s hs] at hd ht
  obtain ⟨t', rfl⟩ : ∃ t', t = t' + 1 := ⟨t - 1, by omega⟩
  simp only [List.take_succ_cons] at hd
  simp only [List.length_cons, Nat.add_lt_add_iff_right] at ht
  have htag := readVarint_tag data i 0x1a _ 26 hd (by decide) (by decide)
  have hr := readBytesField_truncated data i 0x1a s "RefundPortId" t' hs ht
    (drop_succ_of_drop hd) hb
  have hw : (26 &&& 0x7 : Nat) = 2 := by decide
  have hf : int32OfNat (26 >>> 3) = 3 := by decide
  simp only [InFlightPacket.Unmarshal.step, htag, hw, hf, hr]
  simp

theorem Truncated.cut_PacketSrcChannelId (s : Bytes) (hs : s ≠ []) : Truncated (bytesRecord 0x22 s) := by
  intro t data i m ht0 ht hd hb
  rw [bytesRecord_cons _ s hs] at hd ht
  obtain ⟨t', rfl⟩ : ∃ t', t = t' + 1 := ⟨t - 1, by omega⟩
  simp only [List.take_succ_cons] at hd
  simp only [List.length_cons, Nat.add_lt_add_iff_right] at ht
  have htag := readVarint_tag data i 0x22 _ 34 hd (by decide) (by decide)
  have hr := readBytesField_truncated data i 0x22 s "PacketSrcChannelId" t' hs ht
    (drop_succ_of_drop hd) hb
  have hw : (34 &&& 0x7 : Nat) = 2 := by decide
  have hf : int32OfNat (34 >>> 3) = 4 := by decide
  simp only [InFlightPacket.Unmarshal.step, htag, hw, hf, hr]
  simp

theorem Truncated.cut_PacketSrcPortId (s : Bytes) (hs : s ≠ []) : Truncated (bytesRecord 0x2a s) := by
  intro t data i m ht0 ht hd hb
  rw [bytesRecord_cons _ s hs] at hd ht
  obtain ⟨t', rfl⟩ : ∃ t', t = t' + 1 := ⟨t - 1, by omega⟩
  simp only [List.take_succ_cons] at hd
  simp only [List.length_cons, Nat.add_lt_add_iff_right] at ht
  have htag := readVarint_tag data i 0x2a _ 42 hd (by decide) (by decide)
  have hr := readBytesField_truncated data i 0x2a s "PacketSrcPortId" t' hs ht
    (drop_succ_of_drop hd) hb
  have hw : (42 &&& 0x7 : Nat) = 2 := by decide
  have hf : int32OfNat (42 >>> 3) = 5 := by decide
  simp only [InFlightPacket.Unmarshal.step, htag, hw, hf, hr]
  simp

theorem Truncated.cut_PacketTimeoutHeight (s : Bytes) (hs : s ≠ []) : Truncated (bytesRecord 0x3a s) := by
  intro t data i m ht0 ht hd hb
  rw [bytesRecord_cons _ s hs] at hd ht
  obtain ⟨t', rfl⟩ : ∃ t', t = t' + 1 := ⟨t - 1, by omega⟩
  simp only [List.take_succ_cons] at hd
  simp only [List.length_cons, Nat.add_lt_add_iff_right] at ht
  have htag := readVarint_tag data i 0x3a _ 58 hd (by decide) (by decide)
  have hr := readBytesField_truncated data i 0x3a s "PacketTimeoutHeight" t' hs ht
    (drop_succ_of_drop hd) hb
  have hw : (58 &&& 0x7 : Nat) = 2 := by decide
  have hf : int32OfNat (58 >>> 3) = 7 := by decide
  simp only [InFlightPacket.Unmarshal.step, htag, hw, hf, hr]
  simp

theorem Truncated.cut_PacketData (s : Bytes) (hs : s ≠ []) : Truncated (bytesRecord 0x42 s) := by
  intro t data i m ht0 ht hd hb
  rw [bytesRecord_cons _ s hs] at hd ht
  obtain ⟨t', rfl⟩ : ∃ t', t = t' + 1 := ⟨t - 1, by omega⟩
  simp only [List.take_succ_cons] at hd
  simp only [List.length_cons, Nat.add_lt_add_iff_right] at ht
  have htag := readVarint_tag data i 0x42 _ 66 hd (by decide) (by decide)
  have hr := readBytesField_truncated data i 0x42 s "PacketData" t' hs ht
    (drop_succ_of_drop hd) hb
  have hw : (66 &&& 0x7 : Nat) = 2 := by decide
  have hf : int32OfNat (66 >>> 3) = 8 := by decide
  simp only [InFlightPacket.Unmarshal.step, htag, hw, hf, hr]
  simp

theorem Truncated.cut_PacketTimeoutTimestamp (v : Nat) (hv : v < 2 ^ 64) :
    Truncated (varintRecord 0x30 false v) := by
  intro t data i m ht0 ht hd hb
  simp only [varintRecord, Bool.false_eq_true, if_false] at hd ht
  obtain ⟨t', rfl⟩ : ∃ t', t = t' + 1 := ⟨t - 1, by omega⟩
  simp only [List.take_succ_cons] at hd
  simp only [List.length_cons, Nat.add_lt_add_iff_right] at ht
  have htag := readVarint_tag data i 0x30 _ 48 hd (by decide) (by decide)
  have hr := readVarintField_truncated 64 data i v "PacketTimeoutTimestamp" t' ht hv (drop_succ_of_drop hd)
  have hw : (48 &&& 0x7 : Nat) = 0 := by decide
  have hf : int32OfNat (48 >>> 3) = 6 := by decide
  simp only [InFlightPacket.Unmarshal.step, htag, hw, hf, hr]
  simp

theorem Truncated.cut_RefundSequence (v : Nat) (hv : v < 2 ^ 64) :
    Truncated (varintRecord 0x48 false v) := by
  intro t data i m ht0 ht hd hb
  simp only [varintRecord, Bool.false_eq_true, if_false] at hd ht
  obtain ⟨t', rfl⟩ : ∃ t', t = t' + 1 := ⟨t - 1, by omega⟩
  simp only [List.take_succ_cons] at hd
  simp only [List.length_cons, Nat.add_lt_add_iff_right] at ht
  have htag := readVarint_tag data i 0x48 _ 72 hd (by decide) (by decide)
  have hr := readVarintField_truncated 64 data i v "RefundSequence" t' ht hv (drop_succ_of_drop hd)
  have hw : (72 &&& 0x7 : Nat) = 0 := by decide
  have hf : int32OfNat (72 >>> 3) = 9 := by decide
  simp only [InFlightPacket.Unmarshal.step, htag, hw, hf, hr]
  simp

theorem Truncated.cut_RetriesRemaining (v : Nat) (hv : v < 2 ^ 64) :
    Truncated (varintRecord 0x50 false v) := by
  intro t data i m ht0 ht hd hb
  simp only [varintRecord, Bool.false_eq_true, if_false] at hd ht
  obtain ⟨t', rfl⟩ : ∃ t', t = t' + 1 := ⟨t - 1, by omega⟩
  simp only [List.take_succ_cons] at hd
  simp only [List.length_cons, Nat.add_lt_add_iff_right] at ht
  have htag := readVarint_tag data i 0x50 _ 80 hd (by decide) (by decide)
  have hr := readVarintField_truncated 32 data i v "RetriesRemaining" t' ht hv (drop_succ_of_drop hd)
  have hw : (80 &&& 0x7 : Nat) = 0 := by decide
  have hf : int32OfNat (80 >>> 3) = 10 := by decide
  simp only [InFlightPacket.Unmarshal.step, htag, hw, hf, hr]
  simp

theorem Truncated.cut_Timeout (v : Nat) (hv : v < 2 ^ 64) :
    Truncated (varintRecord 0x58 false v) := by
  intro t data i m ht0 ht hd hb
  simp only [varintRecord, Bool.false_eq_true, if_false] at hd ht
  obtain ⟨t', rfl⟩ : ∃ t', t = t' + 1 := ⟨t - 1, by omega⟩
  simp only [List.take_succ_cons] at hd
  simp only [List.length_cons, Nat.add_lt_add_iff_right] at ht
  have htag := readVarint_tag data i 0x58 _ 88 hd (by decide) (by decide)
  have hr := readVarintField_truncated 64 data i v "Timeout" t' ht hv (drop_succ_of_drop hd)
  have hw : (88 &&& 0x7 : Nat) = 0 := by decide
  have hf : int32OfNat (88 >>> 3) = 11 := by decide
  simp only [InFlightPacket.Unmarshal.step, htag, hw, hf, hr]
  simp

theorem Truncated.cut_Nonrefundable (v : Nat) (hv : v < 2 ^ 64) :
    Truncated (varintRecord 0x60 false v) := by
  intro t data i m ht0 ht hd hb
  simp only [varintRecord, Bool.false_eq_true, if_false] at hd ht
  obtain ⟨t', rfl⟩ : ∃ t', t = t' + 1 := ⟨t - 1, by omega⟩
  simp only [List.take_succ_cons] at hd
  simp only [List.length_cons, Nat.add_lt_add_iff_right] at ht
  have htag := readVarint_tag data i 0x60 _ 96 hd (by decide) (by decide)
  have hr := readVarintField_truncated 64 data i v "Nonrefundable" t' ht hv (drop_succ_of_drop hd)
  have hw : (96 &&& 0x7 : Nat) = 0 := by decide
  have hf : int32OfNat (96 >>> 3) = 12 := by decide
  simp only [InFlightPacket.Unmarshal.step, htag, hw, hf, hr]
  simp

theorem InFlightPacket.recordUpdates_truncated (p : InFlightPacket) (h : p.WellFormed) :
    ∀ ru ∈ p.recordUpdates, ru.1 ≠ [] → Truncated ru.1 := by
  obtain ⟨ht, hs, hto, hr1, hr2, _⟩ := h
  intro ru hmem hne
  simp only [InFlightPacket.recordUpdates, List.mem_cons, List.mem_singleton,
    List.not_mem_nil, or_false] at hmem
  rcases hmem with h | h | h | h | h | h | h | h | h | h | h | h <;> subst h
  · exact Truncated.cut_OriginalSenderAddress _ (bytesRecord_ne_nil hne)
  · exact Truncated.cut_RefundChannelId _ (bytesRecord_ne_nil hne)
  · exact Truncated.cut_RefundPortId _ (bytesRecord_ne_nil hne)
  · exact Truncated.cut_PacketSrcChannelId _ (bytesRecord_ne_nil hne)
  · exact Truncated.cut_PacketSrcPortId _ (bytesRecord_ne_nil hne)
  · have hz := varintRecord_ne_nil hne
    simp only [hz] at hne ⊢
    exact Truncated.cut_PacketTimeoutTimestamp _ ht
  · exact Truncated.cut_PacketTimeoutHeight _ (bytesRecord_ne_nil hne)
  · exact Truncated.cut_PacketData _ (bytesRecord_ne_nil hne)
  · have hz := varintRecord_ne_nil hne
    simp only [hz] at hne ⊢
    exact Truncated.cut_RefundSequence _ hs
  · have hz := varintRecord_ne_nil hne
    simp only [hz] at hne ⊢
    exact Truncated.cut_RetriesRemaining _ (uint64OfInt_lt _)
  · have hz := varintRecord_ne_nil hne
    simp only [hz] at hne ⊢
    exact Truncated.cut_Timeout _ hto
  · have hz := varintRecord_ne_nil hne
    simp only [hz] at hne ⊢
    exact Truncated.cut_Nonrefundable 1 (by norm_num)

theorem getD_split (l : List Bytes) :
    ∀ (k : Nat), l.getD k [] ≠ [] →
      l = l.take k ++ l.getD k [] :: l.drop (k + 1) ∧ l.getD k [] ∈ l := by
  induction l with
  | nil => intro k h; simp at h
  | cons x xs ih =>
    intro k h
    cases k with
    | zero => simp
    | succ k =>
      simp only [List.getD_cons_succ] at h ⊢
      obtain ⟨h1, h2⟩ := ih k h
      refine ⟨?_, List.mem_cons_of_mem _ h2⟩
      simp only [List.take_succ_cons, List.drop_succ_cons, List.cons_append]
      rw [← h1]

/-- Decoding a prefix of the wire layout that ends strictly inside the record of field
`k + 1` returns the unexpected-end-of-data error. -/
theorem InFlightPacket.Unmarshal_truncated (p : InFlightPacket) (h : p.WellFormed)
    (k t : Nat) (ht0 : 0 < t) (ht : t < (p.records.getD k []).length) :
    InFlightPacket.empty.Unmarshal
        ((p.records.take k).flatten ++ (p.records.getD k []).take t)
      = .error .ErrUnexpectedEOF := by
  have hne : p.records.getD k [] ≠ [] := by
    intro h0
    rw [h0] at ht
    simp at ht
  obtain ⟨hsplit, hmem⟩ := getD_split p.records k hne
  have hlay : p.wireLayout.length
      = (p.records.take k).flatten.length + (p.records.getD k []).length
        + (p.records.drop (k + 1)).flatten.length := by
    unfold InFlightPacket.wireLayout
    conv_lhs => rw [hsplit]
    simp only [List.flatten_append, List.flatten_cons, List.length_append]
    omega
  have hlen63 : p.wireLayout.length < 2 ^ 63 := h.2.2.2.2.2
  have hmem' : p.records.getD k [] ∈ p.recordUpdates.map Prod.fst := hmem
  obtain ⟨ru, hru, hru1⟩ := List.mem_map.mp hmem'
  have htr := InFlightPacket.recordUpdates_truncated p h ru hru (by rw [hru1]; exact hne)
  rw [hru1] at htr
  have hdatalen : ((p.records.take k).flatten ++ (p.records.getD k []).take t).length
      = (p.records.take k).flatten.length + t := by
    rw [List.length_append, List.length_take]
    omega
  have hdec : ∀ ru' ∈ p.recordUpdates.take k, ru'.1 ≠ [] → Decodes ru'.1 ru'.2 :=
    fun ru' hm => InFlightPacket.recordUpdates_decodes p h ru' (List.mem_of_mem_take hm)
  have hfst : (p.recordUpdates.take k).map Prod.fst = p.records.take k := by
    rw [List.map_take, InFlightPacket.recordUpdates_fst]
  obtain ⟨fuel', hf', heq⟩ := InFlightPacket.Unmarshal.loop_records
    ((p.records.take k).flatten ++ (p.records.getD k []).take t) (by omega)
    (p.recordUpdates.take k) hdec
    (((p.records.take k).flatten ++ (p.records.getD k []).take t).length + 1) 0
    InFlightPacket.empty ((p.records.getD k []).take t)
    (by rw [hfst]; rfl) (by omega)
  unfold InFlightPacket.Unmarshal
  rw [heq]
  rw [hfst, Nat.zero_add] at hf' ⊢
  have hd : ((p.records.take k).flatten ++ (p.records.getD k []).take t).drop
      (p.records.take k).flatten.length = (p.records.getD k []).take t := by
    simp
  have hstep := htr t _ (p.records.take k).flatten.length
    (List.foldl (fun m ru => if ru.1 = [] then m else ru.2 m) InFlightPacket.empty
      (p.recordUpdates.take k)) ht0 ht hd (by omega)
  cases fuel' with
  | zero => omega
  | succ f =>
    rw [InFlightPacket.Unmarshal.loop]
    have hlt : (p.records.take k).flatten.length
        < ((p.records.take k).flatten ++ (p.records.getD k []).take t).length := by omega
    simp only [hlt, if_true, hstep]

/-- C20: truncated data is rejected. For every well-formed packet and every proper prefix
of `Marshal(p)` that ends strictly inside the record of a field (after the tag byte,
inside a varint, or inside a length-delimited payload), `Unmarshal` of the prefix returns
the unexpected-end-of-data error `io.ErrUnexpectedEOF`. The prefix is given by the number
`k` of complete records before the cut and the number `t` of bytes of the next record,
`0 < t <` its length. -/
theorem truncated_packet_rejected (p : InFlightPacket) (h : p.WellFormed)
    (k t : Nat) (ht0 : 0 < t) (ht : t < (p.records.getD k []).length) :
    (∃ rest, rest ≠ [] ∧
      p.Marshal = .ok ((p.records.take k).flatten ++ (p.records.getD k []).take t ++ rest)) ∧
    InFlightPacket.empty.Unmarshal
        ((p.records.take k).flatten ++ (p.records.getD k []).take t)
      = .error .ErrUnexpectedEOF := by
  refine ⟨?_, InFlightPacket.Unmarshal_truncated p h k t ht0 ht⟩
  have hne : p.records.getD k [] ≠ [] := by
    intro h0
    rw [h0] at ht
    simp at ht
  obtain ⟨hsplit, _⟩ := getD_split p.records k hne
  refine ⟨(p.records.getD k []).drop t ++ (p.records.drop (k + 1)).flatten, ?_, ?_⟩
  · intro h0
    have := congrArg List.length h0
    simp only [List.length_append, List.length_drop, List.length_nil] at this
    omega
  · rw [InFlightPacket.Marshal_eq_wireLayout p h]
    unfold InFlightPacket.wireLayout
    conv_lhs => rw [hsplit]
    simp only [List.flatten_append, List.flatten_cons, List.append_assoc]
    rw [← List.append_assoc ((p.records.getD k []).take t), List.take_append_drop]

/-- Witness of C20: the example packet cut after 12 bytes, inside the three-byte payload
of field 8 (four complete records, then 3 of the 5 bytes of the PacketData record). -/
theorem truncated_packet_rejected_witness :
    InFlightPacket.empty.Unmarshal
        ((examplePacketA.records.take 7).flatten ++ (examplePacketA.records.getD 7 []).take 3)
      = .error .ErrUnexpectedEOF :=
  (truncated_packet_rejected examplePacketA (by unfold InFlightPacket.WellFormed; decide)
    7 3 (by decide) (by decide)).2

/-! ## Marshalling a genesis state -/

theorem Writes.putMessage (marshal : Bytes → Except Error (Bytes × Nat)) (L : Bytes)
    (hL : L.length < 2 ^ 64)
    (hm : ∀ pre junk : Bytes, junk.length = L.length →
      marshal (pre ++ junk) = .ok (pre ++ L, L.length)) :
    Writes (fun st => putMessage st marshal) (varint L.length ++ L) := by
  intro pre junk post hj
  rw [List.length_append] at hj
  have hsplit : junk = junk.take (varint L.length).length ++ junk.drop (varint L.length).length :=
    (List.take_append_drop _ _).symm
  have hl1 : (junk.take (varint L.length).length).length = (varint L.length).length := by
    rw [List.length_take]; omega
  have hl2 : (junk.drop (varint L.length).length).length = L.length := by
    rw [List.length_drop]; omega
  have htake : (pre ++ junk ++ post).take (pre.length + junk.length) = pre ++ junk := by
    rw [← List.length_append, List.take_left]
  have hdrop : (pre ++ junk ++ post).drop (pre.length + junk.length) = post := by
    rw [← List.length_append, List.drop_left]
  have hmm := hm (pre ++ junk.take (varint L.length).length)
    (junk.drop (varint L.length).length) hl2
  rw [List.append_assoc, List.take_append_drop] at hmm
  have hv := Writes.putVarint L.length hL pre (junk.take (varint L.length).length)
    (L ++ post) hl1
  have hle : L.length ≤ pre.length + junk.length := by omega
  have hsub : pre.length + junk.length - L.length
      = pre.length + (junk.take (varint L.length).length).length := by omega
  simp only [RouterTypes.putMessage, htake, hdrop, hmm, decr]
  show ((if L.length ≤ pre.length + junk.length then
      (.ok (pre.length + junk.length - L.length) : Except Error Nat)
    else .error .indexOutOfRange) >>= fun i =>
      RouterTypes.putVarint (_, i) L.length) = _
  rw [if_pos hle, hsub]
  show RouterTypes.putVarint _ L.length = _
  simp only [List.append_assoc] at hv ⊢
  rw [hv]

theorem Writes.wrap {f : Bytes × Nat → Except Error (Bytes × Nat)} {r : Bytes}
    (hf : Writes f r) (hr : r.length < 2 ^ 64) (tag : UInt8) :
    Writes (fun st => f st >>= fun st' => RouterTypes.putVarint st' (st.2 - st'.2) >>= fun st' =>
      RouterTypes.putByte st' tag) (messageRecord tag r) := by
  intro pre junk post hj
  simp only [messageRecord, List.length_cons, List.length_append] at hj
  have hl2 : (junk.drop (1 + (varint r.length).length)).length = r.length := by
    rw [List.length_drop]; omega
  have hl1 : (junk.take (1 + (varint r.length).length)).length
      = ([tag] ++ varint r.length).length := by
    rw [List.length_take, List.length_append, List.length_singleton]; omega
  have hff := hf (pre ++ junk.take (1 + (varint r.length).length))
    (junk.drop (1 + (varint r.length).length)) post hl2
  rw [List.append_assoc pre, List.take_append_drop, List.length_append, hl2] at hff
  have hlen : pre.length + junk.length
      = pre.length + (junk.take (1 + (varint r.length).length)).length + r.length := by
    rw [List.length_take]; omega
  have hw := Writes.bind (Writes.putVarint r.length hr) (Writes.putByte tag) pre
    (junk.take (1 + (varint r.length).length)) (r ++ post) hl1
  show f _ >>= _ = _
  rw [hlen, hff]
  show (RouterTypes.putVarint _ _ >>= fun st' => RouterTypes.putByte st' tag) = _
  simp only [Nat.add_sub_cancel_left]
  simp only [List.length_append, List.append_assoc, messageRecord, List.singleton_append,
    List.cons_append, List.nil_append] at hw ⊢
  exact hw

theorem messageRecord_length (tag : UInt8) (s : Bytes) :
    (messageRecord tag s).length = 1 + (varint s.length).length + s.length := by
  simp only [messageRecord, List.length_cons, List.length_append]; omega

theorem entryRecord_length (kv : Bytes × InFlightPacket) :
    (entryRecord kv).length
      = 1 + (varint (messageRecord 0x0a kv.1 ++ messageRecord 0x12 kv.2.wireLayout).length).length
        + ((messageRecord 0x0a kv.1).length + (messageRecord 0x12 kv.2.wireLayout).length) := by
  simp only [entryRecord, messageRecord_length, List.length_append]

/-- The body of the map loop writes the record of the entry. -/
theorem Writes.entry (k : Bytes) (v : InFlightPacket) (hv : v.WellFormed)
    (hlen : (entryRecord (k, v)).length < 2 ^ 64) :
    Writes (fun st => GenesisState.MarshalToSizedBuffer.entry st k v) (entryRecord (k, v)) := by
  have hwl : v.wireLayout.length < 2 ^ 64 := by
    have := hv.2.2.2.2.2
    omega
  rw [entryRecord_length] at hlen
  simp only [messageRecord_length] at hlen
  have hk : k.length < 2 ^ 64 := by omega
  have hpay : (messageRecord 0x0a k ++ messageRecord 0x12 v.wireLayout).length < 2 ^ 64 := by
    simp only [messageRecord_length, List.length_append]; omega
  have hinner :=
    Writes.bind (Writes.putMessage v.MarshalToSizedBuffer v.wireLayout hwl
        (fun pre junk hj => InFlightPacket.MarshalToSizedBuffer_append v hv pre junk hj))
    (Writes.bind (Writes.putByte 0x12)
    (Writes.bind (Writes.putBytes k)
    (Writes.bind (Writes.putVarint k.length hk) (Writes.putByte 0xa))))
  have heq : ((([0xa] ++ varint k.length) ++ k) ++ [0x12]) ++ (varint v.wireLayout.length ++ v.wireLayout)
      = messageRecord 0x0a k ++ messageRecord 0x12 v.wireLayout := by
    simp [messageRecord]
  rw [heq] at hinner
  exact Writes.wrap hinner hpay 0x12

/-- The map loop writes the records of the entries, the entry enumerated last first. -/
theorem Writes.entries (l : List (Bytes × InFlightPacket))
    (hv : ∀ kv ∈ l, kv.2.WellFormed)
    (hlen : ((l.reverse.map entryRecord).flatten).length < 2 ^ 64) :
    Writes (GenesisState.MarshalToSizedBuffer.entries l)
      ((l.reverse.map entryRecord).flatten) := by
  induction l with
  | nil =>
    intro pre junk post hj
    have := Writes.skip pre junk post (by simpa using hj)
    simpa [GenesisState.MarshalToSizedBuffer.entries] using this
  | cons kv rest ih =>
    obtain ⟨k, v⟩ := kv
    have hflat : (((k, v) :: rest).reverse.map entryRecord).flatten
        = (rest.reverse.map entryRecord).flatten ++ entryRecord (k, v) := by
      simp
    rw [hflat] at hlen ⊢
    rw [List.length_append] at hlen
    have h1 := Writes.entry k v (hv (k, v) (List.mem_cons_self _ _)) (by omega)
    have h2 := ih (fun kv hkv => hv kv (List.mem_cons_of_mem _ hkv)) (by omega)
    exact Writes.bind h1 h2

/-- With a decimal that marshals to `fee`, the first statements of
`Params.MarshalToSizedBuffer` are the copy of `fee` in front of the index. -/
theorem Params.MarshalToSizedBuffer.fields_eq {codec : DecCodec} (m : Params codec) (fee : Bytes)
    (hfee : codec.MarshalTo m.FeePercentage = .ok fee)
    (hsize : fee.length = codec.Size m.FeePercentage)
    (st : Bytes × Nat) (hst : st.2 ≤ st.1.length) :
    Params.MarshalToSizedBuffer.fields m st
      = (putBytes st fee >>= fun st => putVarint st fee.length >>= fun st => putByte st 0xa) := by
  unfold Params.MarshalToSizedBuffer.fields putBytes decr
  rw [hfee, ← hsize]
  by_cases h : fee.length ≤ st.2
  · have h2 : fee.length ≤ st.1.length - (st.2 - fee.length) := by omega
    have h3 : st.2 - fee.length ≤ st.1.length := by omega
    simp only [h, if_true, copyAt, h3]
    show ((if fee.length ≤ st.1.length - (st.2 - fee.length) then
        (if st.2 - fee.length ≤ st.1.length then (Except.ok _ : Except Error Bytes) else _)
      else _) >>= _) = _
    rw [if_pos h2, if_pos h3]
    rfl
  · simp only [h, if_false]
    rfl

theorem Writes.paramsFields {codec : DecCodec} (m : Params codec) (fee : Bytes)
    (hfee : codec.MarshalTo m.FeePercentage = .ok fee)
    (hsize : fee.length = codec.Size m.FeePercentage) (hlen : fee.length < 2 ^ 64) :
    Writes (Params.MarshalToSizedBuffer.fields m) (messageRecord 0x0a fee) := by
  intro pre junk post hj
  rw [Params.MarshalToSizedBuffer.fields_eq m fee hfee hsize _
    (by simp only [List.length_append]; omega)]
  have hb := Writes.bind (Writes.putBytes fee)
    (Writes.bind (Writes.putVarint fee.length hlen) (Writes.putByte 0xa))
  have := hb pre junk post (by simpa [messageRecord] using hj)
  simp only [List.append_assoc, List.singleton_append, List.cons_append,
    List.nil_append, messageRecord] at this ⊢
  exact this

/-- Function `Params.MarshalToSizedBuffer` on a buffer with room for the record writes the record
into the end of the buffer and returns its length. -/
theorem Params.MarshalToSizedBuffer_params_append {codec : DecCodec} (m : Params codec) (fee : Bytes)
    (hfee : codec.MarshalTo m.FeePercentage = .ok fee)
    (hsize : fee.length = codec.Size m.FeePercentage) (hlen : fee.length < 2 ^ 64)
    (pre junk : Bytes) (hj : junk.length = (messageRecord 0x0a fee).length) :
    m.MarshalToSizedBuffer (pre ++ junk)
      = .ok (pre ++ messageRecord 0x0a fee, (messageRecord 0x0a fee).length) := by
  have hw := Writes.paramsFields m fee hfee hsize hlen pre junk [] hj
  simp only [List.append_nil] at hw
  unfold Params.MarshalToSizedBuffer
  rw [List.length_append, hw]
  simp only [hj]
  congr 2
  omega

theorem entries_flatten_length (l : List (Bytes × InFlightPacket)) :
    ((l.reverse.map entryRecord).flatten).length
      = (l.map (fun kv => (entryRecord kv).length)).sum := by
  induction l with
  | nil => rfl
  | cons kv rest ih =>
    simp only [List.reverse_cons, List.map_append, List.flatten_append, List.length_append,
      List.map_cons, List.map_nil, List.flatten_cons, List.flatten_nil, List.append_nil,
      List.sum_cons, ih]
    omega

theorem mapEntrySize_eq (k : Bytes) (v : InFlightPacket) (hv : v.WellFormed)
    (hlen : (entryRecord (k, v)).length < 2 ^ 64) :
    mapEntrySize k v = (entryRecord (k, v)).length := by
  rw [entryRecord_length] at hlen ⊢
  simp only [messageRecord_length, List.length_append] at hlen ⊢
  simp only [mapEntrySize, InFlightPacket.Size_eq_length v hv]
  rw [sovGenesis_eq_length k.length (by omega),
    sovGenesis_eq_length v.wireLayout.length (by omega)]
  have e : 1 + k.length + (varint k.length).length + 1 + v.wireLayout.length
        + (varint v.wireLayout.length).length
      = 1 + (varint k.length).length + k.length
        + (1 + (varint v.wireLayout.length).length + v.wireLayout.length) := by omega
  rw [e, sovGenesis_eq_length _ (by omega)]
  omega

theorem mapEntrySize_sum (l : List (Bytes × InFlightPacket))
    (hv : ∀ kv ∈ l, kv.2.WellFormed)
    (hlen : ((l.reverse.map entryRecord).flatten).length < 2 ^ 64) :
    (l.map (fun kv => mapEntrySize kv.1 kv.2)).sum
      = ((l.reverse.map entryRecord).flatten).length := by
  rw [entries_flatten_length] at hlen ⊢
  induction l with
  | nil => rfl
  | cons kv rest ih =>
    obtain ⟨k, v⟩ := kv
    simp only [List.map_cons, List.sum_cons] at hlen ⊢
    rw [ih (fun kv hkv => hv kv (List.mem_cons_of_mem _ hkv)) (by omega),
      mapEntrySize_eq k v (hv (k, v) (List.mem_cons_self _ _)) (by omega)]

theorem genesisLayout_length (fee : Bytes) (l : List (Bytes × InFlightPacket)) :
    (genesisLayout fee l).length
      = 1 + (varint (messageRecord 0x0a fee).length).length + (messageRecord 0x0a fee).length
        + ((l.reverse.map entryRecord).flatten).length := by
  simp only [genesisLayout, List.length_append, messageRecord_length]

theorem GenesisState.Size_eq_layout_length {codec : DecCodec} (m : GenesisState codec) (fee : Bytes)
    (hsize : fee.length = codec.Size m.Params.FeePercentage) (h : m.WellFormed fee) :
    m.Size = (genesisLayout fee m.InFlightPackets).length := by
  obtain ⟨hv, hlen⟩ := h
  rw [genesisLayout_length] at hlen ⊢
  simp only [messageRecord_length] at hlen ⊢
  simp only [GenesisState.Size, Params.Size, ← hsize]
  rw [mapEntrySize_sum _ hv (by omega), sovGenesis_eq_length fee.length (by omega)]
  have e : 1 + fee.length + (varint fee.length).length
      = 1 + (varint fee.length).length + fee.length := by omega
  rw [e, sovGenesis_eq_length _ (by omega)]
  omega

/-- The statements of `GenesisState.MarshalToSizedBuffer` write the layout. -/
theorem GenesisState.MarshalToSizedBuffer.fields_writes_layout {codec : DecCodec}
    (m : GenesisState codec) (fee : Bytes)
    (hfee : codec.MarshalTo m.Params.FeePercentage = .ok fee)
    (hsize : fee.length = codec.Size m.Params.FeePercentage) (h : m.WellFormed fee) :
    Writes (GenesisState.MarshalToSizedBuffer.fields m) (genesisLayout fee m.InFlightPackets) := by
  obtain ⟨hv, hlen⟩ := h
  have hlen2 := hlen
  rw [genesisLayout_length] at hlen2
  simp only [messageRecord_length] at hlen2
  have hw :=
    Writes.bind (Writes.entries m.InFlightPackets hv (by omega))
    (Writes.bind (Writes.putMessage m.Params.MarshalToSizedBuffer (messageRecord 0x0a fee)
        (by rw [messageRecord_length]; omega)
        (fun pre junk hj =>
          Params.MarshalToSizedBuffer_params_append m.Params fee hfee hsize (by omega) pre junk hj))
      (Writes.putByte 0xa))
  have heq : ([0xa] ++ (varint (messageRecord 0x0a fee).length ++ messageRecord 0x0a fee))
        ++ (m.InFlightPackets.reverse.map entryRecord).flatten
      = genesisLayout fee m.InFlightPackets := by
    simp [genesisLayout, messageRecord]
  rw [heq] at hw
  exact hw

theorem GenesisState.MarshalToSizedBuffer_genesis_append {codec : DecCodec}
    (m : GenesisState codec) (fee : Bytes)
    (hfee : codec.MarshalTo m.Params.FeePercentage = .ok fee)
    (hsize : fee.length = codec.Size m.Params.FeePercentage) (h : m.WellFormed fee)
    (pre junk : Bytes) (hj : junk.length = (genesisLayout fee m.InFlightPackets).length) :
    m.MarshalToSizedBuffer (pre ++ junk)
      = .ok (pre ++ genesisLayout fee m.InFlightPackets,
          (genesisLayout fee m.InFlightPackets).length) := by
  have hw := GenesisState.MarshalToSizedBuffer.fields_writes_layout m fee hfee hsize h pre junk [] hj
  simp only [List.append_nil] at hw
  unfold GenesisState.MarshalToSizedBuffer
  rw [List.length_append, hw]
  simp only [hj]
  congr 2
  omega

/-- Function `Marshal` of a well-formed genesis state returns its wire layout. -/
theorem GenesisState.Marshal_eq_layout {codec : DecCodec}
    (m : GenesisState codec) (fee : Bytes)
    (hfee : codec.MarshalTo m.Params.FeePercentage = .ok fee)
    (hsize : fee.length = codec.Size m.Params.FeePercentage) (h : m.WellFormed fee) :
    m.Marshal = .ok (genesisLayout fee m.InFlightPackets) := by
  unfold GenesisState.Marshal
  simp only
  have hs := GenesisState.Size_eq_layout_length m fee hsize h
  have htake : List.take m.Size (List.replicate m.Size (0 : UInt8))
      = [] ++ List.replicate m.Size 0 := by
    simp
  rw [htake, GenesisState.MarshalToSizedBuffer_genesis_append m fee hfee hsize h [] _ (by simp [hs])]
  simp

/-! ## Decoding a genesis state -/

/-- What the decoder reads after the tag of a record that is always written. -/
theorem readLengthDelimited_message (data : Bytes) (i : Nat) (tag : UInt8) (s post : Bytes)
    (hd : data.drop i = messageRecord tag s ++ post) (hlen : data.length < 2 ^ 63) :
    readLengthDelimited data (i + 1) = .ok (s, i + (messageRecord tag s).length) := by
  simp only [messageRecord, List.cons_append, List.append_assoc] at hd
  have hd1 := drop_succ_of_drop hd
  have hr := readLengthDelimited_spec data (i + 1) s post hd1 hlen
  rw [hr, messageRecord_length]
  congr 2
  omega

theorem messageRecord_ne_nil (tag : UInt8) (s : Bytes) : messageRecord tag s ≠ [] := by
  simp [messageRecord]

theorem Params.Unmarshal.loop_end {codec : DecCodec} (data : Bytes) (fuel : Nat)
    (hf : 0 < fuel) (m : Params codec) :
    Params.Unmarshal.loop data fuel data.length m = .ok m := by
  cases fuel with
  | zero => omega
  | succ f => simp [Params.Unmarshal.loop]

/-- Decoding the record of the fee percentage gives the decimal its own decoder gives. -/
theorem Params.Unmarshal_record {codec : DecCodec} (m : Params codec) (fee : Bytes)
    (d : codec.Dec) (hu : codec.Unmarshal m.FeePercentage fee = .ok d)
    (hlen : (messageRecord 0x0a fee).length < 2 ^ 63) :
    m.Unmarshal (messageRecord 0x0a fee) = .ok ⟨d⟩ := by
  have hd : (messageRecord 0x0a fee).drop 0 = messageRecord 0x0a fee ++ [] := by simp
  have hr := readLengthDelimited_message _ 0 0x0a fee [] hd hlen
  have hd0 : (messageRecord 0x0a fee).drop 0 = 0x0a :: (varint fee.length ++ fee) := by
    simp [messageRecord]
  have ht := readVarint_tag _ 0 0x0a _ 10 hd0 (by decide) (by decide)
  have hw : (10 &&& 0x7 : Nat) = 2 := by decide
  have hf : int32OfNat (10 >>> 3) = 1 := by decide
  have hpos : 0 < (messageRecord 0x0a fee).length := by rw [messageRecord_length]; omega
  have hstep : Params.Unmarshal.step (messageRecord 0x0a fee) 0 m
      = .ok ((messageRecord 0x0a fee).length, ⟨d⟩) := by
    simp only [Params.Unmarshal.step, ht, hw, hf, readBytesField, hr, hu]
    simp [hu]
  unfold Params.Unmarshal
  rw [Params.Unmarshal.loop]
  simp only [hpos, if_true, hstep]
  exact Params.Unmarshal.loop_end _ _ hpos _

/-- The loop over the fields of a map entry, started at the payload of an entry record,
returns the key and the packet. -/
theorem GenesisState.Unmarshal.entry_payload (data : Bytes) (i : Nat) (k : Bytes)
    (v : InFlightPacket) (post : Bytes) (hv : v.WellFormed)
    (hd : data.drop i = (messageRecord 0x0a k ++ messageRecord 0x12 v.wireLayout) ++ post)
    (hlen : data.length < 2 ^ 63) (fuel : Nat) (hfuel : 3 ≤ fuel) (k0 : Bytes)
    (v0 : InFlightPacket) :
    GenesisState.Unmarshal.entry data
      (i + (messageRecord 0x0a k ++ messageRecord 0x12 v.wireLayout).length) fuel i k0 v0
      = .ok (k, v) := by
  obtain ⟨f, rfl⟩ : ∃ f, fuel = f + 3 := ⟨fuel - 3, by omega⟩
  rw [List.append_assoc] at hd
  have hd2 := drop_add_of_drop hd
  have hr1 := readLengthDelimited_message data i 0x0a k _ hd hlen
  have hr2 := readLengthDelimited_message data _ 0x12 v.wireLayout post hd2 hlen
  have hda : data.drop i
      = 0x0a :: (varint k.length ++ k ++ (messageRecord 0x12 v.wireLayout ++ post)) := by
    rw [hd]; simp [messageRecord]
  have hdb : data.drop (i + (messageRecord 0x0a k).length)
      = 0x12 :: (varint v.wireLayout.length ++ v.wireLayout ++ post) := by
    rw [hd2]; simp [messageRecord]
  have ht1 := readVarint_tag data i 0x0a _ 10 hda (by decide) (by decide)
  have ht2 := readVarint_tag data _ 0x12 _ 18 hdb (by decide) (by decide)
  have hf1 : int32OfNat (10 >>> 3) = 1 := by decide
  have hf2 : int32OfNat (18 >>> 3) = 2 := by decide
  have hl1 : 0 < (messageRecord 0x0a k).length := by rw [messageRecord_length]; omega
  have hl2 : 0 < (messageRecord 0x12 v.wireLayout).length := by
    rw [messageRecord_length]; omega
  have hlt1 : i < i + (messageRecord 0x0a k ++ messageRecord 0x12 v.wireLayout).length := by
    rw [List.length_append]; omega
  have hlt2 : i + (messageRecord 0x0a k).length
      < i + (messageRecord 0x0a k ++ messageRecord 0x12 v.wireLayout).length := by
    rw [List.length_append]; omega
  have hlt3 : ¬ (i + (messageRecord 0x0a k).length + (messageRecord 0x12 v.wireLayout).length
      < i + (messageRecord 0x0a k ++ messageRecord 0x12 v.wireLayout).length) := by
    rw [List.length_append]; omega
  have hu := InFlightPacket.Unmarshal_wireLayout v hv
  have h21 : ¬ ((2 : Int) = 1) := by decide
  rw [GenesisState.Unmarshal.entry]
  simp only [hlt1, if_true, ht1, hf1, hr1]
  rw [GenesisState.Unmarshal.entry]
  simp only [hlt2, if_true, ht2, hf2, h21, if_false, hr2, hu]
  rw [GenesisState.Unmarshal.entry]
  simp only [hlt3, if_false]

/-- One iteration of the genesis decoder, started at an entry record, assigns the packet
to the key in the map. -/
theorem GenesisState.Unmarshal.step_entry {codec : DecCodec} (data : Bytes) (i : Nat)
    (m : GenesisState codec) (k : Bytes) (v : InFlightPacket) (post : Bytes)
    (hv : v.WellFormed) (hd : data.drop i = entryRecord (k, v) ++ post)
    (hlen : data.length < 2 ^ 63) :
    GenesisState.Unmarshal.step data i m
      = .ok (i + (entryRecord (k, v)).length,
          { m with InFlightPackets := mapSet m.InFlightPackets k v }) := by
  have htot := length_ge_of_drop hd (by simp [entryRecord, messageRecord])
  have hel := entryRecord_length (k, v)
  have hl1 : 0 < (messageRecord 0x0a k).length := by rw [messageRecord_length]; omega
  have hl2 : 0 < (messageRecord 0x12 v.wireLayout).length := by
    rw [messageRecord_length]; omega
  have hda : data.drop i
      = 0x12 :: (varint (messageRecord 0x0a k ++ messageRecord 0x12 v.wireLayout).length
          ++ ((messageRecord 0x0a k ++ messageRecord 0x12 v.wireLayout) ++ post)) := by
    rw [hd]; simp [entryRecord, messageRecord]
  have ht := readVarint_tag data i 0x12 _ 18 hda (by decide) (by decide)
  have hd1 := drop_succ_of_drop hda
  have hrl := readLength_spec data (i + 1) _ _ hd1 (by simp) hlen
  have hd2 := drop_add_of_drop hd1
  have hen := GenesisState.Unmarshal.entry_payload data _ k v post hv hd2 hlen
    (data.length + 1) (by simp only [List.length_append] at hel; omega) [] InFlightPacket.empty
  have hw : (18 &&& 0x7 : Nat) = 2 := by decide
  have hf : int32OfNat (18 >>> 3) = 2 := by decide
  simp only [GenesisState.Unmarshal.step, ht, hw, hf, hrl, hen]
  simp only [List.length_append] at hel ⊢
  simp
  omega

theorem entryRecord_ne_nil (kv : Bytes × InFlightPacket) : entryRecord kv ≠ [] := by
  simp [entryRecord, messageRecord]

/-- The genesis decoder loop over a sequence of entry records assigns the entries to the
map in the order of the records. -/
theorem GenesisState.Unmarshal.loop_entries {codec : DecCodec} (data : Bytes)
    (hlen : data.length < 2 ^ 63) :
    ∀ (es : List (Bytes × InFlightPacket)), (∀ kv ∈ es, kv.2.WellFormed) →
      ∀ (fuel i : Nat) (m : GenesisState codec),
        data.drop i = (es.map entryRecord).flatten → i ≤ data.length →
        data.length - i < fuel →
        GenesisState.Unmarshal.loop data fuel i m
          = .ok ⟨m.Params, es.foldl (fun acc kv => mapSet acc kv.1 kv.2) m.InFlightPackets⟩ := by
  intro es
  induction es with
  | nil =>
    intro _ fuel i m hd hi hfuel
    have hl := congrArg List.length hd
    simp only [List.length_drop, List.map_nil, List.flatten_nil, List.length_nil] at hl
    have hge : ¬ i < data.length := by omega
    have hgt : ¬ i > data.length := by omega
    cases fuel with
    | zero => omega
    | succ f =>
      rw [GenesisState.Unmarshal.loop]
      simp only [hge, hgt, if_false, List.foldl_nil]
  | cons kv rest ih =>
    intro hv fuel i m hd hi hfuel
    obtain ⟨k, v⟩ := kv
    simp only [List.map_cons, List.flatten_cons] at hd
    have htot := length_ge_of_drop hd (entryRecord_ne_nil _)
    have hpos : 0 < (entryRecord (k, v)).length :=
      List.length_pos.mpr (entryRecord_ne_nil _)
    have hstep := GenesisState.Unmarshal.step_entry data i m k v _
      (hv (k, v) (List.mem_cons_self _ _)) hd hlen
    have hd' := drop_add_of_drop hd
    have hlt : i < data.length := by omega
    cases fuel with
    | zero => omega
    | succ f =>
      have hrec := ih (fun kv hkv => hv kv (List.mem_cons_of_mem _ hkv)) f
        (i + (entryRecord (k, v)).length)
        { m with InFlightPackets := mapSet m.InFlightPackets k v } hd' (by omega) (by omega)
      rw [GenesisState.Unmarshal.loop]
      simp only [hlt, if_true, hstep]
      rw [hrec]
      simp only [List.foldl_cons]

/-- Decoding the wire layout of a genesis state: the Params are the decoded decimal, the
map is built by assigning the entries in the order of their records. -/
theorem GenesisState.Unmarshal_layout {codec : DecCodec} (m0 : GenesisState codec)
    (fee : Bytes) (d : codec.Dec) (l : List (Bytes × InFlightPacket))
    (hu : codec.Unmarshal m0.Params.FeePercentage fee = .ok d)
    (hv : ∀ kv ∈ l, kv.2.WellFormed) (hlen : (genesisLayout fee l).length < 2 ^ 63) :
    m0.Unmarshal (genesisLayout fee l)
      = .ok ⟨⟨d⟩, l.reverse.foldl (fun acc kv => mapSet acc kv.1 kv.2) m0.InFlightPackets⟩ := by
  have hgl := genesisLayout_length fee l
  have hd : (genesisLayout fee l).drop 0
      = messageRecord 0x0a (messageRecord 0x0a fee) ++ (l.reverse.map entryRecord).flatten := by
    simp [genesisLayout]
  have hr := readLengthDelimited_message _ 0 0x0a (messageRecord 0x0a fee) _ hd hlen
  have hd0 : (genesisLayout fee l).drop 0
      = 0x0a :: (varint (messageRecord 0x0a fee).length ++ messageRecord 0x0a fee
          ++ (l.reverse.map entryRecord).flatten) := by
    simp [genesisLayout, messageRecord]
  have ht := readVarint_tag _ 0 0x0a _ 10 hd0 (by decide) (by decide)
  have hw : (10 &&& 0x7 : Nat) = 2 := by decide
  have hf : int32OfNat (10 >>> 3) = 1 := by decide
  have hp := Params.Unmarshal_record m0.Params fee d hu (by omega)
  have hstep : GenesisState.Unmarshal.step (genesisLayout fee l) 0 m0
      = .ok (0 + (messageRecord 0x0a (messageRecord 0x0a fee)).length,
          { m0 with Params := ⟨d⟩ }) := by
    simp only [GenesisState.Unmarshal.step, ht, hw, hf, readBytesField, hr, hp]
    simp [hr, hp]
  have hd' := drop_add_of_drop hd
  have hpos : 0 < (genesisLayout fee l).length := by omega
  have hrec := GenesisState.Unmarshal.loop_entries (genesisLayout fee l) hlen l.reverse
    (fun kv hkv => hv kv (List.mem_reverse.mp hkv)) (genesisLayout fee l).length
    (0 + (messageRecord 0x0a (messageRecord 0x0a fee)).length)
    { m0 with Params := ⟨d⟩ } hd'
    (by rw [messageRecord_length]; omega) (by rw [messageRecord_length]; omega)
  unfold GenesisState.Unmarshal
  rw [GenesisState.Unmarshal.loop]
  simp only [hpos, if_true, hstep]
  rw [hrec]

theorem mapGet_mapSet (m : List (Bytes × InFlightPacket)) (key : Bytes) (value : InFlightPacket)
    (key' : Bytes) :
    mapGet (mapSet m key value) key' = if key = key' then some value else mapGet m key' := by
  induction m with
  | nil => simp [mapSet, mapGet]
  | cons kv rest ih =>
    obtain ⟨k, v⟩ := kv
    by_cases hk : k = key
    · subst hk
      by_cases hk' : k = key'
      · simp [mapSet, mapGet, hk']
      · simp [mapSet, mapGet, hk']
    · by_cases hk' : k = key'
      · subst hk'
        have : ¬ key = k := fun h => hk h.symm
        simp [mapSet, mapGet, hk, this]
      · simp [mapSet, mapGet, hk, hk', ih]

/-- Assigning the pairs of a list to the empty map, last pair first, gives a map in which
every key has the packet of its first pair in the list. -/
theorem mapGet_foldl_reverse (l : List (Bytes × InFlightPacket)) (key : Bytes) :
    mapGet (l.reverse.foldl (fun acc kv => mapSet acc kv.1 kv.2) []) key = mapGet l key := by
  induction l with
  | nil => rfl
  | cons kv rest ih =>
    obtain ⟨k, v⟩ := kv
    simp only [List.reverse_cons, List.foldl_append, List.foldl_cons, List.foldl_nil]
    rw [mapGet_mapSet, ih]
    simp [mapGet]

theorem exampleCodec_roundTrips : exampleCodec.RoundTrips := by
  intro d
  exact ⟨[d], rfl, rfl, fun _ => rfl⟩

set_option maxRecDepth 100000 in
theorem exampleGenesisA_wellFormed : exampleGenesisA.WellFormed [7] := by
  refine ⟨?_, by decide⟩
  intro kv hkv
  simp only [exampleGenesisA, List.mem_cons, List.mem_singleton, List.mem_nil_iff,
    or_false] at hkv
  rcases hkv with rfl | rfl <;> (unfold InFlightPacket.WellFormed; decide)

/-! ## Round trip and byte order of a genesis state -/

/-- C17: GenesisState round trip. Assuming the fee-percentage decimal type round-trips
through its own `MarshalTo` and `Unmarshal`, for every genesis state whose packets are
values of their Go types (any Params, any map from string keys, the empty key included,
to packets, the all-default packet included), `Marshal` succeeds, and `Unmarshal` of its
result into an empty genesis state succeeds and yields the same Params and a map in which
every key has the packet it has in the original map and no other key is present. -/
theorem genesis_state_round_trip {codec : DecCodec} (hc : codec.RoundTrips)
    (g : GenesisState codec) (fee : Bytes)
    (hfee : codec.MarshalTo g.Params.FeePercentage = .ok fee)
    (hwf : g.WellFormed fee) (d0 : codec.Dec) :
    ∃ bz g', g.Marshal = .ok bz ∧
      GenesisState.Unmarshal ⟨⟨d0⟩, []⟩ bz = .ok g' ∧
      g'.Params = g.Params ∧
      ∀ key, mapGet g'.InFlightPackets key = mapGet g.InFlightPackets key := by
  obtain ⟨bz, hm, hsz, hun⟩ := hc g.Params.FeePercentage
  have hb : bz = fee := by
    rw [hm] at hfee
    exact Except.ok.inj hfee
  subst hb
  exact ⟨genesisLayout bz g.InFlightPackets, _,
    GenesisState.Marshal_eq_layout g bz hm hsz hwf,
    GenesisState.Unmarshal_layout ⟨⟨d0⟩, []⟩ bz g.Params.FeePercentage g.InFlightPackets
      (hun d0) hwf.1 hwf.2,
    rfl, fun key => mapGet_foldl_reverse g.InFlightPackets key⟩

/-- Witness of C17: the example genesis state, with the empty key and the all-default
packet in its map, round-trips. -/
theorem genesis_state_round_trip_witness :
    ∃ bz g', exampleGenesisA.Marshal = .ok bz ∧
      GenesisState.Unmarshal (⟨⟨(0 : UInt8)⟩, []⟩ : GenesisState exampleCodec) bz = .ok g' ∧
      g'.Params = exampleGenesisA.Params ∧
      ∀ key, mapGet g'.InFlightPackets key = mapGet exampleGenesisA.InFlightPackets key :=
  genesis_state_round_trip exampleCodec_roundTrips exampleGenesisA [7] rfl
    exampleGenesisA_wellFormed (0 : UInt8)

set_option maxRecDepth 100000 in
/-- Counterexample to C19 as stated: two genesis states with equal Params and the same
packet for every key, whose maps are enumerated in different orders, marshal to different
byte strings. -/
theorem genesis_marshal_order_counterexample :
    exampleGenesisA.Params = exampleGenesisB.Params ∧
    (∀ key, mapGet exampleGenesisA.InFlightPackets key
      = mapGet exampleGenesisB.InFlightPackets key) ∧
    exampleGenesisA.Marshal ≠ exampleGenesisB.Marshal := by
  refine ⟨rfl, ?_, by decide⟩
  intro key
  by_cases h1 : ([0x6b] : Bytes) = key
  · subst h1
    simp [mapGet, exampleGenesisA, exampleGenesisB]
  · by_cases h2 : ([] : Bytes) = key
    · subst h2
      simp [mapGet, exampleGenesisA, exampleGenesisB]
    · simp [mapGet, exampleGenesisA, exampleGenesisB, h1, h2]

/-- C19 (amended): `GenesisState.Marshal` enumerates the map in the order `range` yields
it, without sorting, and writes the entries back to front: the output is the Params record
followed by the entry records in reverse order of enumeration. The bytes are a function of
the Params and the enumeration sequence: two genesis states with equal Params and the same
enumeration sequence marshal to identical byte strings. -/
theorem genesis_marshal_follows_enumeration {codec : DecCodec} (g : GenesisState codec)
    (fee : Bytes) (hfee : codec.MarshalTo g.Params.FeePercentage = .ok fee)
    (hsize : fee.length = codec.Size g.Params.FeePercentage) (hwf : g.WellFormed fee) :
    g.Marshal = .ok (messageRecord 0x0a (messageRecord 0x0a fee)
      ++ (g.InFlightPackets.reverse.map entryRecord).flatten) ∧
    ∀ g2 : GenesisState codec, g2.Params = g.Params →
      g2.InFlightPackets = g.InFlightPackets → g2.Marshal = g.Marshal := by
  refine ⟨GenesisState.Marshal_eq_layout g fee hfee hsize hwf, ?_⟩
  intro g2 hp hm
  cases g2
  cases g
  simp only at hp hm
  rw [hp, hm]

set_option maxRecDepth 100000 in
/-- Witness of C19 (amended): the bytes of the example genesis state, the entry of the
empty key, enumerated last, before the entry of the key `k`. -/
theorem genesis_marshal_follows_enumeration_witness :
    exampleGenesisA.Marshal = .ok
      ([0x0a, 3, 0x0a, 1, 7] ++ [0x12, 4, 0x0a, 0, 0x12, 0] ++
        ([0x12, 35, 0x0a, 1, 0x6b, 0x12, 30] ++
          [0x0a, 2, 0x61, 0x62, 0x1a, 1, 0x63, 0x30, 0xac, 0x02, 0x42, 3, 1, 2, 3,
           0x50, 0xff, 0xff, 0xff, 0xff, 0xff, 0xff, 0xff, 0xff, 0xff, 0x01, 0x58, 1,
           0x60, 1])) :=
  (genesis_marshal_follows_enumeration exampleGenesisA [7] rfl rfl
    exampleGenesisA_wellFormed).1.trans (by decide)

/-! ## Size and the varint helpers -/

/-- C25: `Size` agrees with `Marshal`. For every packet whose fields are values of their Go
types, `MarshalToSizedBuffer` on a buffer of exactly `Size` bytes succeeds (no index goes
below 0), returns `n = Size` and a buffer of the same length, and `Marshal` returns
`Size` bytes. -/
theorem size_agrees_with_marshal (p : InFlightPacket) (h : p.WellFormed) (buf : Bytes)
    (hb : buf.length = p.Size) :
    (∃ out, p.MarshalToSizedBuffer buf = .ok (out, p.Size) ∧ out.length = p.Size) ∧
    ∃ bz, p.Marshal = .ok bz ∧ bz.length = p.Size := by
  have hs := InFlightPacket.Size_eq_length p h
  have hm := InFlightPacket.MarshalToSizedBuffer_append p h [] buf (by rw [hb, hs])
  simp only [List.nil_append] at hm
  refine ⟨⟨p.wireLayout, ?_, hs.symm⟩, p.wireLayout, InFlightPacket.Marshal_eq_wireLayout p h,
    hs.symm⟩
  rw [hm, hs]

/-- Witness of C25: the example packet and a buffer of 30 zero bytes. -/
theorem size_agrees_with_marshal_witness :
    (∃ out, examplePacketA.MarshalToSizedBuffer (List.replicate 30 0)
        = .ok (out, examplePacketA.Size) ∧ out.length = examplePacketA.Size) ∧
    ∃ bz, examplePacketA.Marshal = .ok bz ∧ bz.length = examplePacketA.Size :=
  size_agrees_with_marshal examplePacketA (by unfold InFlightPacket.WellFormed; decide)
    (List.replicate 30 0) (by decide)

/-- For a 64-bit value `Len64` is the bit length. -/
theorem Len64_eq_size (v : Nat) (hv : v < 2 ^ 64) : Len64 v = Nat.size v := by
  apply Nat.le_antisymm
  · exact (bitLen_le_iff 64 v _ hv).mpr (Nat.lt_size_self v)
  · exact Nat.size_le.mpr ((bitLen_le_iff 64 v _ hv).mp (Nat.le_refl _))

theorem Len64_lor_one (v : Nat) (hv : v < 2 ^ 64) (h1 : 1 ≤ v) : Len64 (v ||| 1) = Len64 v := by
  have hor : v ||| 1 < 2 ^ 64 := by
    rw [lor_one]
    split <;> omega
  have key : ∀ k, v ||| 1 < 2 ^ k ↔ v < 2 ^ k := by
    intro k
    rw [lor_one]
    split
    · next he =>
      cases k with
      | zero => simp; omega
      | succ k =>
        rw [Nat.pow_succ]
        omega
    · exact Iff.rfl
  apply Nat.le_antisymm
  · exact (bitLen_le_iff 64 _ _ hor).mpr ((key _).mpr ((bitLen_le_iff 64 v _ hv).mp (Nat.le_refl _)))
  · exact (bitLen_le_iff 64 v _ hv).mpr ((key _).mp ((bitLen_le_iff 64 _ _ hor).mp (Nat.le_refl _)))

/-- The bytes of a varint: every byte but the last has the continuation bit set. -/
theorem varintBytes_continuation (f : Nat) :
    ∀ v, v < 2 ^ (7 * (f + 1)) →
      ∃ init last, varintBytes (f + 1) v = init ++ [last] ∧
        (∀ b ∈ init, 0x80 ≤ b.toNat) ∧ last.toNat < 0x80 := by
  induction f with
  | zero =>
    intro v hv
    have hv' : v < 128 := by simpa using hv
    refine ⟨[], UInt8.ofNat v, ?_, by simp, ?_⟩
    · simp [varintBytes, hv']
    · rw [toNat_ofNat_lt v (by omega)]
      exact hv'
  | succ f ih =>
    intro v hv
    by_cases h : v < 128
    · refine ⟨[], UInt8.ofNat v, ?_, by simp, ?_⟩
      · rw [varintBytes]
        simp [h]
      · rw [toNat_ofNat_lt v (by omega)]
        exact h
    · have hv2 : v / 128 < 2 ^ (7 * (f + 1)) := by
        have : (2 : Nat) ^ (7 * (f + 1 + 1)) = 2 ^ (7 * (f + 1)) * 128 := by
          rw [show 7 * (f + 1 + 1) = 7 * (f + 1) + 7 by ring, Nat.pow_add]
        rw [this] at hv
        exact Nat.div_lt_of_lt_mul (by rw [Nat.mul_comm]; exact hv)
      obtain ⟨init, last, he, hi, hl⟩ := ih (v / 128) hv2
      refine ⟨UInt8.ofNat (v % 128 + 128) :: init, last, ?_, ?_, hl⟩
      · rw [varintBytes]
        simp only [h, if_false, he, List.cons_append]
      · intro b hb
        rcases List.mem_cons.mp hb with rfl | hb
        · rw [toNat_ofNat_lt _ (by omega)]
          omega
        · exact hi b hb

theorem sovGenesis_small (v : Nat) (h : v < 128) : sovGenesis v = 1 := by
  have h1 := sovGenesis_pos v
  have h2 := (sovGenesis_le_iff v 1 (by omega) (by decide)).mpr (by simpa using h)
  omega

theorem sovGenesis_eq_ceil (v : Nat) (hv : v < 2 ^ 64) (h : 1 ≤ v) :
    sovGenesis v = (Nat.size v + 6) / 7 := by
  unfold sovGenesis
  rw [Len64_lor_one v hv h, Len64_eq_size v hv]

/-- C26: the varint helpers. For every 64-bit unsigned `v`, `sovGenesis v` is the number of
base-128 digits of `v`: 1 for `v < 128`, otherwise the bit length divided by 7 and rounded
up, always between 1 and 10. `encodeVarintGenesis(buf, offset, v)` writes exactly
`sovGenesis v` bytes at the positions `offset - sovGenesis v .. offset - 1`, leaves the
bytes before and after as they were and returns `offset - sovGenesis v`; every byte
written but the last has the continuation bit set; and the decoding loop of `Unmarshal`,
started at these bytes, reads back exactly `v` and stops behind them. -/
theorem varint_helpers (v : Nat) (hv : v < 2 ^ 64) :
    (v < 128 → sovGenesis v = 1) ∧
    (128 ≤ v → sovGenesis v = (Nat.size v + 6) / 7) ∧
    1 ≤ sovGenesis v ∧ sovGenesis v ≤ 10 ∧
    (varint v).length = sovGenesis v ∧
    (∀ pre junk post : Bytes, junk.length = sovGenesis v →
      encodeVarintGenesis (pre ++ junk ++ post) (pre.length + junk.length) v
        = .ok (pre ++ varint v ++ post, pre.length + junk.length - sovGenesis v)) ∧
    (∃ init last, varint v = init ++ [last] ∧
      (∀ b ∈ init, 0x80 ≤ b.toNat) ∧ last.toNat < 0x80) ∧
    (∀ (data : Bytes) (i : Nat) (rest : Bytes), data.drop i = varint v ++ rest →
      readVarint 64 data i = .ok (v, i + sovGenesis v)) := by
  have hlen := sovGenesis_eq_length v hv
  have hv70 : v < 2 ^ (7 * (9 + 1)) := lt_of_lt_of_le hv (by norm_num)
  refine ⟨sovGenesis_small v, fun h => sovGenesis_eq_ceil v hv (by omega), sovGenesis_pos v,
    ?_, hlen.symm, ?_, varintBytes_continuation 9 v hv70, ?_⟩
  · rw [hlen]
    exact varint_length_le v hv
  · intro pre junk post hj
    have hw := Writes.putVarint v hv pre junk post (by rw [hj, hlen])
    have e : pre.length + junk.length - sovGenesis v = pre.length := by omega
    rw [e]
    exact hw
  · intro data i rest hd
    rw [readVarint_varint 64 data i v rest hd hv, Nat.mod_eq_of_lt hv, hlen]

/-- Witness of C26: the value 300 takes two bytes, `0xac 0x02`, written at the positions 1
and 2 of a buffer of four bytes with the index at 3, and is read back. -/
theorem varint_helpers_witness :
    sovGenesis 300 = (Nat.size 300 + 6) / 7 ∧
    encodeVarintGenesis [1, 0, 0, 4] 3 300 = .ok ([1, 0xac, 0x02, 4], 1) ∧
    readVarint 64 [1, 0xac, 0x02, 4] 1 = .ok (300, 3) :=
  ⟨(varint_helpers 300 (by norm_num)).2.1 (by norm_num),
   ((varint_helpers 300 (by norm_num)).2.2.2.2.2.1 [1] [0, 0] [4] (by decide)).trans
     (by decide),
   ((varint_helpers 300 (by norm_num)).2.2.2.2.2.2.2 [1, 0xac, 0x02, 4] 1 [4]
     (by decide)).trans (by decide)⟩

/-! ## Inputs the decoders accept -/

/-- The code at the failing inputs of C24. In the first input the map entry is the three
bytes `0a 02 61`: its key declares two bytes, one more than the entry holds. The decoder
takes the byte behind the entry into the key and goes on behind the entry: it returns no
error and a map with the keys `a\x12` and the empty key. In the second input the entry is
the two bytes `12 02`: its packet declares two bytes that lie behind the entry and is
decoded from them. -/
theorem map_entry_overrun_accepted :
    (GenesisState.Unmarshal (⟨⟨(0 : UInt8)⟩, []⟩ : GenesisState exampleCodec)
        [0x12, 3, 0x0a, 2, 0x61, 0x12, 0x00]).map (fun g => g.InFlightPackets)
      = .ok [([0x61, 0x12], InFlightPacket.empty), ([], InFlightPacket.empty)] ∧
    (GenesisState.Unmarshal (⟨⟨(0 : UInt8)⟩, []⟩ : GenesisState exampleCodec)
        [0x12, 2, 0x12, 2, 0x58, 0x01]).map (fun g => g.InFlightPackets)
      = .ok [([], { InFlightPacket.empty with Timeout := 1 })] := by
  constructor <;> decide

/-- Counterexample to C22: the six bytes `50 80 80 80 80 08`, field 10 with the varint of
`2^31`, decode without error to a packet with RetriesRemaining `-2147483648`. -/
theorem negative_retries_counterexample :
    ∃ p, InFlightPacket.empty.Unmarshal [0x50, 0x80, 0x80, 0x80, 0x80, 0x08] = .ok p ∧
      p.RetriesRemaining = -2147483648 ∧ ¬ (p.RetriesRemaining ≥ 0) :=
  ⟨{ InFlightPacket.empty with RetriesRemaining := -2147483648 }, by decide, by decide,
    by decide⟩

/-! ## The decoders on arbitrary input -/

/-- The varint loop either stops behind at least one byte inside the input, or reports an
overflow or the end of the input. -/
theorem readVarint.loop_outcomes (bits : Nat) (data : Bytes) :
    ∀ (fuel shift i x : Nat), shift ≤ 70 → 77 ≤ 7 * fuel + shift →
      (∃ y j, readVarint.loop bits data fuel shift i x = .ok (y, j) ∧ i < j ∧ j ≤ data.length) ∨
      readVarint.loop bits data fuel shift i x = .error .ErrIntOverflowGenesis ∨
      readVarint.loop bits data fuel shift i x = .error .ErrUnexpectedEOF := by
  intro fuel
  induction fuel with
  | zero => intro shift i x h1 h2; omega
  | succ f ih =>
    intro shift i x h1 h2
    rw [readVarint.loop]
    by_cases hs : shift ≥ 64
    · simp [hs]
    · by_cases hi : i ≥ data.length
      · simp [hs, hi]
      · simp only [hs, hi, if_false]
        have hlt : i < data.length := by omega
        rw [List.getElem?_eq_getElem hlt]
        simp only
        by_cases hb : (data[i]).toNat < 0x80
        · simp only [hb, if_true]
          exact Or.inl ⟨_, _, rfl, by omega, by omega⟩
        · simp only [hb, if_false]
          rcases ih (shift + 7) (i + 1) _ (by omega) (by omega) with ⟨y, j, hr, h3, h4⟩ | hr | hr
          · exact Or.inl ⟨y, j, hr, by omega, h4⟩
          · exact Or.inr (Or.inl hr)
          · exact Or.inr (Or.inr hr)

theorem readVarint_cases (bits : Nat) (data : Bytes) (i : Nat) :
    (∃ y j, readVarint bits data i = .ok (y, j) ∧ i < j ∧ j ≤ data.length) ∨
    readVarint bits data i = .error .ErrIntOverflowGenesis ∨
    readVarint bits data i = .error .ErrUnexpectedEOF :=
  readVarint.loop_outcomes bits data 11 0 i 0 (by omega) (by omega)

/-- The varint loop on bytes that all have the continuation bit set, enough of them for
the shift to reach 64, reports an overflow. -/
theorem readVarint.loop_overflow (bits : Nat) (data : Bytes) :
    ∀ (cs : Bytes) (fuel shift i x : Nat) (rest : Bytes),
      data.drop i = cs ++ rest → (∀ b ∈ cs, 0x80 ≤ b.toNat) →
      64 ≤ shift + 7 * cs.length → cs.length < fuel →
      readVarint.loop bits data fuel shift i x = .error .ErrIntOverflowGenesis := by
  intro cs
  induction cs with
  | nil =>
    intro fuel shift i x rest _ _ hs hf
    cases fuel with
    | zero => simp at hf
    | succ f =>
      rw [readVarint.loop]
      have : shift ≥ 64 := by simpa using hs
      simp [this]
  | cons c cs ih =>
    intro fuel shift i x rest hd hall hs hf
    cases fuel with
    | zero => simp at hf
    | succ f =>
      rw [readVarint.loop]
      by_cases h64 : shift ≥ 64
      · simp [h64]
      · simp only [List.cons_append] at hd
        obtain ⟨hget, hlt⟩ := getElem?_of_drop hd
        have hi : ¬ i ≥ data.length := by omega
        have hc : ¬ c.toNat < 0x80 := by
          have := hall c (List.mem_cons_self _ _)
          omega
        simp only [h64, hi, if_false, hget, hc]
        exact ih f (shift + 7) (i + 1) _ rest (drop_succ_of_drop hd)
          (fun b hb => hall b (List.mem_cons_of_mem _ hb))
          (by simp only [List.length_cons] at hs; omega)
          (by simp only [List.length_cons] at hf; omega)

/-- A varint of ten or more bytes with the continuation bit set is an overflow. -/
theorem readVarint_overflow (bits : Nat) (data : Bytes) (i : Nat) (cs rest : Bytes)
    (hd : data.drop i = cs ++ rest) (hall : ∀ b ∈ cs, 0x80 ≤ b.toNat) (hcs : cs.length = 10) :
    readVarint bits data i = .error .ErrIntOverflowGenesis :=
  readVarint.loop_overflow bits data cs 11 0 i 0 rest hd hall (by omega) (by omega)

/-- The varint-skipping loop either stops behind at least one byte inside the input, or
reports an overflow or the end of the input. -/
theorem skipGenesis.varint_cases (data : Bytes) :
    ∀ (fuel shift i : Nat), shift ≤ 70 → 77 ≤ 7 * fuel + shift →
      (∃ j, skipGenesis.varint data fuel shift i = .ok j ∧ i < j ∧ j ≤ data.length) ∨
      skipGenesis.varint data fuel shift i = .error .ErrIntOverflowGenesis ∨
      skipGenesis.varint data fuel shift i = .error .ErrUnexpectedEOF := by
  intro fuel
  induction fuel with
  | zero => intro shift i h1 h2; omega
  | succ f ih =>
    intro shift i h1 h2
    rw [skipGenesis.varint]
    by_cases hs : shift ≥ 64
    · simp [hs]
    · by_cases hi : i ≥ data.length
      · simp [hs, hi]
      · simp only [hs, hi, if_false]
        have hlt : i < data.length := by omega
        rw [List.getElem?_eq_getElem hlt]
        simp only
        by_cases hb : (data[i]).toNat < 0x80
        · simp only [hb, if_true]
          exact Or.inl ⟨_, rfl, by omega, by omega⟩
        · simp only [hb, if_false]
          rcases ih (shift + 7) (i + 1) (by omega) (by omega) with ⟨j, hr, h3, h4⟩ | hr | hr
          · exact Or.inl ⟨j, hr, by omega, h4⟩
          · exact Or.inr (Or.inl hr)
          · exact Or.inr (Or.inr hr)

theorem int64OfNat_lt (x : Nat) : int64OfNat x < 2 ^ 63 := by
  unfold int64OfNat
  split <;> omega

theorem int64_add_cases (a b : Int) (ha : 0 ≤ a) (ha' : a < 2 ^ 63) (hb : 0 ≤ b)
    (hb' : b < 2 ^ 63) :
    (int64 (a + b) = a + b ∧ a + b < 2 ^ 63) ∨ int64 (a + b) < 0 := by
  unfold int64
  omega

theorem Error.IsReturned.overflow : Error.ErrIntOverflowGenesis.IsReturned := by
  constructor <;> intro h <;> cases h

theorem Error.IsReturned.eof : Error.ErrUnexpectedEOF.IsReturned := by
  constructor <;> intro h <;> cases h

theorem Error.IsReturned.invalidLength : Error.ErrInvalidLengthGenesis.IsReturned := by
  constructor <;> intro h <;> cases h

/-- An error of the varint loop is an overflow or the end of the input. -/
theorem readVarint_error (bits : Nat) (data : Bytes) (i : Nat) (e : Error)
    (h : readVarint bits data i = .error e) : e.IsReturned := by
  rcases readVarint_cases bits data i with ⟨y, j, hr, _, _⟩ | hr | hr
  · rw [hr] at h; cases h
  · rw [hr] at h; cases h; exact Error.IsReturned.overflow
  · rw [hr] at h; cases h; exact Error.IsReturned.eof

theorem readVarint_ok (bits : Nat) (data : Bytes) (i y j : Nat)
    (h : readVarint bits data i = .ok (y, j)) : i < j ∧ j ≤ data.length := by
  rcases readVarint_cases bits data i with ⟨y', j', hr, h1, h2⟩ | hr | hr
  · rw [hr] at h; cases h; exact ⟨h1, h2⟩
  · rw [hr] at h; cases h
  · rw [hr] at h; cases h

/-- The length read of a length-delimited field either gives the bounds of a slice inside
the input, behind at least one byte, or an error the Go code returns. -/
theorem readLength_cases (data : Bytes) (hlen : data.length < 2 ^ 63) (i : Nat) :
    (∃ i' post, readLength data i = .ok (i', post) ∧ i < i' ∧ i' ≤ post ∧ post ≤ data.length) ∨
    (∃ e, readLength data i = .error e ∧ e.IsReturned) := by
  unfold readLength
  rcases hr : readVarint 64 data i with e | ⟨stringLen, j⟩
  · exact Or.inr ⟨e, rfl, readVarint_error _ _ _ _ hr⟩
  · obtain ⟨h1, h2⟩ := readVarint_ok _ _ _ _ _ hr
    simp only
    by_cases hneg : int64OfNat stringLen < 0
    · simp only [hneg, if_true]
      exact Or.inr ⟨_, rfl, Error.IsReturned.invalidLength⟩
    · simp only [hneg, if_false]
      have hlt := int64OfNat_lt stringLen
      rcases int64_add_cases (j : Int) (int64OfNat stringLen) (by omega) (by omega) (by omega) hlt
        with ⟨hsum, _⟩ | hsum
      · rw [hsum]
        have h0 : ¬ ((j : Int) + int64OfNat stringLen < 0) := by omega
        simp only [h0, if_false]
        by_cases hgt : (j : Int) + int64OfNat stringLen > (data.length : Int)
        · simp only [hgt, if_true]
          exact Or.inr ⟨_, rfl, Error.IsReturned.eof⟩
        · simp only [hgt, if_false]
          refine Or.inl ⟨_, _, rfl, h1, ?_, ?_⟩ <;> omega
      · simp only [hsum, if_true]
        exact Or.inr ⟨_, rfl, Error.IsReturned.invalidLength⟩

theorem readLength_ok (data : Bytes) (hlen : data.length < 2 ^ 63) (i i' post : Nat)
    (h : readLength data i = .ok (i', post)) : i < i' ∧ i' ≤ post ∧ post ≤ data.length := by
  rcases readLength_cases data hlen i with ⟨a, b, hr, h1, h2, h3⟩ | ⟨e, hr, _⟩
  · rw [hr] at h; cases h; exact ⟨h1, h2, h3⟩
  · rw [hr] at h; cases h

theorem readLength_error (data : Bytes) (hlen : data.length < 2 ^ 63) (i : Nat) (e : Error)
    (h : readLength data i = .error e) : e.IsReturned := by
  rcases readLength_cases data hlen i with ⟨a, b, hr, _⟩ | ⟨e', hr, he⟩
  · rw [hr] at h; cases h
  · rw [hr] at h; cases h; exact he

theorem readLengthDelimited_ok (data : Bytes) (hlen : data.length < 2 ^ 63) (i : Nat)
    (s : Bytes) (post : Nat) (h : readLengthDelimited data i = .ok (s, post)) :
    i < post ∧ post ≤ data.length := by
  unfold readLengthDelimited at h
  rcases hr : readLength data i with e | ⟨i', p⟩
  · rw [hr] at h; cases h
  · rw [hr] at h
    obtain ⟨h1, h2, h3⟩ := readLength_ok data hlen i i' p hr
    cases h
    omega

theorem readLengthDelimited_error (data : Bytes) (hlen : data.length < 2 ^ 63) (i : Nat)
    (e : Error) (h : readLengthDelimited data i = .error e) : e.IsReturned := by
  unfold readLengthDelimited at h
  rcases hr : readLength data i with e' | ⟨i', p⟩
  · rw [hr] at h; cases h
    exact readLength_error data hlen i _ hr
  · rw [hr] at h; cases h

theorem readBytesField_ok (data : Bytes) (hlen : data.length < 2 ^ 63) (i wireType : Nat)
    (field : String) (s : Bytes) (post : Nat)
    (h : readBytesField data i wireType field = .ok (s, post)) :
    i < post ∧ post ≤ data.length := by
  unfold readBytesField at h
  split at h
  · cases h
  · exact readLengthDelimited_ok data hlen i s post h

theorem readBytesField_error (data : Bytes) (hlen : data.length < 2 ^ 63) (i wireType : Nat)
    (field : String) (e : Error) (h : readBytesField data i wireType field = .error e) :
    e.IsReturned := by
  unfold readBytesField at h
  split at h
  · cases h
    constructor <;> intro h <;> cases h
  · exact readLengthDelimited_error data hlen i e h

theorem readVarintField_ok (bits : Nat) (data : Bytes) (i wireType : Nat) (field : String)
    (v j : Nat) (h : readVarintField bits data i wireType field = .ok (v, j)) :
    i < j ∧ j ≤ data.length := by
  unfold readVarintField at h
  split at h
  · cases h
  · exact readVarint_ok bits data i v j h

theorem readVarintField_error (bits : Nat) (data : Bytes) (i wireType : Nat) (field : String)
    (e : Error) (h : readVarintField bits data i wireType field = .error e) :
    e.IsReturned := by
  unfold readVarintField at h
  split at h
  · cases h
    constructor <;> intro h <;> cases h
  · exact readVarint_error bits data i e h

/-- The skipping loop either returns an index behind the one it started at, or an error
the Go code returns. -/
theorem skipGenesis.loop_skips (d : Bytes) (hlen : d.length < 2 ^ 63) :
    ∀ (fuel i depth : Nat), d.length - i < fuel → i < 2 ^ 63 →
      (∃ n : Int, skipGenesis.loop d fuel i depth = .ok n ∧ (i : Int) < n ∧ n < 2 ^ 63) ∨
      (∃ e, skipGenesis.loop d fuel i depth = .error e ∧ e.IsReturned) := by
  intro fuel
  induction fuel with
  | zero => intro i depth h; omega
  | succ f ih =>
    intro i depth hf hi63
    rw [skipGenesis.loop]
    by_cases hi : i < d.length
    · simp only [hi, if_true]
      rcases hr : readVarint 64 d i with e | ⟨wire, j⟩
      · exact Or.inr ⟨e, rfl, readVarint_error _ _ _ _ hr⟩
      · obtain ⟨h1, h2⟩ := readVarint_ok _ _ _ _ _ hr
        simp only
        have post : ∀ (k : Int) (dep : Nat), (k < 0 ∨ ((j : Int) ≤ k ∧ k < 2 ^ 63)) →
            ((∃ n : Int,
                (if k < 0 then (Except.error Error.ErrInvalidLengthGenesis : Except Error Int)
                  else if dep = 0 then .ok k else skipGenesis.loop d f k.toNat dep) = .ok n ∧
                (i : Int) < n ∧ n < 2 ^ 63) ∨
             (∃ e,
                (if k < 0 then (Except.error Error.ErrInvalidLengthGenesis : Except Error Int)
                  else if dep = 0 then .ok k else skipGenesis.loop d f k.toNat dep) = .error e ∧
                e.IsReturned)) := by
          intro k dep hk
          by_cases hneg : k < 0
          · simp only [hneg, if_true]
            exact Or.inr ⟨_, rfl, Error.IsReturned.invalidLength⟩
          · simp only [hneg, if_false]
            have hk' : (j : Int) ≤ k ∧ k < 2 ^ 63 := by omega
            by_cases hd0 : dep = 0
            · simp only [hd0, if_true]
              exact Or.inl ⟨k, rfl, by omega, hk'.2⟩
            · simp only [hd0, if_false]
              rcases ih k.toNat dep (by omega) (by omega) with ⟨n, hn, h3, h4⟩ | h
              · exact Or.inl ⟨n, hn, by omega, h4⟩
              · exact Or.inr h
        by_cases w0 : wire &&& 7 = 0
        · rw [if_pos w0]
          rcases skipGenesis.varint_cases d 11 0 j (by omega) (by omega) with
            ⟨j1, hs, h3, h4⟩ | hs | hs
          · simp only [hs]
            exact post _ _ (Or.inr ⟨by omega, by omega⟩)
          · simp only [hs]
            exact Or.inr ⟨_, rfl, Error.IsReturned.overflow⟩
          · simp only [hs]
            exact Or.inr ⟨_, rfl, Error.IsReturned.eof⟩
        rw [if_neg w0]
        by_cases w1 : wire &&& 7 = 1
        · rw [if_pos w1]
          simp only
          rcases int64_add_cases (j : Int) 8 (by omega) (by omega) (by omega) (by omega) with ⟨h, h'⟩ | h
          · exact post _ _ (Or.inr ⟨by omega, by omega⟩)
          · exact post _ _ (Or.inl h)
        rw [if_neg w1]
        by_cases w2 : wire &&& 7 = 2
        · rw [if_pos w2]
          rcases hr2 : readVarint 64 d j with e | ⟨length, j2⟩
          · exact Or.inr ⟨e, rfl, readVarint_error _ _ _ _ hr2⟩
          · obtain ⟨h3, h4⟩ := readVarint_ok _ _ _ _ _ hr2
            simp only
            by_cases hneg : int64OfNat length < 0
            · simp only [hneg, if_true]
              exact Or.inr ⟨_, rfl, Error.IsReturned.invalidLength⟩
            · simp only [hneg, if_false]
              have hlt := int64OfNat_lt length
              rcases int64_add_cases (j2 : Int) (int64OfNat length) (by omega) (by omega)
                (by omega) hlt with ⟨h, h'⟩ | h
              · exact post _ _ (Or.inr ⟨by omega, by omega⟩)
              · exact post _ _ (Or.inl h)
        rw [if_neg w2]
        by_cases w3 : wire &&& 7 = 3
        · rw [if_pos w3]
          exact post _ _ (Or.inr ⟨by omega, by omega⟩)
        rw [if_neg w3]
        by_cases w4 : wire &&& 7 = 4
        · rw [if_pos w4]
          by_cases hd0 : depth = 0
          · simp only [hd0, if_true]
            exact Or.inr ⟨_, rfl, by constructor <;> intro h <;> cases h⟩
          · simp only [hd0, if_false]
            exact post _ _ (Or.inr ⟨by omega, by omega⟩)
        rw [if_neg w4]
        by_cases w5 : wire &&& 7 = 5
        · rw [if_pos w5]
          simp only
          rcases int64_add_cases (j : Int) 4 (by omega) (by omega) (by omega) (by omega) with ⟨h, h'⟩ | h
          · exact post _ _ (Or.inr ⟨by omega, by omega⟩)
          · exact post _ _ (Or.inl h)
        rw [if_neg w5]
        exact Or.inr ⟨_, rfl, by constructor <;> intro h <;> cases h⟩
    · simp only [hi, if_false]
      exact Or.inr ⟨_, rfl, Error.IsReturned.eof⟩

/-- Function `skipGenesis` either returns a positive number of bytes or an error the Go code
returns. -/
theorem skipGenesis_cases (d : Bytes) (hlen : d.length < 2 ^ 63) :
    (∃ n : Int, skipGenesis d = .ok n ∧ 0 < n ∧ n < 2 ^ 63) ∨
    (∃ e, skipGenesis d = .error e ∧ e.IsReturned) := by
  rcases skipGenesis.loop_skips d hlen (d.length + 1) 0 0 (by omega) (by norm_num) with
    ⟨n, hn, h1, h2⟩ | h
  · exact Or.inl ⟨n, hn, by simpa using h1, h2⟩
  · exact Or.inr h

/-- The skip of an unknown field either moves the index forward within the limit or
returns an error the Go code returns. -/
theorem skipField_cases (data : Bytes) (hlen : data.length < 2 ^ 63) (preIndex limit : Nat)
    (hpre : preIndex ≤ data.length) :
    (∃ j, skipField data preIndex limit = .ok j ∧ preIndex < j ∧ j ≤ limit) ∨
    (∃ e, skipField data preIndex limit = .error e ∧ e.IsReturned) := by
  unfold skipField
  have hdl : (data.drop preIndex).length < 2 ^ 63 := by
    rw [List.length_drop]; omega
  rcases skipGenesis_cases (data.drop preIndex) hdl with ⟨n, hn, h1, h2⟩ | ⟨e, he, hret⟩
  · rw [hn]
    simp only
    rcases int64_add_cases (preIndex : Int) n (by omega) (by omega) (by omega) h2 with ⟨h, _⟩ | h
    · have hc : ¬ (n < 0 ∨ int64 (↑preIndex + n) < 0) := by omega
      rw [if_neg hc]
      by_cases hgt : int64 (↑preIndex + n) > (limit : Int)
      · rw [if_pos hgt]
        exact Or.inr ⟨_, rfl, Error.IsReturned.eof⟩
      · rw [if_neg hgt]
        exact Or.inl ⟨_, rfl, by omega, by omega⟩
    · have hc : (n < 0 ∨ int64 (↑preIndex + n) < 0) := Or.inr h
      rw [if_pos hc]
      exact Or.inr ⟨_, rfl, Error.IsReturned.invalidLength⟩
  · rw [he]
    exact Or.inr ⟨e, rfl, hret⟩

theorem skipField_ok (data : Bytes) (hlen : data.length < 2 ^ 63) (preIndex limit j : Nat)
    (hpre : preIndex ≤ data.length) (h : skipField data preIndex limit = .ok j) :
    preIndex < j ∧ j ≤ limit := by
  rcases skipField_cases data hlen preIndex limit hpre with ⟨j', hr, h1, h2⟩ | ⟨e, hr, _⟩
  · rw [hr] at h; cases h; exact ⟨h1, h2⟩
  · rw [hr] at h; cases h

theorem skipField_error (data : Bytes) (hlen : data.length < 2 ^ 63) (preIndex limit : Nat)
    (e : Error) (hpre : preIndex ≤ data.length) (h : skipField data preIndex limit = .error e) :
    e.IsReturned := by
  rcases skipField_cases data hlen preIndex limit hpre with ⟨j', hr, _⟩ | ⟨e', hr, he⟩
  · rw [hr] at h; cases h
  · rw [hr] at h; cases h; exact he

theorem int32OfNat_range (x : Nat) : -2 ^ 31 ≤ int32OfNat x ∧ int32OfNat x < 2 ^ 31 := by
  unfold int32OfNat
  split <;> omega

/-- One iteration of the decoder loop either moves the index forward within the input and
keeps RetriesRemaining a value of `int32`, or returns an error the Go code returns. -/
theorem InFlightPacket.Unmarshal.step_cases (data : Bytes) (hlen : data.length < 2 ^ 63)
    (i : Nat) (m : InFlightPacket) :
    (∃ j m', InFlightPacket.Unmarshal.step data i m = .ok (j, m') ∧ i < j ∧
      j ≤ data.length ∧ (m.RetriesInRange → m'.RetriesInRange)) ∨
    (∃ e, InFlightPacket.Unmarshal.step data i m = .error e ∧ e.IsReturned) := by
  unfold InFlightPacket.Unmarshal.step
  dsimp only
  rcases hr : readVarint 64 data i with e | ⟨wire, j⟩
  · exact Or.inr ⟨e, rfl, readVarint_error _ _ _ _ hr⟩
  · obtain ⟨h1, h2⟩ := readVarint_ok _ _ _ _ _ hr
    simp only
    have bytesCase : ∀ (field : String) (upd : Bytes → InFlightPacket),
        (∀ s, m.RetriesInRange → (upd s).RetriesInRange) →
        ((∃ j' m', (match readBytesField data j (wire &&& 7) field with
            | .error e => (Except.error e : Except Error (Nat × InFlightPacket))
            | .ok (s, iNdEx) => .ok (iNdEx, upd s)) = .ok (j', m') ∧ i < j' ∧
            j' ≤ data.length ∧ (m.RetriesInRange → m'.RetriesInRange)) ∨
         (∃ e, (match readBytesField data j (wire &&& 7) field with
            | .error e => (Except.error e : Except Error (Nat × InFlightPacket))
            | .ok (s, iNdEx) => .ok (iNdEx, upd s)) = .error e ∧ e.IsReturned)) := by
      intro field upd hupd
      rcases hb : readBytesField data j (wire &&& 7) field with e | ⟨s, k⟩
      · exact Or.inr ⟨e, rfl, readBytesField_error data hlen _ _ _ e hb⟩
      · obtain ⟨h3, h4⟩ := readBytesField_ok data hlen _ _ _ _ _ hb
        exact Or.inl ⟨k, upd s, rfl, by omega, h4, hupd s⟩
    have varintCase : ∀ (bits : Nat) (field : String) (upd : Nat → InFlightPacket),
        (∀ v, m.RetriesInRange → (upd v).RetriesInRange) →
        ((∃ j' m', (match readVarintField bits data j (wire &&& 7) field with
            | .error e => (Except.error e : Except Error (Nat × InFlightPacket))
            | .ok (v, iNdEx) => .ok (iNdEx, upd v)) = .ok (j', m') ∧ i < j' ∧
            j' ≤ data.length ∧ (m.RetriesInRange → m'.RetriesInRange)) ∨
         (∃ e, (match readVarintField bits data j (wire &&& 7) field with
            | .error e => (Except.error e : Except Error (Nat × InFlightPacket))
            | .ok (v, iNdEx) => .ok (iNdEx, upd v)) = .error e ∧ e.IsReturned)) := by
      intro bits field upd hupd
      rcases hb : readVarintField bits data j (wire &&& 7) field with e | ⟨v, k⟩
      · exact Or.inr ⟨e, rfl, readVarintField_error bits data _ _ _ e hb⟩
      · obtain ⟨h3, h4⟩ := readVarintField_ok bits data _ _ _ _ _ hb
        exact Or.inl ⟨k, upd v, rfl, by omega, h4, hupd v⟩
    by_cases c4 : wire &&& 7 = 4
    · rw [if_pos c4]
      exact Or.inr ⟨_, rfl, by constructor <;> intro h <;> cases h⟩
    rw [if_neg c4]
    by_cases c0 : int32OfNat (wire >>> 3) ≤ 0
    · rw [if_pos c0]
      exact Or.inr ⟨_, rfl, by constructor <;> intro h <;> cases h⟩
    rw [if_neg c0]
    by_cases f1 : int32OfNat (wire >>> 3) = 1
    · rw [if_pos f1]
      exact bytesCase "OriginalSenderAddress" (fun s => { m with OriginalSenderAddress := s })
        (fun _ h => h)
    rw [if_neg f1]
    by_cases f2 : int32OfNat (wire >>> 3) = 2
    · rw [if_pos f2]
      exact bytesCase "RefundChannelId" (fun s => { m with RefundChannelId := s }) (fun _ h => h)
    rw [if_neg f2]
    by_cases f3 : int32OfNat (wire >>> 3) = 3
    · rw [if_pos f3]
      exact bytesCase "RefundPortId" (fun s => { m with RefundPortId := s }) (fun _ h => h)
    rw [if_neg f3]
    by_cases f4 : int32OfNat (wire >>> 3) = 4
    · rw [if_pos f4]
      exact bytesCase "PacketSrcChannelId" (fun s => { m with PacketSrcChannelId := s })
        (fun _ h => h)
    rw [if_neg f4]
    by_cases f5 : int32OfNat (wire >>> 3) = 5
    · rw [if_pos f5]
      exact bytesCase "PacketSrcPortId" (fun s => { m with PacketSrcPortId := s }) (fun _ h => h)
    rw [if_neg f5]
    by_cases f6 : int32OfNat (wire >>> 3) = 6
    · rw [if_pos f6]
      exact varintCase 64 "PacketTimeoutTimestamp"
        (fun v => { m with PacketTimeoutTimestamp := v }) (fun _ h => h)
    rw [if_neg f6]
    by_cases f7 : int32OfNat (wire >>> 3) = 7
    · rw [if_pos f7]
      exact bytesCase "PacketTimeoutHeight" (fun s => { m with PacketTimeoutHeight := s })
        (fun _ h => h)
    rw [if_neg f7]
    by_cases f8 : int32OfNat (wire >>> 3) = 8
    · rw [if_pos f8]
      exact bytesCase "PacketData" (fun s => { m with PacketData := s }) (fun _ h => h)
    rw [if_neg f8]
    by_cases f9 : int32OfNat (wire >>> 3) = 9
    · rw [if_pos f9]
      exact varintCase 64 "RefundSequence" (fun v => { m with RefundSequence := v })
        (fun _ h => h)
    rw [if_neg f9]
    by_cases f10 : int32OfNat (wire >>> 3) = 10
    · rw [if_pos f10]
      exact varintCase 32 "RetriesRemaining"
        (fun v => { m with RetriesRemaining := int32OfNat v }) (fun v _ => int32OfNat_range v)
    rw [if_neg f10]
    by_cases f11 : int32OfNat (wire >>> 3) = 11
    · rw [if_pos f11]
      exact varintCase 64 "Timeout" (fun v => { m with Timeout := v }) (fun _ h => h)
    rw [if_neg f11]
    by_cases f12 : int32OfNat (wire >>> 3) = 12
    · rw [if_pos f12]
      exact varintCase 64 "Nonrefundable"
        (fun v => { m with Nonrefundable := decide (int64OfNat v ≠ 0) }) (fun _ h => h)
    rw [if_neg f12]
    rcases skipField_cases data hlen i data.length (by omega) with ⟨k, hk, h3, h4⟩ | ⟨e, he, hret⟩
    · rw [hk]
      exact Or.inl ⟨k, m, rfl, h3, h4, fun h => h⟩
    · rw [he]
      exact Or.inr ⟨e, rfl, hret⟩

/-- The decoder loop, with fuel for the bytes that are left, returns a packet or an error
the Go code returns; the packet has RetriesRemaining in the range of `int32` when the
receiver has. -/
theorem InFlightPacket.Unmarshal.loop_total (data : Bytes) (hlen : data.length < 2 ^ 63) :
    ∀ (fuel i : Nat) (m : InFlightPacket), data.length - i < fuel →
      (∃ p, InFlightPacket.Unmarshal.loop data fuel i m = .ok p ∧
        (m.RetriesInRange → p.RetriesInRange)) ∨
      (∃ e, InFlightPacket.Unmarshal.loop data fuel i m = .error e ∧ e.IsReturned) := by
  intro fuel
  induction fuel with
  | zero => intro i m h; omega
  | succ f ih =>
    intro i m hf
    rw [InFlightPacket.Unmarshal.loop]
    by_cases hi : i < data.length
    · rw [if_pos hi]
      rcases InFlightPacket.Unmarshal.step_cases data hlen i m with
        ⟨j, m', hs, h1, h2, hr⟩ | ⟨e, hs, he⟩
      · rw [hs]
        rcases ih j m' (by omega) with ⟨p, hp, hpr⟩ | h
        · exact Or.inl ⟨p, hp, fun h => hpr (hr h)⟩
        · exact Or.inr h
      · rw [hs]
        exact Or.inr ⟨e, rfl, he⟩
    · rw [if_neg hi]
      by_cases hgt : i > data.length
      · rw [if_pos hgt]
        exact Or.inr ⟨_, rfl, Error.IsReturned.eof⟩
      · rw [if_neg hgt]
        exact Or.inl ⟨m, rfl, fun h => h⟩

theorem InFlightPacket.Unmarshal_cases (data : Bytes) (hlen : data.length < 2 ^ 63)
    (m : InFlightPacket) :
    (∃ p, m.Unmarshal data = .ok p ∧ (m.RetriesInRange → p.RetriesInRange)) ∨
    (∃ e, m.Unmarshal data = .error e ∧ e.IsReturned) :=
  InFlightPacket.Unmarshal.loop_total data hlen (data.length + 1) 0 m (by omega)

theorem InFlightPacket.Unmarshal.step_ok (data : Bytes) (hlen : data.length < 2 ^ 63)
    (i : Nat) (m : InFlightPacket) (j : Nat) (m' : InFlightPacket)
    (h : InFlightPacket.Unmarshal.step data i m = .ok (j, m')) : i < j ∧ j ≤ data.length := by
  rcases InFlightPacket.Unmarshal.step_cases data hlen i m with
    ⟨j', m'', hs, h1, h2, _⟩ | ⟨e, hs, _⟩
  · rw [hs] at h; cases h; exact ⟨h1, h2⟩
  · rw [hs] at h; cases h

/-- C27: the decoder is total and safe. For every byte string (a Go slice, so shorter than
`2^63` bytes) `InFlightPacket.Unmarshal` returns a packet or an error of the Go code: the
iteration bounds of the model are never reached, so the loops terminate, and no read is
outside the input. Every iteration of the outer loop that succeeds moves the index forward
by at least one byte and not behind the end; every slice the decoder takes lies inside the
input; and `skipGenesis` returns a positive number of bytes or an error of the Go code. -/
theorem decoder_total_and_safe (data : Bytes) (hlen : data.length < 2 ^ 63)
    (m : InFlightPacket) :
    ((∃ p, m.Unmarshal data = .ok p) ∨
      (∃ e, m.Unmarshal data = .error e ∧ e ≠ .outOfFuel ∧ e ≠ .indexOutOfRange)) ∧
    (∀ i m' j m'', InFlightPacket.Unmarshal.step data i m' = .ok (j, m'') →
      i < j ∧ j ≤ data.length) ∧
    (∀ i i' post, readLength data i = .ok (i', post) → i' ≤ post ∧ post ≤ data.length) ∧
    ((∃ n, skipGenesis data = .ok n ∧ 0 < n) ∨
      (∃ e, skipGenesis data = .error e ∧ e ≠ .outOfFuel ∧ e ≠ .indexOutOfRange)) := by
  refine ⟨?_, ?_, ?_, ?_⟩
  · rcases InFlightPacket.Unmarshal_cases data hlen m with ⟨p, hp, _⟩ | ⟨e, he, h1, h2⟩
    · exact Or.inl ⟨p, hp⟩
    · exact Or.inr ⟨e, he, h2, h1⟩
  · intro i m' j m'' h
    exact InFlightPacket.Unmarshal.step_ok data hlen i m' j m'' h
  · intro i i' post h
    exact (readLength_ok data hlen i i' post h).2
  · rcases skipGenesis_cases data hlen with ⟨n, hn, h1, _⟩ | ⟨e, he, h1, h2⟩
    · exact Or.inl ⟨n, hn, h1⟩
    · exact Or.inr ⟨e, he, h2, h1⟩

/-- Witness of C27: a field of wire type 3 (start of a group, field 13) that is never
closed: the decoder returns an error of the Go code. -/
theorem decoder_total_and_safe_witness :
    (∃ p, InFlightPacket.empty.Unmarshal [0x6b, 0x6b, 0x08] = .ok p) ∨
    (∃ e, InFlightPacket.empty.Unmarshal [0x6b, 0x6b, 0x08] = .error e ∧ e ≠ .outOfFuel ∧
      e ≠ .indexOutOfRange) :=
  (decoder_total_and_safe [0x6b, 0x6b, 0x08] (by norm_num) InFlightPacket.empty).1

/-- C22 (amended): RetriesRemaining is an `int32`. Every packet that
`InFlightPacket.Unmarshal` produces without error from any byte string, into a receiver
whose RetriesRemaining is an `int32`, has RetriesRemaining between `-2^31` and `2^31 - 1`.
The decoder makes no sign check. -/
theorem retries_remaining_is_int32 (data : Bytes) (hlen : data.length < 2 ^ 63)
    (m p : InFlightPacket) (hm : m.RetriesInRange) (h : m.Unmarshal data = .ok p) :
    -2 ^ 31 ≤ p.RetriesRemaining ∧ p.RetriesRemaining < 2 ^ 31 := by
  rcases InFlightPacket.Unmarshal_cases data hlen m with ⟨p', hp, hr⟩ | ⟨e, he, _⟩
  · rw [hp] at h
    cases h
    exact hr hm
  · rw [he] at h
    cases h

/-- Witness of C22 (amended): the bytes `50 80 80 80 80 08` give the least `int32`. -/
theorem retries_remaining_is_int32_witness :
    -2 ^ 31 ≤ ({ InFlightPacket.empty with RetriesRemaining := -2147483648 } :
        InFlightPacket).RetriesRemaining ∧
    ({ InFlightPacket.empty with RetriesRemaining := -2147483648 } :
        InFlightPacket).RetriesRemaining < 2 ^ 31 :=
  retries_remaining_is_int32 [0x50, 0x80, 0x80, 0x80, 0x80, 0x08] (by norm_num)
    InFlightPacket.empty _ (by unfold InFlightPacket.RetriesInRange; decide) (by decide)

/-! ## Over-long varints and negative lengths -/

/-- The first `n` iterations of the loop, when they succeed, are the first `n` iterations
of the loop with fuel: each of them moves the index forward inside the input. -/
theorem InFlightPacket.Unmarshal.loop_iterate (data : Bytes) (hlen : data.length < 2 ^ 63) :
    ∀ (n fuel i0 : Nat) (m0 : InFlightPacket) (i : Nat) (m : InFlightPacket),
      InFlightPacket.Unmarshal.iterate data n i0 m0 = .ok (i, m) → n ≤ fuel →
      InFlightPacket.Unmarshal.loop data fuel i0 m0
        = InFlightPacket.Unmarshal.loop data (fuel - n) i m ∧ i0 + n ≤ i := by
  intro n
  induction n with
  | zero =>
    intro fuel i0 m0 i m h _
    simp only [InFlightPacket.Unmarshal.iterate] at h
    cases h
    exact ⟨rfl, by omega⟩
  | succ n ih =>
    intro fuel i0 m0 i m h hf
    rw [InFlightPacket.Unmarshal.iterate] at h
    rcases hs : InFlightPacket.Unmarshal.step data i0 m0 with e | ⟨i1, m1⟩
    · rw [hs] at h; cases h
    · rw [hs] at h
      simp only at h
      obtain ⟨h1, h2⟩ := InFlightPacket.Unmarshal.step_ok data hlen i0 m0 i1 m1 hs
      cases fuel with
      | zero => omega
      | succ f =>
        obtain ⟨hl, hi⟩ := ih f i1 m1 i m h (by omega)
        refine ⟨?_, by omega⟩
        rw [InFlightPacket.Unmarshal.loop, if_pos (by omega), hs]
        simp only
        rw [hl, Nat.add_sub_add_right]

/-- When the bytes before the index `i` decode without error and the iteration at `i`
fails, `Unmarshal` returns the error of that iteration. -/
theorem InFlightPacket.Unmarshal_error_at (data : Bytes) (hlen : data.length < 2 ^ 63)
    (n i : Nat) (m0 m : InFlightPacket) (e : Error)
    (hbefore : InFlightPacket.Unmarshal.iterate data n 0 m0 = .ok (i, m))
    (hi : i < data.length) (hstep : InFlightPacket.Unmarshal.step data i m = .error e) :
    m0.Unmarshal data = .error e := by
  have hn : n ≤ i := by
    have := (InFlightPacket.Unmarshal.loop_iterate data hlen n n 0 m0 i m hbefore
      (Nat.le_refl _)).2
    omega
  obtain ⟨hl, _⟩ := InFlightPacket.Unmarshal.loop_iterate data hlen n (data.length + 1) 0 m0 i m
    hbefore (by omega)
  unfold InFlightPacket.Unmarshal
  rw [hl]
  obtain ⟨f, hf⟩ : ∃ f, data.length + 1 - n = f + 1 := ⟨data.length - n, by omega⟩
  rw [hf, InFlightPacket.Unmarshal.loop, if_pos hi, hstep]

/-- An iteration whose tag names a string or bytes field with wire type 2 returns the
error of the length read. -/
theorem InFlightPacket.Unmarshal.step_length_error (data : Bytes) (i : Nat)
    (m : InFlightPacket) (wire j : Nat) (e : Error)
    (hr : readVarint 64 data i = .ok (wire, j)) (hw : wire &&& 0x7 = 2)
    (hf : int32OfNat (wire >>> 3) ∈ ([1, 2, 3, 4, 5, 7, 8] : List Int))
    (he : readLength data j = .error e) :
    InFlightPacket.Unmarshal.step data i m = .error e := by
  have hrb : ∀ field, readBytesField data j 2 field = .error e := by
    intro field
    simp [readBytesField, readLengthDelimited, he]
  simp only [List.mem_cons, List.mem_singleton, List.mem_nil_iff, or_false] at hf
  rcases hf with hf | hf | hf | hf | hf | hf | hf <;>
  · simp only [InFlightPacket.Unmarshal.step, hr, hw, hf, hrb]
    simp

/-- An iteration whose tag names a varint field with wire type 0 returns the error of the
varint loop. -/
theorem InFlightPacket.Unmarshal.step_value_error (data : Bytes) (i : Nat)
    (m : InFlightPacket) (wire j : Nat) (e : Error)
    (hr : readVarint 64 data i = .ok (wire, j)) (hw : wire &&& 0x7 = 0)
    (hf : int32OfNat (wire >>> 3) ∈ ([6, 9, 10, 11, 12] : List Int))
    (he : ∀ bits, readVarint bits data j = .error e) :
    InFlightPacket.Unmarshal.step data i m = .error e := by
  have hrv : ∀ bits field, readVarintField bits data j 0 field = .error e := by
    intro bits field
    simp [readVarintField, he]
  simp only [List.mem_cons, List.mem_singleton, List.mem_nil_iff, or_false] at hf
  rcases hf with hf | hf | hf | hf | hf <;>
  · simp only [InFlightPacket.Unmarshal.step, hr, hw, hf, hrv]
    simp

/-- A declared length that is negative after the conversion to `int` is rejected. -/
theorem readLength_negative (data : Bytes) (i v j : Nat)
    (hr : readVarint 64 data i = .ok (v, j)) (hneg : int64OfNat v < 0) :
    readLength data i = .error .ErrInvalidLengthGenesis := by
  unfold readLength
  rw [hr]
  simp only [hneg, if_true]

/-- A varint of ten or more bytes that all have the continuation bit set is an overflow. -/
theorem readVarint_overlong (bits : Nat) (data : Bytes) (i : Nat) (cs rest : Bytes)
    (hd : data.drop i = cs ++ rest) (hall : ∀ b ∈ cs, 0x80 ≤ b.toNat) (hcs : 10 ≤ cs.length) :
    readVarint bits data i = .error .ErrIntOverflowGenesis := by
  have hsplit : cs ++ rest = cs.take 10 ++ (cs.drop 10 ++ rest) := by
    rw [← List.append_assoc, List.take_append_drop]
  rw [hsplit] at hd
  exact readVarint_overflow bits data i (cs.take 10) _ hd
    (fun b hb => hall b (List.mem_of_mem_take hb)) (by rw [List.length_take]; omega)

theorem readLength_overlong (data : Bytes) (i : Nat) (cs rest : Bytes)
    (hd : data.drop i = cs ++ rest) (hall : ∀ b ∈ cs, 0x80 ≤ b.toNat) (hcs : 10 ≤ cs.length) :
    readLength data i = .error .ErrIntOverflowGenesis := by
  unfold readLength
  rw [readVarint_overlong 64 data i cs rest hd hall hcs]

/-- C21: over-long varints are rejected. Let the first `n` iterations of the decoder loop
succeed and arrive at the index `i` (the bytes before `i` decode without error), and let
`cs` be ten or more consecutive bytes with the continuation bit set. If the tag at `i` is
encoded with `cs`, or the tag at `i` names a string or bytes field and its length is
encoded with `cs`, or the tag at `i` names a varint field and its value is encoded with
`cs`, then `InFlightPacket.Unmarshal` returns `ErrIntOverflowGenesis`. If the tag at `i`
names a string or bytes field and its declared length is negative after the conversion to
`int`, `Unmarshal` returns `ErrInvalidLengthGenesis`. -/
theorem overlong_varint_rejected (data : Bytes) (hlen : data.length < 2 ^ 63)
    (n i : Nat) (m0 m : InFlightPacket)
    (hbefore : InFlightPacket.Unmarshal.iterate data n 0 m0 = .ok (i, m))
    (cs rest : Bytes) (hcs : 10 ≤ cs.length) (hall : ∀ b ∈ cs, 0x80 ≤ b.toNat) :
    (data.drop i = cs ++ rest → m0.Unmarshal data = .error .ErrIntOverflowGenesis) ∧
    (∀ wire j, readVarint 64 data i = .ok (wire, j) → wire &&& 0x7 = 2 →
      int32OfNat (wire >>> 3) ∈ ([1, 2, 3, 4, 5, 7, 8] : List Int) →
      data.drop j = cs ++ rest → m0.Unmarshal data = .error .ErrIntOverflowGenesis) ∧
    (∀ wire j, readVarint 64 data i = .ok (wire, j) → wire &&& 0x7 = 0 →
      int32OfNat (wire >>> 3) ∈ ([6, 9, 10, 11, 12] : List Int) →
      data.drop j = cs ++ rest → m0.Unmarshal data = .error .ErrIntOverflowGenesis) ∧
    (∀ wire j v j', readVarint 64 data i = .ok (wire, j) → wire &&& 0x7 = 2 →
      int32OfNat (wire >>> 3) ∈ ([1, 2, 3, 4, 5, 7, 8] : List Int) →
      readVarint 64 data j = .ok (v, j') → int64OfNat v < 0 →
      m0.Unmarshal data = .error .ErrInvalidLengthGenesis) := by
  have hne : cs ≠ [] := by
    intro h
    rw [h] at hcs
    simp at hcs
  refine ⟨?_, ?_, ?_, ?_⟩
  · intro hd
    have hi : i < data.length := by
      have := length_ge_of_drop hd hne
      have := List.length_pos.mpr hne
      omega
    apply InFlightPacket.Unmarshal_error_at data hlen n i m0 m _ hbefore hi
    have hov := readVarint_overlong 64 data i cs rest hd hall hcs
    simp [InFlightPacket.Unmarshal.step, hov]
  · intro wire j hr hw hf hd
    have hi : i < data.length := by
      have := (readVarint_ok 64 data i wire j hr)
      omega
    exact InFlightPacket.Unmarshal_error_at data hlen n i m0 m _ hbefore hi
      (InFlightPacket.Unmarshal.step_length_error data i m wire j _ hr hw hf
        (readLength_overlong data j cs rest hd hall hcs))
  · intro wire j hr hw hf hd
    have hi : i < data.length := by
      have := (readVarint_ok 64 data i wire j hr)
      omega
    exact InFlightPacket.Unmarshal_error_at data hlen n i m0 m _ hbefore hi
      (InFlightPacket.Unmarshal.step_value_error data i m wire j _ hr hw hf
        (fun bits => readVarint_overlong bits data j cs rest hd hall hcs))
  · intro wire j v j' hr hw hf hr2 hneg
    have hi : i < data.length := by
      have := (readVarint_ok 64 data i wire j hr)
      omega
    exact InFlightPacket.Unmarshal_error_at data hlen n i m0 m _ hbefore hi
      (InFlightPacket.Unmarshal.step_length_error data i m wire j _ hr hw hf
        (readLength_negative data j v j' hr2 hneg))

/-- Witness of C21: after the record `58 01` the length of field 1 is encoded with ten
bytes `80`; the decoder returns `ErrIntOverflowGenesis`. -/
theorem overlong_varint_rejected_witness :
    InFlightPacket.empty.Unmarshal
      [0x58, 0x01, 0x0a, 0x80, 0x80, 0x80, 0x80, 0x80, 0x80, 0x80, 0x80, 0x80, 0x80, 0x01]
      = .error .ErrIntOverflowGenesis :=
  (overlong_varint_rejected
    [0x58, 0x01, 0x0a, 0x80, 0x80, 0x80, 0x80, 0x80, 0x80, 0x80, 0x80, 0x80, 0x80, 0x01]
    (by norm_num) 1 2 InFlightPacket.empty { InFlightPacket.empty with Timeout := 1 }
    (by decide) [0x80, 0x80, 0x80, 0x80, 0x80, 0x80, 0x80, 0x80, 0x80, 0x80] [0x01]
    (by decide) (by decide)).2.1 10 3 (by decide) (by decide) (by decide) (by decide)

/-! ## Unknown fields -/

theorem tag_arith (fieldNum wt : Nat) (hwt : wt < 8) :
    (fieldNum <<< 3 ||| wt) = 8 * fieldNum + wt ∧
    (fieldNum <<< 3 ||| wt) &&& 0x7 = wt ∧ (fieldNum <<< 3 ||| wt) >>> 3 = fieldNum := by
  have h1 := Nat.mul_add_lt_is_or (i := 3) (b := wt) (by simpa using hwt) fieldNum
  have h2 : fieldNum <<< 3 = 2 ^ 3 * fieldNum := by
    rw [Nat.shiftLeft_eq, Nat.mul_comm]
  have he : (fieldNum <<< 3 ||| wt) = 8 * fieldNum + wt := by
    rw [h2, ← h1]
  refine ⟨he, ?_, ?_⟩
  · rw [he, and_7]
    omega
  · rw [he, Nat.shiftRight_eq_div_pow]
    norm_num
    omega

/-- The varint-skipping loop on bytes that have the continuation bit set, followed by one
that has not, stops behind them. -/
theorem skipGenesis.varint_spec (d : Bytes) :
    ∀ (init : Bytes) (last : UInt8) (fuel shift j : Nat) (rest : Bytes),
      d.drop j = init ++ last :: rest → (∀ b ∈ init, 0x80 ≤ b.toNat) → last.toNat < 0x80 →
      shift + 7 * init.length < 64 → init.length < fuel →
      skipGenesis.varint d fuel shift j = .ok (j + init.length + 1) := by
  intro init
  induction init with
  | nil =>
    intro last fuel shift j rest hd _ hl hs hf
    cases fuel with
    | zero => simp at hf
    | succ f =>
      simp only [List.nil_append] at hd
      obtain ⟨hget, hlt⟩ := getElem?_of_drop hd
      have h1 : ¬ shift ≥ 64 := by simp at hs; omega
      have h2 : ¬ j ≥ d.length := by omega
      rw [skipGenesis.varint]
      simp only [h1, h2, if_false, hget, hl, if_true, List.length_nil, Nat.add_zero]
  | cons c cs ih =>
    intro last fuel shift j rest hd hall hl hs hf
    cases fuel with
    | zero => simp at hf
    | succ f =>
      simp only [List.cons_append] at hd
      obtain ⟨hget, hlt⟩ := getElem?_of_drop hd
      simp only [List.length_cons] at hs hf ⊢
      have h1 : ¬ shift ≥ 64 := by omega
      have h2 : ¬ j ≥ d.length := by omega
      have hc : ¬ c.toNat < 0x80 := by
        have := hall c (List.mem_cons_self _ _)
        omega
      rw [skipGenesis.varint]
      simp only [h1, h2, if_false, hget, hc]
      rw [ih last f (shift + 7) (j + 1) rest (drop_succ_of_drop hd)
        (fun b hb => hall b (List.mem_cons_of_mem _ hb)) hl (by omega) (by omega)]
      congr 1
      omega

theorem skipGenesis_varint_of_varint (d : Bytes) (j v : Nat) (rest : Bytes)
    (hd : d.drop j = varint v ++ rest) (hv : v < 2 ^ 64) :
    skipGenesis.varint d 11 0 j = .ok (j + (varint v).length) := by
  have hv70 : v < 2 ^ (7 * (9 + 1)) := lt_of_lt_of_le hv (by norm_num)
  obtain ⟨init, last, he, hi, hl⟩ := varintBytes_continuation 9 v hv70
  have hle := varint_length_le v hv
  have he' : varint v = init ++ [last] := he
  rw [he'] at hd hle ⊢
  simp only [List.length_append, List.length_singleton] at hle ⊢
  rw [← Nat.add_assoc]
  exact skipGenesis.varint_spec d init last 11 0 j rest (by simpa using hd) hi hl
    (by omega) (by omega)

theorem fieldRecord_length (fieldNum : Nat) (x : FieldValue) :
    (fieldRecord fieldNum x).length
      = (varint (fieldNum <<< 3 ||| x.wireType)).length + x.encode.length := by
  simp [fieldRecord]

/-- Function `skipGenesis` on a well-formed record returns the length of the record. -/
theorem skipGenesis_fieldRecord (fieldNum : Nat) (x : FieldValue) (post : Bytes)
    (hf : fieldNum < 2 ^ 29) (hx : x.WellFormed)
    (hlen : (fieldRecord fieldNum x ++ post).length < 2 ^ 63) :
    skipGenesis (fieldRecord fieldNum x ++ post)
      = .ok ((fieldRecord fieldNum x).length : Int) := by
  have hwt : x.wireType < 8 := by cases x <;> simp [FieldValue.wireType]
  obtain ⟨he, hand, _⟩ := tag_arith fieldNum x.wireType hwt
  have hw64 : fieldNum <<< 3 ||| x.wireType < 2 ^ 64 := by omega
  have hd0 : (fieldRecord fieldNum x ++ post).drop 0
      = varint (fieldNum <<< 3 ||| x.wireType) ++ (x.encode ++ post) := by
    simp [fieldRecord]
  have hr := readVarint_varint 64 _ 0 _ _ hd0 hw64
  rw [Nat.mod_eq_of_lt hw64, Nat.zero_add] at hr
  have hdt := drop_add_of_drop hd0
  rw [Nat.zero_add] at hdt
  have htl := varint_length_pos (fieldNum <<< 3 ||| x.wireType)
  have hrl := fieldRecord_length fieldNum x
  have hpos : 0 < (fieldRecord fieldNum x ++ post).length := by
    rw [List.length_append]; omega
  rw [List.length_append] at hlen
  unfold skipGenesis
  rw [skipGenesis.loop, if_pos hpos, hr]
  simp only [hand]
  cases x with
  | ofVarint v =>
    simp only [FieldValue.wireType, FieldValue.encode, FieldValue.WellFormed] at hdt hx hrl ⊢
    rw [skipGenesis_varint_of_varint _ _ v post hdt hx]
    simp only [if_true]
    have hnn : ¬ (((varint (fieldNum <<< 3 ||| 0)).length + (varint v).length : Nat) : Int) < 0 := by
      omega
    simp only [hnn, if_false, hrl]
  | ofFixed64 b =>
    simp only [FieldValue.wireType, FieldValue.encode, FieldValue.WellFormed] at hdt hx hrl ⊢
    have hnn : ¬ (((varint (fieldNum <<< 3 ||| 1)).length + 8 : Nat) : Int) < 0 := by omega
    have h8 : int64 (((varint (fieldNum <<< 3 ||| 1)).length : Nat) + 8)
        = (((varint (fieldNum <<< 3 ||| 1)).length + 8 : Nat) : Int) := by
      rw [int64_of_lt _ (by omega) (by omega)]
      omega
    simp only [show ¬ ((1 : Nat) = 0) by decide, if_false, if_true, h8]
    simp only [hnn, if_false, hrl, hx]
  | ofBytes s =>
    simp only [FieldValue.wireType, FieldValue.encode, FieldValue.WellFormed] at hdt hx hrl ⊢
    rw [List.append_assoc] at hdt
    have hr2 := readVarint_varint 64 _ _ s.length (s ++ post) hdt (by omega)
    rw [Nat.mod_eq_of_lt (by omega)] at hr2
    simp only [show ¬ ((2 : Nat) = 0) by decide, show ¬ ((2 : Nat) = 1) by decide, if_false,
      if_true, hr2, int64OfNat_of_lt s.length hx]
    simp only [FieldValue.encode, List.length_append] at hlen hrl
    have hs0 : ¬ ((s.length : Int) < 0) := by omega
    have hnn : ¬ ((((varint (fieldNum <<< 3 ||| 2)).length
        + ((varint s.length).length + s.length) : Nat) : Int) < 0) := by omega
    have hsum : int64 ((((varint (fieldNum <<< 3 ||| 2)).length + (varint s.length).length
        : Nat) : Int) + (s.length : Int))
        = (((varint (fieldNum <<< 3 ||| 2)).length + ((varint s.length).length + s.length)
          : Nat) : Int) := by
      rw [int64_of_lt _ (by omega) (by omega)]
      omega
    simp only [hs0, if_false, hsum]
    simp only [hnn, if_false, hrl, if_true]
  | ofFixed32 b =>
    simp only [FieldValue.wireType, FieldValue.encode, FieldValue.WellFormed] at hdt hx hrl ⊢
    have hnn : ¬ (((varint (fieldNum <<< 3 ||| 5)).length + 4 : Nat) : Int) < 0 := by omega
    have h4 : int64 (((varint (fieldNum <<< 3 ||| 5)).length : Nat) + 4)
        = (((varint (fieldNum <<< 3 ||| 5)).length + 4 : Nat) : Int) := by
      rw [int64_of_lt _ (by omega) (by omega)]
      omega
    simp only [show ¬ ((5 : Nat) = 0) by decide, show ¬ ((5 : Nat) = 1) by decide,
      show ¬ ((5 : Nat) = 2) by decide, show ¬ ((5 : Nat) = 3) by decide,
      show ¬ ((5 : Nat) = 4) by decide, if_false, if_true, h4]
    simp only [hnn, if_false, hrl, hx]

theorem int32OfNat_of_lt (n : Nat) (h : n < 2 ^ 31) : int32OfNat n = (n : Int) := by
  unfold int32OfNat
  have h1 : n % 2 ^ 32 = n := Nat.mod_eq_of_lt (by omega)
  rw [h1, if_pos h]

theorem natCast_ne_small (n : Nat) (k : Int) (h : 12 < n) (hk : k ≤ 12) : ¬ ((n : Int) = k) := by
  omega

theorem natCast_not_le_zero (n : Nat) (h : 12 < n) : ¬ ((n : Int) ≤ 0) := by
  omega

/-- One iteration of the decoder loop, started at the record of a field with a number above
12 and wire type 0, 1, 2 or 5, consumes the record and leaves the packet as it is. -/
theorem Decodes.unknownField (fieldNum : Nat) (x : FieldValue) (hf : 12 < fieldNum)
    (hf' : fieldNum < 2 ^ 29) (hx : x.WellFormed) :
    Decodes (fieldRecord fieldNum x) (fun m => m) := by
  intro data i m post hd hlen
  have hwt : x.wireType < 8 := by cases x <;> simp [FieldValue.wireType]
  have hwt4 : x.wireType ≠ 4 := by cases x <;> simp [FieldValue.wireType]
  obtain ⟨he, hand, hshift⟩ := tag_arith fieldNum x.wireType hwt
  have hw64 : fieldNum <<< 3 ||| x.wireType < 2 ^ 64 := by omega
  have hd0 : data.drop i
      = varint (fieldNum <<< 3 ||| x.wireType) ++ (x.encode ++ post) := by
    rw [hd]
    simp [fieldRecord]
  have hr := readVarint_varint 64 data i _ _ hd0 hw64
  rw [Nat.mod_eq_of_lt hw64] at hr
  have hne : fieldRecord fieldNum x ≠ [] := by
    have h1 := varint_length_pos (fieldNum <<< 3 ||| x.wireType)
    have h2 := fieldRecord_length fieldNum x
    intro h
    rw [h] at h2
    simp only [List.length_nil] at h2
    omega
  have htot := length_ge_of_drop hd hne
  have hsk : skipField data i data.length = .ok (i + (fieldRecord fieldNum x).length) := by
    have hnn : ¬ ((((fieldRecord fieldNum x).length : Nat) : Int) < 0
        ∨ (((i + (fieldRecord fieldNum x).length : Nat) : Int) < 0)) := by omega
    have hle : ¬ ((((i + (fieldRecord fieldNum x).length : Nat) : Int)) > (data.length : Int)) := by
      omega
    have h0 : (0 : Int) ≤ (((i + (fieldRecord fieldNum x).length : Nat)) : Int) := by omega
    have h63 : (((i + (fieldRecord fieldNum x).length : Nat)) : Int) < 2 ^ 63 := by omega
    have hc : (i : Int) + (((fieldRecord fieldNum x).length : Nat) : Int)
        = (((i + (fieldRecord fieldNum x).length : Nat)) : Int) := by omega
    have hl63 : (fieldRecord fieldNum x ++ post).length < 2 ^ 63 := by
      rw [List.length_append]; omega
    unfold skipField
    rw [hd, skipGenesis_fieldRecord fieldNum x post hf' hx hl63]
    simp only [hc, int64_of_lt _ h0 h63, hnn, hle, if_false, Int.toNat_ofNat]
  have hfn : int32OfNat ((fieldNum <<< 3 ||| x.wireType) >>> 3) = (fieldNum : Int) := by
    rw [hshift]
    exact int32OfNat_of_lt fieldNum (by omega)
  have hw4 : ¬ ((fieldNum <<< 3 ||| x.wireType) &&& 7 = 4) := by
    rw [hand]; exact hwt4
  have hle0 : ¬ (int32OfNat ((fieldNum <<< 3 ||| x.wireType) >>> 3) ≤ 0) := by
    rw [hfn]; exact natCast_not_le_zero fieldNum hf
  have n1 : ¬ (int32OfNat ((fieldNum <<< 3 ||| x.wireType) >>> 3) = 1) := by
    rw [hfn]; exact natCast_ne_small fieldNum 1 hf (by norm_num)
  have n2 : ¬ (int32OfNat ((fieldNum <<< 3 ||| x.wireType) >>> 3) = 2) := by
    rw [hfn]; exact natCast_ne_small fieldNum 2 hf (by norm_num)
  have n3 : ¬ (int32OfNat ((fieldNum <<< 3 ||| x.wireType) >>> 3) = 3) := by
    rw [hfn]; exact natCast_ne_small fieldNum 3 hf (by norm_num)
  have n4 : ¬ (int32OfNat ((fieldNum <<< 3 ||| x.wireType) >>> 3) = 4) := by
    rw [hfn]; exact natCast_ne_small fieldNum 4 hf (by norm_num)
  have n5 : ¬ (int32OfNat ((fieldNum <<< 3 ||| x.wireType) >>> 3) = 5) := by
    rw [hfn]; exact natCast_ne_small fieldNum 5 hf (by norm_num)
  have n6 : ¬ (int32OfNat ((fieldNum <<< 3 ||| x.wireType) >>> 3) = 6) := by
    rw [hfn]; exact natCast_ne_small fieldNum 6 hf (by norm_num)
  have n7 : ¬ (int32OfNat ((fieldNum <<< 3 ||| x.wireType) >>> 3) = 7) := by
    rw [hfn]; exact natCast_ne_small fieldNum 7 hf (by norm_num)
  have n8 : ¬ (int32OfNat ((fieldNum <<< 3 ||| x.wireType) >>> 3) = 8) := by
    rw [hfn]; exact natCast_ne_small fieldNum 8 hf (by norm_num)
  have n9 : ¬ (int32OfNat ((fieldNum <<< 3 ||| x.wireType) >>> 3) = 9) := by
    rw [hfn]; exact natCast_ne_small fieldNum 9 hf (by norm_num)
  have n10 : ¬ (int32OfNat ((fieldNum <<< 3 ||| x.wireType) >>> 3) = 10) := by
    rw [hfn]; exact natCast_ne_small fieldNum 10 hf (by norm_num)
  have n11 : ¬ (int32OfNat ((fieldNum <<< 3 ||| x.wireType) >>> 3) = 11) := by
    rw [hfn]; exact natCast_ne_small fieldNum 11 hf (by norm_num)
  have n12 : ¬ (int32OfNat ((fieldNum <<< 3 ||| x.wireType) >>> 3) = 12) := by
    rw [hfn]; exact natCast_ne_small fieldNum 12 hf (by norm_num)
  simp only [InFlightPacket.Unmarshal.step, hr, hw4, hle0, n1, n2, n3, n4, n5, n6, n7, n8, n9, n10, n11, n12, if_false, hsk]

/-- Decoding a sequence of records, each either empty or decoded by one iteration, applies
the updates of the non-empty records in order. -/
theorem InFlightPacket.Unmarshal_records (data : Bytes) (hlen : data.length < 2 ^ 63)
    (rus : List (Bytes × (InFlightPacket → InFlightPacket)))
    (hdec : ∀ ru ∈ rus, ru.1 ≠ [] → Decodes ru.1 ru.2)
    (hdata : data = (rus.map Prod.fst).flatten) (m : InFlightPacket) :
    m.Unmarshal data = .ok (rus.foldl (fun m ru => if ru.1 = [] then m else ru.2 m) m) := by
  have hd : data.drop 0 = (rus.map Prod.fst).flatten ++ [] := by
    simp [← hdata]
  obtain ⟨fuel', hf', heq⟩ := InFlightPacket.Unmarshal.loop_records data hlen rus hdec
    (data.length + 1) 0 m [] hd (by omega)
  unfold InFlightPacket.Unmarshal
  rw [heq]
  rw [← hdata, Nat.zero_add] at hf' ⊢
  cases fuel' with
  | zero => omega
  | succ f => simp [InFlightPacket.Unmarshal.loop]

/-- C28: unknown fields are skipped. For every packet whose fields are values of their Go
types and every well-formed record of a field with a number above 12 (and below `2^29`,
the largest field number of the wire format) and wire type 0, 1, 2 or 5, `Unmarshal` of
`Marshal(p)` followed by the record, and of the record followed by `Marshal(p)`, succeeds
and yields the packet that `Unmarshal` of `Marshal(p)` alone yields. -/
theorem unknown_fields_skipped (p : InFlightPacket) (hp : p.WellFormed) (fieldNum : Nat)
    (x : FieldValue) (hf : 12 < fieldNum) (hf' : fieldNum < 2 ^ 29) (hx : x.WellFormed)
    (hlen : (p.wireLayout ++ fieldRecord fieldNum x).length < 2 ^ 63) :
    ∃ bz, p.Marshal = .ok bz ∧
      InFlightPacket.empty.Unmarshal bz = .ok p ∧
      InFlightPacket.empty.Unmarshal (bz ++ fieldRecord fieldNum x) = .ok p ∧
      InFlightPacket.empty.Unmarshal (fieldRecord fieldNum x ++ bz) = .ok p := by
  have hskip := Decodes.unknownField fieldNum x hf hf' hx
  have hrec := InFlightPacket.recordUpdates_decodes p hp
  have hlay : (p.recordUpdates.map Prod.fst).flatten = p.wireLayout := by
    simp [InFlightPacket.recordUpdates_fst, InFlightPacket.wireLayout]
  refine ⟨p.wireLayout, InFlightPacket.Marshal_eq_wireLayout p hp,
    InFlightPacket.Unmarshal_wireLayout p hp, ?_, ?_⟩
  · have h := InFlightPacket.Unmarshal_records (p.wireLayout ++ fieldRecord fieldNum x) hlen
      (p.recordUpdates ++ [(fieldRecord fieldNum x, fun m => m)])
      (by
        intro ru hmem hne
        rcases List.mem_append.mp hmem with h | h
        · exact hrec ru h hne
        · rw [List.mem_singleton] at h
          subst h
          exact hskip)
      (by simp [hlay]) InFlightPacket.empty
    rw [h, List.foldl_append, InFlightPacket.recordUpdates_foldl]
    simp
  · have h := InFlightPacket.Unmarshal_records (fieldRecord fieldNum x ++ p.wireLayout)
      (by rw [List.length_append, Nat.add_comm, ← List.length_append]; exact hlen)
      ((fieldRecord fieldNum x, fun m => m) :: p.recordUpdates)
      (by
        intro ru hmem hne
        rcases List.mem_cons.mp hmem with h | h
        · subst h
          exact hskip
        · exact hrec ru h hne)
      (by simp [hlay]) InFlightPacket.empty
    rw [h, List.foldl_cons]
    simp only [ite_self]
    rw [InFlightPacket.recordUpdates_foldl p]

/-- Witness of C28: the example packet with the record `68 05` (field 13, varint 5)
behind it and in front of it. -/
theorem unknown_fields_skipped_witness :
    ∃ bz, examplePacketA.Marshal = .ok bz ∧
      InFlightPacket.empty.Unmarshal bz = .ok examplePacketA ∧
      InFlightPacket.empty.Unmarshal (bz ++ fieldRecord 13 (.ofVarint 5)) = .ok examplePacketA ∧
      InFlightPacket.empty.Unmarshal (fieldRecord 13 (.ofVarint 5) ++ bz) = .ok examplePacketA :=
  unknown_fields_skipped examplePacketA (by unfold InFlightPacket.WellFormed; decide) 13
    (.ofVarint 5) (by norm_num) (by norm_num) (by unfold FieldValue.WellFormed; norm_num)
    (by decide)

end RouterTypes
